import Mathlib

/-!
# lakeFS: the DynamoDB key-value driver (`pkg/kv/dynamodb/store.go`)

A shallow embedding of the driver.  The driver's own functions (`Get`, `Set`, `SetIf`,
`setWithOptionalPredicate`, `Delete`, `Scan`, `scanInternal`, `EntriesIterator.Next`, ...)
are translated statement by statement.  The AWS SDK client the driver talks to
(`*dynamodb.DynamoDB` and the `dynamodbattribute` codec) is not part of the repository:
the driver is written against the record `SDK σ` of its entry points, where `σ` is the
state of the service, and `Mem.sdk` is an in-memory table that plays the working backend.

The later parts embed the template functions (`pkg/templater/funcs.go`), the handlers of
the S3 gateway (`gateway/server.go`) and the persisted records
(`pkg/graveler/graveler.pb.go`), each over the collaborators it calls.
-/

namespace LakeFS

/-! ## Go values -/

/-- One byte. -/
abbrev Byte := Fin 256

/-- A Go `[]byte`: `none` is the nil slice, `some l` a non-nil slice with content `l`. -/
abbrev Bytes := Option (List Byte)

/-- Go `len(b)`; the nil slice has length 0. -/
def Bytes.len : Bytes → Nat
  | none => 0
  | some l => l.length

/-- Result of running a Go function that may panic.  `fuel` is not a behaviour of the
program: it is what a model of an unbounded `for` loop returns when its step budget is
used up before the loop exits. -/
inductive Outcome (α : Type) where
  | ret (a : α)
  | panic
  | fuel

/-! ## `pkg/kv`: errors, predicates, entries -/

namespace KV

/-- The error values of package `kv` that the driver returns or wraps. -/
inductive Sentinel where
  | ErrMissingPartitionKey
  | ErrMissingKey
  | ErrMissingValue
  | ErrNotFound
  | ErrPredicateFailed
  | ErrOperationFailed
  | ErrClosedEntries
  | ErrSetupFailed
  | ErrTableNotActive
  deriving DecidableEq, Repr

/-- A non-nil Go `error` built by the driver: a sentinel of package `kv`, or
`fmt.Errorf(format, ..., inner)` where `inner` is the operand of the `%w` verb.  The
rendering of the `%s`/`%v` operands is text only and is not kept. -/
inductive Error where
  | sentinel (s : Sentinel)
  | errorf (format : String) (inner : Error)
  deriving DecidableEq, Repr

/-- Go `errors.Is(e, target)` for a sentinel target: follow the `%w` chain. -/
def Error.Is : Error → Sentinel → Bool
  | .sentinel s, t => decide (s = t)
  | .errorf _ inner, t => inner.Is t

/-- The type `kv.Predicate` is an empty interface.  `nil` is the nil interface, `bytes b`
an interface value of dynamic type `[]byte` (the slice inside may itself be nil), `other`
a value of any other dynamic type. -/
inductive Predicate where
  | nil
  | bytes (b : Bytes)
  | other
  deriving DecidableEq, Repr

/-- The struct `kv.ValueWithPredicate`. -/
structure ValueWithPredicate where
  Value : Bytes
  Predicate : Predicate
  deriving DecidableEq, Repr

/-- The struct `kv.Entry`. -/
structure Entry where
  Key : Bytes
  Value : Bytes
  deriving DecidableEq, Repr

end KV

/-! ## The SDK surface used by the driver -/

namespace Dynamodb

open KV

/-- The struct `dynamodb.AttributeValue`, reduced to the binary field `B`, the only one the
driver sets, and the field `NULL`, which the codec sets for a value it has nothing to
encode of (`true` when the `*bool` is set and points to true).  A value with neither
field set carries no data type. -/
structure AttributeValue where
  B : Bytes
  NULL : Bool := false
  deriving DecidableEq, Repr

/-- A Go `map[string]*dynamodb.AttributeValue`, as an association list. -/
abbrev AttrMap := List (String × AttributeValue)

/-- Go map read `m[name]`. -/
def AttrMap.get (m : AttrMap) (name : String) : Option AttributeValue :=
  (m.find? (fun kv => kv.1 == name)).map (fun kv => kv.2)

/-- Errors returned by the service client.  The driver distinguishes two by type
(`*dynamodb.ConditionalCheckFailedException`, `*dynamodb.ResourceInUseException`); every
other failure is `other`. -/
inductive AwsError where
  | ConditionalCheckFailedException
  | ResourceInUseException
  | other (msg : String)
  deriving DecidableEq, Repr

/-- The struct `dynamodb.GetItemInput`. -/
structure GetItemInput where
  TableName : String
  Key : AttrMap
  ConsistentRead : Bool
  deriving DecidableEq, Repr

/-- The struct `dynamodb.PutItemInput`. -/
structure PutItemInput where
  Item : AttrMap
  TableName : String
  ConditionExpression : Option String
  ExpressionAttributeValues : AttrMap
  deriving DecidableEq, Repr

/-- The struct `dynamodb.DeleteItemInput`. -/
structure DeleteItemInput where
  TableName : String
  Key : AttrMap
  deriving DecidableEq, Repr

/-- The struct `dynamodb.QueryInput`. -/
structure QueryInput where
  TableName : String
  KeyConditionExpression : String
  ExpressionAttributeValues : AttrMap
  ConsistentRead : Bool
  ScanIndexForward : Bool
  ExclusiveStartKey : Option AttrMap
  Limit : Option Int
  deriving DecidableEq, Repr

/-- The struct `dynamodb.QueryOutput`: `Count` is the `*int64` the service always sets,
`LastEvaluatedKey` is `none` for the nil map. -/
structure QueryOutput where
  Items : List AttrMap
  Count : Int
  LastEvaluatedKey : Option AttrMap
  deriving DecidableEq, Repr

/-- The struct `DynKVItem` (store.go:36). -/
structure DynKVItem where
  PartitionKey : Bytes
  ItemKey : Bytes
  ItemValue : Bytes
  deriving DecidableEq, Repr

/-- The entry points of the AWS SDK that the driver calls, over a service state `σ`.
Each service call returns its result and the next service state.  `GetItem` returns the
`Item` field of the output (`none` when the key holds no item).  `UnmarshalMap` fills the
destination and may also report an error, as the Go function does. -/
structure SDK (σ : Type) where
  GetItemWithContext : GetItemInput → σ → Except AwsError (Option AttrMap) × σ
  PutItemWithContext : PutItemInput → σ → Option AwsError × σ
  DeleteItemWithContext : DeleteItemInput → σ → Option AwsError × σ
  QueryWithContext : QueryInput → σ → Except AwsError QueryOutput × σ
  MarshalMap : DynKVItem → Except String AttrMap
  UnmarshalMap : AttrMap → DynKVItem × Option String

/-- The fields of `kvparams.DynamoDB` that the driver reads once it has a client: the table
name, the page size of scans, and the provisioned throughput of a table it creates. -/
structure Params where
  TableName : String
  ScanLimit : Int
  ReadCapacityUnits : Int := 0
  WriteCapacityUnits : Int := 0
  deriving DecidableEq, Repr

/-- The struct `Store` (store.go:20). -/
structure Store (σ : Type) where
  svc : SDK σ
  params : Params

/-- Attribute names (store.go:45-47). -/
def PartitionKey : String := "PartitionKey"
/-- Attribute name of the sort key. -/
def ItemKey : String := "ItemKey"
/-- Attribute name of the value. -/
def ItemValue : String := "ItemValue"

/-- The method `bytesKeyToDynamoKey` (store.go:155). -/
def Store.bytesKeyToDynamoKey {σ : Type} (_s : Store σ) (partitionKey key : Bytes) : AttrMap :=
  [(PartitionKey, { B := partitionKey }), (ItemKey, { B := key })]

/-- The method `Store.Get` (store.go:166).  The result is the Go pair
`(*kv.ValueWithPredicate, error)` together with the service state after the call. -/
def Store.Get {σ : Type} (s : Store σ) (partitionKey key : Bytes) (db : σ) :
    (Option ValueWithPredicate × Option Error) × σ :=
  if partitionKey.len = 0 then
    ((none, some (.sentinel .ErrMissingPartitionKey)), db)
  else if key.len = 0 then
    ((none, some (.sentinel .ErrMissingKey)), db)
  else
    match s.svc.GetItemWithContext
        { TableName := s.params.TableName,
          Key := s.bytesKeyToDynamoKey partitionKey key,
          ConsistentRead := true } db with
    | (.error _, db1) =>
      ((none, some (.errorf "get item: %s (key=%v): %w" (.sentinel .ErrOperationFailed))), db1)
    | (.ok none, db1) =>
      ((none, some (.errorf "key=%v: %w" (.sentinel .ErrNotFound))), db1)
    | (.ok (some resultItem), db1) =>
      match s.svc.UnmarshalMap resultItem with
      | (_, some _) =>
        ((none, some (.errorf "unmarshal map: %s (key=%v): %w" (.sentinel .ErrOperationFailed))),
          db1)
      | (item, none) =>
        ((some { Value := item.ItemValue, Predicate := .bytes item.ItemValue }, none), db1)

/-- The method `Store.setWithOptionalPredicate` (store.go:207).  The result is the Go
`error` (`none` for nil) and the service state after the call; the type assertion
`valuePredicate.([]byte)` panics on a predicate of another dynamic type. -/
def Store.setWithOptionalPredicate {σ : Type} (s : Store σ) (partitionKey key value : Bytes)
    (valuePredicate : Predicate) (usePredicate : Bool) (db : σ) :
    Outcome (Option Error × σ) :=
  if partitionKey.len = 0 then
    .ret (some (.sentinel .ErrMissingPartitionKey), db)
  else if key.len = 0 then
    .ret (some (.sentinel .ErrMissingKey), db)
  else if value = none then
    .ret (some (.sentinel .ErrMissingValue), db)
  else
    let item : DynKVItem := { PartitionKey := partitionKey, ItemKey := key, ItemValue := value }
    match s.svc.MarshalMap item with
    | .error _ =>
      .ret (some (.errorf "marshal map: %s (key=%v): %w" (.sentinel .ErrOperationFailed)), db)
    | .ok marshaledItem =>
      let input : PutItemInput :=
        { Item := marshaledItem, TableName := s.params.TableName,
          ConditionExpression := none, ExpressionAttributeValues := [] }
      let input? : Option PutItemInput :=
        if usePredicate then
          match valuePredicate with
          | .nil =>
            some { input with
              ConditionExpression := some ("attribute_not_exists(" ++ ItemValue ++ ")") }
          | .bytes b =>
            some { input with
              ConditionExpression := some (ItemValue ++ " = :predicate"),
              ExpressionAttributeValues := [(":predicate", { B := b })] }
          | .other => none
        else some input
      match input? with
      | none => .panic
      | some input =>
        match s.svc.PutItemWithContext input db with
        | (some err, db1) =>
          if err = .ConditionalCheckFailedException ∧ usePredicate = true then
            .ret (some (.sentinel .ErrPredicateFailed), db1)
          else
            .ret (some (.errorf "put item: %s (key=%v): %w" (.sentinel .ErrOperationFailed)),
              db1)
        | (none, db1) => .ret (none, db1)

/-- The method `Store.Set` (store.go:199). -/
def Store.Set {σ : Type} (s : Store σ) (partitionKey key value : Bytes) (db : σ) :
    Outcome (Option Error × σ) :=
  s.setWithOptionalPredicate partitionKey key value .nil false db

/-- The method `Store.SetIf` (store.go:203). -/
def Store.SetIf {σ : Type} (s : Store σ) (partitionKey key value : Bytes)
    (valuePredicate : Predicate) (db : σ) : Outcome (Option Error × σ) :=
  s.setWithOptionalPredicate partitionKey key value valuePredicate true db

/-- The method `Store.Delete` (store.go:254). -/
def Store.Delete {σ : Type} (s : Store σ) (partitionKey key : Bytes) (db : σ) :
    Option Error × σ :=
  if partitionKey.len = 0 then
    (some (.sentinel .ErrMissingPartitionKey), db)
  else if key.len = 0 then
    (some (.sentinel .ErrMissingKey), db)
  else
    match s.svc.DeleteItemWithContext
        { TableName := s.params.TableName,
          Key := s.bytesKeyToDynamoKey partitionKey key } db with
    | (some _, db1) =>
      (some (.errorf "delete item: %s (key=%v): %w" (.sentinel .ErrOperationFailed)), db1)
    | (none, db1) => (none, db1)

/-- The struct `EntriesIterator` (store.go:25); the context field is not modelled. -/
structure EntriesIterator (σ : Type) where
  entry : Option Entry
  err : Option Error
  store : Store σ
  queryResult : QueryOutput
  currEntryIdx : Int
  partKey : Bytes
  startKey : Bytes

/-- The method `Store.scanInternal` (store.go:280).  The result is the Go pair
`(*EntriesIterator, error)` and the service state after the call. -/
def Store.scanInternal {σ : Type} (s : Store σ) (partitionKey scanKey : Bytes)
    (exclusiveStartKey : Option AttrMap) (db : σ) :
    (Option (EntriesIterator σ) × Option Error) × σ :=
  if partitionKey.len = 0 then
    ((none, some (.sentinel .ErrMissingPartitionKey)), db)
  else
    let keyConditionExpression : String := PartitionKey ++ " = :partitionkey"
    let expressionAttributeValues : AttrMap := [(":partitionkey", { B := partitionKey })]
    let keyConditionExpression : String :=
      if scanKey.len > 0 then keyConditionExpression ++ " AND " ++ ItemKey ++ " >= :fromkey"
      else keyConditionExpression
    let expressionAttributeValues : AttrMap :=
      if scanKey.len > 0 then expressionAttributeValues ++ [(":fromkey", { B := scanKey })]
      else expressionAttributeValues
    let queryInput : QueryInput :=
      { TableName := s.params.TableName,
        KeyConditionExpression := keyConditionExpression,
        ExpressionAttributeValues := expressionAttributeValues,
        ConsistentRead := true,
        ScanIndexForward := true,
        ExclusiveStartKey := exclusiveStartKey,
        Limit := none }
    let queryInput : QueryInput :=
      if s.params.ScanLimit ≠ 0 then { queryInput with Limit := some s.params.ScanLimit }
      else queryInput
    match s.svc.QueryWithContext queryInput db with
    | (.error _, db1) =>
      ((none, some (.errorf "query: %s (start=%v): %w " (.sentinel .ErrOperationFailed))), db1)
    | (.ok queryOutput, db1) =>
      ((some { entry := none, err := none, store := s, partKey := partitionKey,
               startKey := scanKey, queryResult := queryOutput, currEntryIdx := 0 }, none), db1)

/-- The method `Store.Scan` (store.go:272). -/
def Store.Scan {σ : Type} (s : Store σ) (partitionKey start : Bytes) (db : σ) :
    (Option (EntriesIterator σ) × Option Error) × σ :=
  match s.scanInternal partitionKey start none db with
  | ((_, some err), db1) => ((none, some err), db1)
  | ((internalIter, none), db1) => ((internalIter, none), db1)

/-- The body of `EntriesIterator.Next` after the `e.err != nil` guard (store.go:338-362).
`pages` bounds the number of page fetches the `for` loop may make. -/
def EntriesIterator.nextLoop {σ : Type} :
    Nat → EntriesIterator σ → σ → Outcome (Bool × EntriesIterator σ × σ)
  | pages, e, db =>
    if e.currEntryIdx = e.queryResult.Count then
      match e.queryResult.LastEvaluatedKey with
      | none => .ret (false, e, db)
      | some lastEvaluatedKey =>
        match pages with
        | 0 => .fuel
        | pages + 1 =>
          match e.store.scanInternal e.partKey e.startKey (some lastEvaluatedKey) db with
          | ((_, some err), db1) =>
            .ret (false, { e with err := some (.errorf "scan paging: %w" err) }, db1)
          | ((none, none), _) => .panic
          | ((some tmpEntriesIter, none), db1) =>
            nextLoop pages
              { e with queryResult := tmpEntriesIter.queryResult, currEntryIdx := 0 } db1
    else
      if e.currEntryIdx < 0 then .panic
      else
        match e.queryResult.Items.get? e.currEntryIdx.toNat with
        | none => .panic
        | some raw =>
          let (item, uerr) := e.store.svc.UnmarshalMap raw
          let err : Option Error :=
            match uerr with
            | some _ => some (.errorf "unmarshal map: %s: %w" (.sentinel .ErrOperationFailed))
            | none => e.err
          .ret (true,
            { e with err := err,
                     entry := some { Key := item.ItemKey, Value := item.ItemValue },
                     currEntryIdx := e.currEntryIdx + 1 }, db)

/-- The method `EntriesIterator.Next` (store.go:333). -/
def EntriesIterator.Next {σ : Type} (pages : Nat) (e : EntriesIterator σ) (db : σ) :
    Outcome (Bool × EntriesIterator σ × σ) :=
  if e.err ≠ none then .ret (false, e, db)
  else e.nextLoop pages db

/-- The method `EntriesIterator.Entry` (store.go:365). -/
def EntriesIterator.Entry {σ : Type} (e : EntriesIterator σ) : Option KV.Entry := e.entry

/-- The method `EntriesIterator.Err` (store.go:369). -/
def EntriesIterator.Err {σ : Type} (e : EntriesIterator σ) : Option Error := e.err

/-- The method `EntriesIterator.Close` (store.go:373). -/
def EntriesIterator.Close {σ : Type} (e : EntriesIterator σ) : EntriesIterator σ :=
  { e with err := some (.sentinel .ErrClosedEntries) }

/-- The caller's loop `for it.Next() { out = append(out, it.Entry()) }`: the entries seen
until `Next` first returns false, with the iterator and service state at that point.
`steps` bounds the number of `Next` calls, `pages` the page fetches inside each. -/
def EntriesIterator.drain {σ : Type} (pages : Nat) :
    Nat → EntriesIterator σ → σ → Outcome (List (Option KV.Entry) × EntriesIterator σ × σ)
  | 0, _, _ => .fuel
  | steps + 1, e, db =>
    match e.Next pages db with
    | .fuel => .fuel
    | .panic => .panic
    | .ret (false, e1, db1) => .ret ([], e1, db1)
    | .ret (true, e1, db1) =>
      match drain pages steps e1 db1 with
      | .ret (rest, e2, db2) => .ret (e1.Entry :: rest, e2, db2)
      | .panic => .panic
      | .fuel => .fuel

/-! ## An in-memory table: the working backend

The service behind the client, for one table with hash key `PartitionKey` and range key
`ItemKey` (both binary, as `setupKeyValueDatabase` declares them).  Rows are kept in
ascending (partition key, sort key) order, bytewise.  Every call is recorded.  The service
never fails for a reason of its own: it rejects a request it cannot interpret, reports a
failed condition, and otherwise answers.  The table name of a request is not looked at. -/

namespace Mem

/-- Bytewise (unsigned, lexicographic) strict order on binary attribute values. -/
def bytesLt : List Byte → List Byte → Bool
  | [], [] => false
  | [], _ :: _ => true
  | _ :: _, [] => false
  | a :: as, b :: bs => decide (a.val < b.val) || (decide (a = b) && bytesLt as bs)

/-- A stored item with its primary key. -/
structure Row where
  pk : List Byte
  sk : List Byte
  item : AttrMap
  deriving DecidableEq, Repr

/-- Primary-key test. -/
def Row.hasKey (pk sk : List Byte) (r : Row) : Bool := decide (r.pk = pk) && decide (r.sk = sk)

/-- Storage order of rows: by partition key, then by sort key. -/
def rowLt (a b : Row) : Bool :=
  bytesLt a.pk b.pk || (decide (a.pk = b.pk) && bytesLt a.sk b.sk)

/-- A request received by the service. -/
inductive Call where
  | getItem (i : GetItemInput)
  | putItem (i : PutItemInput)
  | deleteItem (i : DeleteItemInput)
  | query (i : QueryInput)
  deriving DecidableEq, Repr

/-- State of the service: the rows of the table, the bound on the number of items the
service puts in one query page on its own account (the response-size bound; 0 for none),
and the requests received so far, most recent first. -/
structure Table where
  rows : List Row
  pageCap : Nat
  calls : List Call
  deriving DecidableEq, Repr

/-- The table after receiving a request. -/
def Table.record (t : Table) (c : Call) : Table := { t with calls := c :: t.calls }

/-- Whether an attribute value carries exactly one data type, as the service requires of
every value it is sent: a binary (of any length), or `NULL`. -/
def typed (a : AttributeValue) : Bool :=
  (a.B.isSome && !a.NULL) || (a.B.isNone && a.NULL)

/-- Primary key carried by a key map or an item: both key attributes must be present,
binary and non-empty. -/
def keyOf (m : AttrMap) : Option (List Byte × List Byte) :=
  match m.get "PartitionKey", m.get "ItemKey" with
  | some ⟨some pk, false⟩, some ⟨some sk, false⟩ =>
    if pk ≠ [] ∧ sk ≠ [] then some (pk, sk) else none
  | _, _ => none

/-- The row stored under a primary key. -/
def lookup (rows : List Row) (pk sk : List Byte) : Option Row :=
  rows.find? (Row.hasKey pk sk)

/-- Insert a row at its place in storage order. -/
def insertRow (r : Row) : List Row → List Row
  | [] => [r]
  | x :: xs => if rowLt r x then r :: x :: xs else x :: insertRow r xs

/-- Remove the row stored under a primary key, if any. -/
def removeKey (rows : List Row) (pk sk : List Byte) : List Row :=
  rows.filter (fun x => !Row.hasKey pk sk x)

/-- Replace or add the row under its primary key. -/
def upsert (r : Row) (rows : List Row) : List Row :=
  insertRow r (removeKey rows r.pk r.sk)

/-- The service answer to a request it cannot interpret. -/
def validationException : AwsError := .other "ValidationException"

/-- Service side of `GetItem`. -/
def getItem (i : GetItemInput) (t : Table) : Except AwsError (Option AttrMap) × Table :=
  let t1 : Table := t.record (.getItem i)
  match keyOf i.Key with
  | none => (.error validationException, t1)
  | some (pk, sk) => (.ok ((lookup t.rows pk sk).map (fun r => r.item)), t1)

/-- Value of a condition expression against the item currently stored under the key
(`none`: the request is rejected, because the expression is not one the table
understands, or because the value given for `:predicate` carries no data type).  An
attribute equals a value when both have the same type and content; an attribute of type
`NULL` exists. -/
def condHolds (i : PutItemInput) (existing : Option Row) : Option Bool :=
  match i.ConditionExpression with
  | none => some true
  | some c =>
    if c = "attribute_not_exists(ItemValue)" then
      match existing with
      | none => some true
      | some r => some (r.item.get "ItemValue").isNone
    else if c = "ItemValue = :predicate" then
      match i.ExpressionAttributeValues.get ":predicate" with
      | none => none
      | some v =>
        if typed v then
          match existing with
          | none => some false
          | some r => some (decide (r.item.get "ItemValue" = some v))
        else none
    else none

/-- Service side of `PutItem`: a request whose item has no proper key, or holds a value
without a data type, is rejected; otherwise the condition is checked and the item
written in one step. -/
def putItem (i : PutItemInput) (t : Table) : Option AwsError × Table :=
  let t1 : Table := t.record (.putItem i)
  match keyOf i.Item with
  | none => (some validationException, t1)
  | some (pk, sk) =>
    if i.Item.all (fun kv => typed kv.2) then
      match condHolds i (lookup t.rows pk sk) with
      | none => (some validationException, t1)
      | some false => (some .ConditionalCheckFailedException, t1)
      | some true =>
        (none, { t1 with rows := upsert { pk := pk, sk := sk, item := i.Item } t.rows })
    else (some validationException, t1)

/-- Service side of `DeleteItem`: deleting an absent key is not an error. -/
def deleteItem (i : DeleteItemInput) (t : Table) : Option AwsError × Table :=
  let t1 : Table := t.record (.deleteItem i)
  match keyOf i.Key with
  | none => (some validationException, t1)
  | some (pk, sk) => (none, { t1 with rows := removeKey t.rows pk sk })

/-- A parsed key condition: the partition, and the inclusive lower bound on the sort key. -/
structure KeyCond where
  pk : List Byte
  lo : Option (List Byte)
  deriving DecidableEq, Repr

/-- The two key conditions the table understands. -/
def parseKeyCondition (i : QueryInput) : Option KeyCond :=
  if i.KeyConditionExpression = "PartitionKey = :partitionkey" then
    match i.ExpressionAttributeValues.get ":partitionkey" with
    | some ⟨some pk, false⟩ => if pk ≠ [] then some { pk := pk, lo := none } else none
    | _ => none
  else if i.KeyConditionExpression = "PartitionKey = :partitionkey AND ItemKey >= :fromkey" then
    match i.ExpressionAttributeValues.get ":partitionkey",
          i.ExpressionAttributeValues.get ":fromkey" with
    | some ⟨some pk, false⟩, some ⟨some lo, false⟩ =>
      if pk ≠ [] then some { pk := pk, lo := some lo } else none
    | _, _ => none
  else none

/-- The sort key after which a query resumes (`some none`: from the beginning; `none`: the
exclusive start key is not a key of the queried partition). -/
def startAfter (pk : List Byte) : Option AttrMap → Option (Option (List Byte))
  | none => some none
  | some m =>
    match keyOf m with
    | some (p, k) => if p = pk then some (some k) else none
    | none => none

/-- Number of items the service evaluates for one page (`some none`: no bound; `none`: the
requested limit is below 1, which the service rejects). -/
def pageLimit (limit : Option Int) (cap : Nat) : Option (Option Nat) :=
  match limit with
  | none => some (if cap = 0 then none else some cap)
  | some n =>
    if n < 1 then none
    else some (some (if cap = 0 then n.toNat else min n.toNat cap))

/-- Rows selected by a key condition and a resume point. -/
def selects (c : KeyCond) (after : Option (List Byte)) (r : Row) : Bool :=
  decide (r.pk = c.pk) &&
  (match c.lo with
    | none => true
    | some lo => !bytesLt r.sk lo) &&
  (match after with
    | none => true
    | some k => bytesLt k r.sk)

/-- The key map of a row, as returned in `LastEvaluatedKey`. -/
def keyMap (r : Row) : AttrMap :=
  [("PartitionKey", { B := some r.pk }), ("ItemKey", { B := some r.sk })]

/-- The rows of one query page: the selected rows in storage order, up to the page limit. -/
def pageRows (rows : List Row) (c : KeyCond) (after : Option (List Byte)) :
    Option Nat → List Row
  | none => rows.filter (selects c after)
  | some n => (rows.filter (selects c after)).take n

/-- The output for one query page.  When the page limit stops the page, the key of its
last row is returned as `LastEvaluatedKey`. -/
def pageOutput (rows : List Row) (c : KeyCond) (after : Option (List Byte))
    (lim : Option Nat) : QueryOutput :=
  { Items := (pageRows rows c after lim).map (fun r => r.item),
    Count := ((pageRows rows c after lim).length : Int),
    LastEvaluatedKey :=
      match lim with
      | none => none
      | some n =>
        if (pageRows rows c after lim).length = n then
          (pageRows rows c after lim).getLast?.map keyMap
        else none }

/-- Service side of `Query` (forward, consistent). -/
def query (i : QueryInput) (t : Table) : Except AwsError QueryOutput × Table :=
  let t1 : Table := t.record (.query i)
  match parseKeyCondition i with
  | none => (.error validationException, t1)
  | some c =>
    match startAfter c.pk i.ExclusiveStartKey, pageLimit i.Limit t.pageCap with
    | some after, some lim =>
      if i.ScanIndexForward = false then (.error validationException, t1)
      else (.ok (pageOutput t.rows c after lim), t1)
    | _, _ => (.error validationException, t1)

/-- The codec of `dynamodbattribute` on a `[]byte` field, with the options the driver
leaves at their defaults: a slice that holds bytes becomes a binary attribute; a nil
slice and an empty one have nothing to encode and become `NULL`. -/
def encodeBytes : Bytes → AttributeValue
  | some (x :: xs) => { B := some (x :: xs) }
  | _ => { B := none, NULL := true }

/-- The codec of `dynamodbattribute` into a `[]byte` field: a binary attribute that holds
bytes fills the field; `NULL`, an empty binary and a missing attribute leave it nil. -/
def decodeBytes : Option AttributeValue → Bytes
  | some ⟨some (x :: xs), _⟩ => some (x :: xs)
  | _ => none

/-- The codec `dynamodbattribute.MarshalMap` on `DynKVItem`: one attribute per field,
under the field name.  It does not keep an empty value as it is: the attribute written
for it is `NULL`. -/
def marshalMap (item : DynKVItem) : Except String AttrMap :=
  .ok [("PartitionKey", encodeBytes item.PartitionKey),
       ("ItemKey", encodeBytes item.ItemKey),
       ("ItemValue", encodeBytes item.ItemValue)]

/-- The codec `dynamodbattribute.UnmarshalMap` into `DynKVItem`: each field is read from
the attribute under its name; a missing attribute leaves the field nil. -/
def unmarshalMap (m : AttrMap) : DynKVItem × Option String :=
  ({ PartitionKey := decodeBytes (m.get "PartitionKey"),
     ItemKey := decodeBytes (m.get "ItemKey"),
     ItemValue := decodeBytes (m.get "ItemValue") }, none)

/-- The client over the in-memory table. -/
def sdk : SDK Table where
  GetItemWithContext := getItem
  PutItemWithContext := putItem
  DeleteItemWithContext := deleteItem
  QueryWithContext := query
  MarshalMap := marshalMap
  UnmarshalMap := unmarshalMap

/-- A store opened over the in-memory table. -/
def store (params : Params) : Store Table := { svc := sdk, params := params }

/-- The attribute stored as `ItemValue` under `(pk, sk)` (`none` when there is no such
row or attribute). -/
def valueAt (t : Table) (pk sk : List Byte) : Option AttributeValue :=
  (lookup t.rows pk sk).bind (fun r => r.item.get "ItemValue")

/-- The value that `Get` reads under `(pk, sk)` (`none` when there is no row). -/
def readAt (t : Table) (pk sk : List Byte) : Option Bytes :=
  (lookup t.rows pk sk).map (fun r => decodeBytes (r.item.get "ItemValue"))

/-- The attribute map the codec produces for the item `(pk, sk, v)`. -/
def encoded (pk sk : List Byte) (v : Bytes) : AttrMap :=
  [("PartitionKey", encodeBytes (some pk)), ("ItemKey", encodeBytes (some sk)),
   ("ItemValue", encodeBytes v)]

/-- The table after the item `(pk, sk, v)` is written under its key. -/
def Table.write (t : Table) (pk sk : List Byte) (v : Bytes) : Table :=
  { t with rows := upsert { pk := pk, sk := sk, item := encoded pk sk v } t.rows }

/-- The table after the row under `(pk, sk)` is removed. -/
def Table.remove (t : Table) (pk sk : List Byte) : Table :=
  { t with rows := removeKey t.rows pk sk }

/-- The entry the iterator yields for a row: the decoded key and value attributes. -/
def entryOf (r : Row) : KV.Entry :=
  { Key := decodeBytes (r.item.get "ItemKey"),
    Value := decodeBytes (r.item.get "ItemValue") }

/-- The inclusive lower bound a scan from `start` puts on the sort key: none when `start`
is empty. -/
def lowerBound : Bytes → Option (List Byte)
  | some (x :: xs) => some (x :: xs)
  | _ => none

/-- The page limit in force for a store with the given `ScanLimit` on a table with the
given page bound. -/
def limitOf (scanLimit : Int) (cap : Nat) : Option Nat :=
  if scanLimit = 0 then (if cap = 0 then none else some cap)
  else some (if cap = 0 then scanLimit.toNat else min scanLimit.toNat cap)

/-- Rows are in strictly ascending storage order and each row is filed under the key
its item carries.  Every table built from the empty one by the driver is of this kind. -/
def Table.WF (t : Table) : Prop :=
  t.rows.Pairwise (fun a b => rowLt a b = true) ∧
  ∀ r ∈ t.rows, keyOf r.item = some (r.pk, r.sk)

instance (t : Table) : Decidable t.WF :=
  inferInstanceAs (Decidable (t.rows.Pairwise (fun a b => rowLt a b = true) ∧
    ∀ r ∈ t.rows, keyOf r.item = some (r.pk, r.sk)))

/-- A query request of a scan of partition `pk` with lower bound `lo`. -/
def Call.isScanQuery (pk : List Byte) (lo : Option (List Byte)) : Call → Bool
  | .query i => decide (parseKeyCondition i = some { pk := pk, lo := lo })
  | _ => false

/-- The iterator of a scan of partition `pk` from `start` that holds the page `out`, is
at index `i` of it, last yielded `ent` and has no error. -/
def iterAt (params : Params) (pk : List Byte) (start : Bytes) (out : QueryOutput) (i : Int)
    (ent : Option KV.Entry) : EntriesIterator Table :=
  { entry := ent, err := none, store := store params, queryResult := out,
    currEntryIdx := i, partKey := some pk, startKey := start }

/-- Strict bytewise order of the keys of two yielded entries. -/
def keyBelow : Option KV.Entry → Option KV.Entry → Bool
  | some a, some b =>
    match a.Key, b.Key with
    | some x, some y => bytesLt x y
    | _, _ => false
  | _, _ => false

/-- The content of a byte slice; the nil slice has none. -/
def content : Bytes → List Byte
  | none => []
  | some l => l

/-- The items of the page the service returns for a recorded request, on a table with the
given rows and page bound (no items for a request that is not a query or is rejected). -/
def served (rows : List Row) (cap : Nat) : Call → List AttrMap
  | .query i =>
    match (query i { rows := rows, pageCap := cap, calls := [] }).1 with
    | .ok out => out.Items
    | .error _ => []
  | _ => []

/-- The entry the iterator builds from an item of a page. -/
def decoded (raw : AttrMap) : Option KV.Entry :=
  some { Key := (unmarshalMap raw).1.ItemKey, Value := (unmarshalMap raw).1.ItemValue }

/-- The Go result of `Get` for the row found under the key. -/
def getResult : Option Row → Option ValueWithPredicate × Option Error
  | none => (none, some (.errorf "key=%v: %w" (.sentinel .ErrNotFound)))
  | some r =>
    (some { Value := decodeBytes (r.item.get "ItemValue"),
            Predicate := .bytes (decodeBytes (r.item.get "ItemValue")) }, none)

/-- A table holding three items of partition `[1]` and one of partition `[2]`.  The item
under `([1], [2, 0])` is the one the driver writes for an empty value. -/
def sampleTable : Table :=
  { rows := [{ pk := [1], sk := [2], item := encoded [1] [2] (some [3]) },
             { pk := [1], sk := [2, 0], item := encoded [1] [2, 0] (some []) },
             { pk := [1], sk := [7], item := encoded [1] [7] (some [8, 9]) },
             { pk := [2], sk := [1], item := encoded [2] [1] (some [5]) }],
    pageCap := 0,
    calls := [] }

/-- Parameters of the sample store: pages of two items. -/
def sampleParams : Params := { TableName := "kvstore", ScanLimit := 2 }

end Mem

/-! ## Provisioning: `Driver.Open` and `setupKeyValueDatabase` -/

/-- The struct `dynamodb.CreateTableInput`: attribute definitions and key schema as pairs
(attribute name, type). -/
structure CreateTableInput where
  TableName : String
  AttributeDefinitions : List (String × String)
  KeySchema : List (String × String)
  ReadCapacityUnits : Int
  WriteCapacityUnits : Int
  deriving DecidableEq, Repr

/-- The part of `dynamodb.CreateTableOutput` the driver reads:
`TableDescription.TableName`. -/
structure CreateTableOutput where
  TableName : String
  deriving DecidableEq, Repr

/-- The struct `dynamodb.DescribeTableInput`. -/
structure DescribeTableInput where
  TableName : String
  deriving DecidableEq, Repr

/-- The part of `dynamodb.DescribeTableOutput` the driver reads: `Table.TableStatus`. -/
structure DescribeTableOutput where
  TableStatus : String
  deriving DecidableEq, Repr

/-- The SDK constant `dynamodb.TableStatusActive`. -/
def TableStatusActive : String := "ACTIVE"

/-- The client `*dynamodb.DynamoDB` with the table-management entry points that
`setupKeyValueDatabase` calls, besides those of `SDK`. -/
structure Client (σ : Type) extends SDK σ where
  CreateTableWithContext : CreateTableInput → σ → Except AwsError CreateTableOutput × σ
  DescribeTable : DescribeTableInput → σ → Except AwsError DescribeTableOutput × σ

/-- A non-nil Go `error` returned by `setupKeyValueDatabase`: an error of the client, passed
on as it is, or an error built by the driver. -/
inductive SetupError where
  | aws (e : AwsError)
  | kv (e : Error)
  deriving DecidableEq, Repr

/-- A non-nil error returned by an operation run under `backoff.Retry`: wrapped by
`backoff.Permanent`, or not. -/
inductive OpError (ε : Type) where
  | permanent (e : ε)
  | transient (e : ε)

/-- The function `backoff.Retry` of the retry library: the operation is run until it
returns nil or a permanent error, or until the backoff policy stops granting another
attempt; then the last error is returned (a permanent one without its wrapper).  The
policy (exponential, with `MaxInterval` 5 s and `MaxElapsedTime` 30 s in the driver) is
reduced to `retries`, the number of further attempts it grants before it stops. -/
def Retry {σ ε : Type} (operation : σ → Option (OpError ε) × σ) : Nat → σ → Option ε × σ
  | retries, db =>
    match operation db with
    | (none, db1) => (none, db1)
    | (some (.permanent e), db1) => (some e, db1)
    | (some (.transient e), db1) =>
      match retries with
      | 0 => (some e, db1)
      | retries + 1 => Retry operation retries db1

/-- The closure `setupKeyValueDatabase` passes to `backoff.Retry` (store.go:139-151): one
poll of the status of the table. -/
def pollTable {σ : Type} (svc : Client σ) (tableName : String) (db : σ) :
    Option (OpError SetupError) × σ :=
  match svc.DescribeTable { TableName := tableName } db with
  | (.error err, db1) => (some (.permanent (.aws err)), db1)
  | (.ok desc, db1) =>
    if desc.TableStatus ≠ TableStatusActive then
      (some (.transient (.kv (.errorf "table status(%s): %w" (.sentinel .ErrTableNotActive)))),
        db1)
    else (none, db1)

/-- The function `setupKeyValueDatabase` (store.go:96).  The result is the Go `error`
(`none` for nil) and the service state after the call. -/
def setupKeyValueDatabase {σ : Type} (svc : Client σ) (params : Params) (retries : Nat)
    (db : σ) : Option SetupError × σ :=
  match svc.CreateTableWithContext
      { TableName := params.TableName,
        AttributeDefinitions := [(PartitionKey, "B"), (ItemKey, "B")],
        KeySchema := [(PartitionKey, "HASH"), (ItemKey, "RANGE")],
        ReadCapacityUnits := params.ReadCapacityUnits,
        WriteCapacityUnits := params.WriteCapacityUnits } db with
  | (.error err, db1) =>
    if err = .ResourceInUseException then (none, db1)
    else (some (.aws err), db1)
  | (.ok table, db1) => Retry (pollTable svc table.TableName) retries db1

/-- The method `Driver.Open` (store.go:57), from the point where the client exists: `svc`
is the client that `dynamodb.New` returns for the session and the endpoint, region and
credentials of the parameters.  The result is the Go pair `(kv.Store, error)` and the
service state after the call. -/
def Driver.Open {σ : Type} (svc : Client σ) (params : Params) (retries : Nat) (db : σ) :
    (Option (Store σ) × Option Error) × σ :=
  match setupKeyValueDatabase svc params retries db with
  | (some _, db1) => ((none, some (.errorf "%w: %s" (.sentinel .ErrSetupFailed))), db1)
  | (none, db1) => ((some { svc := svc.toSDK, params := params }, none), db1)

/-- The request `setWithOptionalPredicate` sends for a marshaled item (store.go:229-242),
spelled out on its own; `none` when the type assertion on the predicate panics. -/
def Store.putItemInput {σ : Type} (s : Store σ) (marshaledItem : AttrMap)
    (valuePredicate : Predicate) (usePredicate : Bool) : Option PutItemInput :=
  if usePredicate then
    match valuePredicate with
    | .nil =>
      some { Item := marshaledItem, TableName := s.params.TableName,
             ConditionExpression := some ("attribute_not_exists(" ++ ItemValue ++ ")"),
             ExpressionAttributeValues := [] }
    | .bytes b =>
      some { Item := marshaledItem, TableName := s.params.TableName,
             ConditionExpression := some (ItemValue ++ " = :predicate"),
             ExpressionAttributeValues := [(":predicate", { B := b })] }
    | .other => none
  else
    some { Item := marshaledItem, TableName := s.params.TableName,
           ConditionExpression := none, ExpressionAttributeValues := [] }

/-- The request `scanInternal` sends (store.go:284-306), spelled out on its own. -/
def Store.queryInput {σ : Type} (s : Store σ) (partitionKey scanKey : Bytes)
    (exclusiveStartKey : Option AttrMap) : QueryInput :=
  { TableName := s.params.TableName,
    KeyConditionExpression :=
      if scanKey.len > 0 then
        PartitionKey ++ " = :partitionkey" ++ " AND " ++ ItemKey ++ " >= :fromkey"
      else PartitionKey ++ " = :partitionkey",
    ExpressionAttributeValues :=
      if scanKey.len > 0 then
        [(":partitionkey", { B := partitionKey })] ++ [(":fromkey", { B := scanKey })]
      else [(":partitionkey", { B := partitionKey })],
    ConsistentRead := true,
    ScanIndexForward := true,
    ExclusiveStartKey := exclusiveStartKey,
    Limit := if s.params.ScanLimit ≠ 0 then some s.params.ScanLimit else none }

/-- The client `sdk` over a service state that also records the requests it receives,
most recent first.  The answers are those of `sdk`. -/
def SDK.traced {σ : Type} (sdk : SDK σ) : SDK (σ × List Mem.Call) where
  GetItemWithContext i st :=
    ((sdk.GetItemWithContext i st.1).1, ((sdk.GetItemWithContext i st.1).2, .getItem i :: st.2))
  PutItemWithContext i st :=
    ((sdk.PutItemWithContext i st.1).1, ((sdk.PutItemWithContext i st.1).2, .putItem i :: st.2))
  DeleteItemWithContext i st :=
    ((sdk.DeleteItemWithContext i st.1).1,
      ((sdk.DeleteItemWithContext i st.1).2, .deleteItem i :: st.2))
  QueryWithContext i st :=
    ((sdk.QueryWithContext i st.1).1, ((sdk.QueryWithContext i st.1).2, .query i :: st.2))
  MarshalMap := sdk.MarshalMap
  UnmarshalMap := sdk.UnmarshalMap

/-- The store `s` over the recording client. -/
def Store.traced {σ : Type} (s : Store σ) : Store (σ × List Mem.Call) :=
  { svc := s.svc.traced, params := s.params }

/-- The part of an outcome that does not concern the record of requests. -/
def untraced {σ : Type} : Outcome (Option Error × σ × List Mem.Call) →
    Outcome (Option Error × σ)
  | .ret (e, db, _) => .ret (e, db)
  | .panic => .panic
  | .fuel => .fuel

namespace Prov

/-- The table-management side of a service, on top of the in-memory table.  `table` is
`none` while the table does not exist; otherwise it lists the statuses that the coming
`DescribeTable` calls report, the last of them from then on (an empty list reports
`ACTIVE`).  `onCreate` is that list for a table created from now on.  `described` records
the statuses reported so far, most recent first. -/
structure State where
  table : Option (List String)
  onCreate : List String
  described : List String
  data : Mem.Table
  deriving DecidableEq, Repr

/-- Client and service side of `CreateTable`.  The client checks the request before it
sends anything, and refuses a provisioned throughput with a capacity below 1.  For the
service, a table that exists, in whatever status, is in use. -/
def createTable (i : CreateTableInput) (st : State) :
    Except AwsError CreateTableOutput × State :=
  if i.ReadCapacityUnits < 1 ∨ i.WriteCapacityUnits < 1 then
    (.error (.other "InvalidParameter"), st)
  else
    match st.table with
    | some _ => (.error .ResourceInUseException, st)
    | none => (.ok { TableName := i.TableName }, { st with table := some st.onCreate })

/-- Service side of `DescribeTable`. -/
def describeTable (_i : DescribeTableInput) (st : State) :
    Except AwsError DescribeTableOutput × State :=
  match st.table with
  | none => (.error (.other "ResourceNotFoundException"), st)
  | some [] => (.ok { TableStatus := "ACTIVE" }, { st with described := "ACTIVE" :: st.described })
  | some [status] => (.ok { TableStatus := status }, { st with described := status :: st.described })
  | some (status :: rest) =>
    (.ok { TableStatus := status },
      { st with table := some rest, described := status :: st.described })

/-- The client over the service: table management as above, items as in `Mem`. -/
def client : Client State where
  GetItemWithContext i st :=
    ((Mem.getItem i st.data).1, { st with data := (Mem.getItem i st.data).2 })
  PutItemWithContext i st :=
    ((Mem.putItem i st.data).1, { st with data := (Mem.putItem i st.data).2 })
  DeleteItemWithContext i st :=
    ((Mem.deleteItem i st.data).1, { st with data := (Mem.deleteItem i st.data).2 })
  QueryWithContext i st :=
    ((Mem.query i st.data).1, { st with data := (Mem.query i st.data).2 })
  MarshalMap := Mem.marshalMap
  UnmarshalMap := Mem.unmarshalMap
  CreateTableWithContext := createTable
  DescribeTable := describeTable

/-- Parameters of a store that provisions its table: pages of two items, and a
provisioned throughput of five units each way. -/
def sampleParams : Params :=
  { TableName := "kvstore", ScanLimit := 2, ReadCapacityUnits := 5, WriteCapacityUnits := 5 }

/-- A service on which another process has just started creating the table: it exists,
is being created, and has not been described yet. -/
def creating : State :=
  { table := some ["CREATING", "CREATING", "ACTIVE"], onCreate := [], described := [],
    data := { rows := [], pageCap := 0, calls := [] } }

/-- A service without the table; a table created on it is `CREATING` for two polls. -/
def fresh : State :=
  { table := none, onCreate := ["CREATING", "CREATING", "ACTIVE"], described := [],
    data := { rows := [], pageCap := 0, calls := [] } }

/-- The service `fresh` after the table has been created on it. -/
def created : State :=
  { table := some ["CREATING", "CREATING", "ACTIVE"],
    onCreate := ["CREATING", "CREATING", "ACTIVE"], described := [],
    data := { rows := [], pageCap := 0, calls := [] } }

end Prov

/-! ## The iterator over pages of any shape -/

/-- The precondition on the backend: every page that a query returns has `Count` equal to
the length of `Items`. -/
def SDK.CountsItems {σ : Type} (svc : SDK σ) : Prop :=
  ∀ input db out db1, svc.QueryWithContext input db = (.ok out, db1) →
    out.Count = out.Items.length

/-- The index of an iterator is within its page: `0 <= currEntryIdx <= Count`, on a page
whose `Count` is the length of `Items`. -/
def EntriesIterator.IndexInRange {σ : Type} (e : EntriesIterator σ) : Prop :=
  0 ≤ e.currEntryIdx ∧ e.currEntryIdx ≤ e.queryResult.Count
    ∧ e.queryResult.Count = e.queryResult.Items.length

/-- A caller that calls `Next` a number of times in a row, whatever `Next` returns; a
call of `Close` is put before the call number `closeAt`, counted from the last
(`none`: the iterator is not closed). -/
def EntriesIterator.nexts {σ : Type} (pages : Nat) (closeAt : Option Nat) :
    Nat → EntriesIterator σ → σ → Outcome (EntriesIterator σ × σ)
  | 0, e, db => .ret (e, db)
  | n + 1, e, db =>
    match (if closeAt = some n then e.Close else e).Next pages db with
    | .ret (_, e1, db1) => nexts pages closeAt n e1 db1
    | .panic => .panic
    | .fuel => .fuel

/-- A run of fetches that `Next` makes through empty pages: from the continuation key
`key` in the service state `db`, each query for the partition and the start key, starting
after the key at hand, returns the next page of the list and the service state beside
it; each page is empty and has a continuation key, and that of the last one is `key1`,
in the service state `db1`. -/
def Store.EmptyPages {σ : Type} (s : Store σ) (partKey startKey : Bytes) :
    List (QueryOutput × σ) → AttrMap → σ → AttrMap → σ → Prop
  | [], key, db, key1, db1 => key1 = key ∧ db1 = db
  | (page, dbp) :: rest, key, db, key1, db1 =>
    s.svc.QueryWithContext (s.queryInput partKey startKey (some key)) db = (.ok page, dbp)
    ∧ page.Count = 0
    ∧ ∃ keyp, page.LastEvaluatedKey = some keyp
        ∧ EmptyPages s partKey startKey rest keyp dbp key1 db1

namespace Script

/-- A backend that answers queries from a script: the service state is the list of the
pages still to hand out, one per query, whatever the query; the other calls fail. -/
def sdk : SDK (List QueryOutput) where
  GetItemWithContext _ st := (.error (.other "not scripted"), st)
  PutItemWithContext _ st := (some (.other "not scripted"), st)
  DeleteItemWithContext _ st := (some (.other "not scripted"), st)
  QueryWithContext _ st :=
    match st with
    | [] => (.error (.other "script used up"), [])
    | page :: rest => (.ok page, rest)
  MarshalMap := Mem.marshalMap
  UnmarshalMap := Mem.unmarshalMap

/-- A store over the scripted backend. -/
def store : Store (List QueryOutput) := { svc := sdk, params := Mem.sampleParams }

/-- An empty page with the continuation key of the item `([1], sk)`. -/
def emptyPage (sk : List Byte) : QueryOutput :=
  { Items := [], Count := 0,
    LastEvaluatedKey := some [("PartitionKey", { B := some [1] }),
                              ("ItemKey", { B := some sk })] }

/-- A last page with the one item `([1], [9]) ↦ [4]`. -/
def lastPage : QueryOutput :=
  { Items := [Mem.encoded [1] [9] (some [4])], Count := 1, LastEvaluatedKey := none }

/-- An iterator of the scripted store that stands at the end of an empty page with a
continuation key. -/
def iter : EntriesIterator (List QueryOutput) :=
  { entry := none, err := none, store := store, queryResult := emptyPage [2],
    currEntryIdx := 0, partKey := some [1], startKey := none }

end Script

end Dynamodb

/-! ## The template functions (`pkg/templater/funcs.go`) -/

namespace Templater

/-- A non-nil Go `error` met by the template functions: the two error values of the
package (`ErrNotAuthorized = errors.New("unauthorized")`, `ErrTemplateFailed =
errors.New("")`), an error returned by the auth service, or `fmt.Errorf` with a `%w`
operand, where `text` is the whole message. -/
inductive GoError where
  | ErrNotAuthorized
  | ErrTemplateFailed
  | external (text : String)
  | wrapf (text : String) (inner : GoError)
  deriving DecidableEq, Repr

/-- The method `Error()`: the message of an error. -/
def GoError.Error : GoError → String
  | .ErrNotAuthorized => "unauthorized"
  | .ErrTemplateFailed => ""
  | .external text => text
  | .wrapf text _ => text

/-- Go `errors.Is(e, target)`: `e` is `target`, or wraps an error that is. -/
def GoError.Is : GoError → GoError → Bool
  | .wrapf text inner, target =>
    decide (GoError.wrapf text inner = target) || inner.Is target
  | e, target => decide (e = target)

/-- The phases of template expansion; the type `Phase` is declared outside `funcs.go`. -/
inductive Phase where
  | PhasePrepare
  | PhaseExpand
  deriving DecidableEq, Repr

/-- The user of `ControlledParams.User`: the template functions read `Username` and print
the value with `%+v`; `Rendered` is the text `%+v` prints for it. -/
structure User where
  Username : String
  Rendered : String
  deriving DecidableEq, Repr

/-- The struct `Credentials` (funcs.go:18). -/
structure Credentials where
  Key : String
  Secret : String
  deriving DecidableEq, Repr

/-- The fields of the credential that `Auth.CreateCredentials` returns which
`newCredentials` reads. -/
structure Credential where
  AccessKeyID : String
  SecretAccessKey : String
  deriving DecidableEq, Repr

/-- The action of a required permission; `newCredentials` asks for
`permissions.CreateCredentialsAction`. -/
inductive Action where
  | CreateCredentialsAction
  | other (name : String)
  deriving DecidableEq, Repr

/-- The struct `auth.AuthorizationRequest` as `newCredentials` fills it: the user, and the
one required permission, an action on the resource `permissions.UserArn(ResourceUser)`. -/
structure AuthorizationRequest where
  Username : String
  Action : Action
  ResourceUser : String
  deriving DecidableEq, Repr

/-- The fields of `auth.AuthorizationResponse` that `newCredentials` reads. -/
structure AuthorizationResponse where
  Allowed : Bool
  Error : Option GoError
  deriving DecidableEq, Repr

/-- The two methods of the auth service that `newCredentials` calls, over a service state
`σ`.  A call returns its result or its error, and the next service state. -/
structure AuthService (σ : Type) where
  Authorize : AuthorizationRequest → σ → Except GoError AuthorizationResponse × σ
  CreateCredentials : String → σ → Except GoError Credential × σ

/-- A Go map with string keys, as an association list without repeated keys. -/
abbrev GoMap (α : Type) := List (String × α)

/-- Go map read `v, ok := m[key]`. -/
def GoMap.get {α : Type} (m : GoMap α) (key : String) : Option α :=
  (m.find? (fun kv => kv.1 == key)).map (fun kv => kv.2)

/-- Go map write `m[key] = v`. -/
def GoMap.set {α : Type} (m : GoMap α) (key : String) (v : α) : GoMap α :=
  (key, v) :: m.filter (fun kv => !(kv.1 == key))

/-- A value of `ControlledParams.Store`, a `map[string]interface{}`: the map of generated
credentials that `newCredentials` keeps there, or a value of another dynamic type. -/
inductive StoreValue where
  | generatedCreds (m : GoMap Credentials)
  | other
  deriving DecidableEq, Repr

/-- The type `http.Header`, a `map[string][]string`.  Keys are taken in canonical form, as
is the one key the template functions use, `Content-Type`. -/
abbrev Header := GoMap (List String)

/-- The method `http.Header.Add`: the value is appended to the values of the key. -/
def Header.Add (h : Header) (key value : String) : Header :=
  GoMap.set h key ((GoMap.get h key).getD [] ++ [value])

/-- The method `http.Header.Get`: the first value of the key, or the empty string. -/
def Header.Get (h : Header) (key : String) : String :=
  match GoMap.get h key with
  | some (v :: _) => v
  | _ => ""

/-- The struct `ControlledParams`, declared outside `funcs.go`, with the fields the
template functions use (the context apart).  The two maps may be nil (`none`): a nil map
reads as an empty one, and a write to it panics. -/
structure ControlledParams (σ : Type) where
  Phase : Phase
  Auth : AuthService σ
  Header : Option Header
  User : User
  Store : Option (GoMap StoreValue)

/-- The function `newCredentials` (funcs.go:32).  The result is the Go pair
`(*Credentials, error)`, the parameters as the call leaves them, and the state of the auth
service.  The type assertion on the stored map panics on a value of another type; on a
nil `params.Store` the read finds nothing and the write of the new map panics. -/
def newCredentials {σ : Type} (params : ControlledParams σ) (name : String) (db : σ) :
    Outcome ((Option Credentials × Option GoError) × ControlledParams σ × σ) :=
  match params.Auth.Authorize
      { Username := params.User.Username, Action := .CreateCredentialsAction,
        ResourceUser := params.User.Username } db with
  | (.error err, db1) =>
    .ret ((none, some (.wrapf
      ("create credentials for " ++ params.User.Rendered ++ ": " ++ err.Error) err)),
      params, db1)
  | (.ok resp, db1) =>
    match resp.Error with
    | some err =>
      .ret ((none, some (.wrapf
        ("create credentials for " ++ params.User.Rendered ++ ": " ++ err.Error) err)),
        params, db1)
    | none =>
      if !resp.Allowed then
        .ret ((none, some (.wrapf
          ("create credentials for " ++ params.User.Rendered ++ ": "
            ++ GoError.ErrNotAuthorized.Error) .ErrNotAuthorized)), params, db1)
      else
        match params.Store with
        | none => .panic
        | some store =>
          let stored : Option (GoMap Credentials × GoMap StoreValue) :=
            match GoMap.get store "new_credentials" with
            | none => some ([], GoMap.set store "new_credentials" (.generatedCreds []))
            | some (.generatedCreds m) => some (m, store)
            | some .other => none
          match stored with
          | none => .panic
          | some (generatedCreds, store1) =>
            match GoMap.get generatedCreds name with
            | some retCreds =>
              .ret ((some retCreds, none), { params with Store := some store1 }, db1)
            | none =>
              match params.Auth.CreateCredentials params.User.Username db1 with
              | (.error err, db2) =>
                .ret ((none, some (.wrapf
                  ("create credentials for " ++ params.User.Rendered ++ ": " ++ err.Error)
                  err)), { params with Store := some store1 }, db2)
              | (.ok credentials, db2) =>
                let retCreds : Credentials :=
                  { Key := credentials.AccessKeyID, Secret := credentials.SecretAccessKey }
                .ret ((some retCreds, none),
                  { params with
                    Store := some (GoMap.set store1 "new_credentials"
                      (.generatedCreds (GoMap.set generatedCreds name retCreds))) }, db2)

/-- The function `fail` (funcs.go:84): `fmt.Errorf("%s%w", msg, ErrTemplateFailed)` prints
`msg` followed by the message of the wrapped error. -/
def fail (msg : String) : String × Option GoError :=
  (msg, some (.wrapf (msg ++ GoError.ErrTemplateFailed.Error) .ErrTemplateFailed))

/-- The function `contentType` (funcs.go:89).  The result is the Go pair `(string, error)`
and the parameters as the call leaves them; `Header.Add` on a nil header panics. -/
def contentType {σ : Type} (params : ControlledParams σ) (contentType : String) :
    Outcome ((String × Option GoError) × ControlledParams σ) :=
  if params.Phase = .PhasePrepare then
    match params.Header with
    | none => .panic
    | some header =>
      .ret (("", none),
        { params with Header := some (Header.Add header "Content-Type" contentType) })
  else .ret (("", none), params)

/-- The credentials cached under a name in `params.Store`. -/
def cached {σ : Type} (params : ControlledParams σ) (name : String) : Option Credentials :=
  match params.Store with
  | none => none
  | some store =>
    match GoMap.get store "new_credentials" with
    | some (.generatedCreds m) => GoMap.get m name
    | _ => none

/-- The auth service `a` over a state that also counts the calls of `CreateCredentials`.
The answers are those of `a`. -/
def AuthService.counted {σ : Type} (a : AuthService σ) : AuthService (σ × Nat) where
  Authorize req st := ((a.Authorize req st.1).1, ((a.Authorize req st.1).2, st.2))
  CreateCredentials username st :=
    ((a.CreateCredentials username st.1).1, ((a.CreateCredentials username st.1).2, st.2 + 1))

/-- The parameters over the counting auth service. -/
def ControlledParams.counted {σ : Type} (params : ControlledParams σ) :
    ControlledParams (σ × Nat) :=
  { Phase := params.Phase, Auth := params.Auth.counted, Header := params.Header,
    User := params.User, Store := params.Store }

/-- An auth service that allows everything and hands out the credentials of a list, one
per `CreateCredentials` call; its state is the list of credentials left. -/
def poolAuth : AuthService (List Credential) where
  Authorize _ st := (.ok { Allowed := true, Error := none }, st)
  CreateCredentials _ st :=
    match st with
    | [] => (.error (.external "no credentials left"), [])
    | c :: rest => (.ok c, rest)

/-- Sample parameters: prepare phase, an empty header and an empty store. -/
def sampleParams : ControlledParams (List Credential) :=
  { Phase := .PhasePrepare, Auth := poolAuth, Header := some [],
    User := { Username := "ada", Rendered := "user ada" }, Store := some [] }

/-- Sample parameters whose response header already holds a content type. -/
def typedParams : ControlledParams (List Credential) :=
  { sampleParams with Header := some [("Content-Type", ["text/plain"])] }

/-- An auth service that knows the user and allows nothing. -/
def denyAuth : AuthService (List Credential) where
  Authorize _ st := (.ok { Allowed := false, Error := none }, st)
  CreateCredentials _ st :=
    match st with
    | [] => (.error (.external "no credentials left"), [])
    | c :: rest => (.ok c, rest)

/-- Sample parameters of a user who is allowed nothing, with credentials cached under the
name `ci`. -/
def deniedParams : ControlledParams (List Credential) :=
  { Phase := .PhaseExpand, Auth := denyAuth, Header := some [],
    User := { Username := "ada", Rendered := "user ada" },
    Store := some [("new_credentials",
      .generatedCreds [("ci", { Key := "AKIA1", Secret := "s1" })])] }

end Templater

/-! ## The S3 gateway (`gateway/server.go`)

The handlers are pure functions of what the collaborators answer: the signature
authenticator built from the request, the auth service and the index.  What a handler
does is the list of the calls it makes to them, of the error responses it encodes and of
the operation callbacks it runs, in order.  Logging and statistics are left out. -/

namespace Gateway

/-- The error codes of the package `gateway/errors` that `server.go` names, and any
other. -/
inductive APIErrorCode where
  | ErrAccessDenied
  | ErrInternalError
  | ErrNoSuchBucket
  | ERRLakeFSNotSupported
  | code (n : Nat)
  deriving DecidableEq, Repr

/-- The struct `errors.APIError`, the response for an error code, identified by its
code. -/
structure APIError where
  Code : APIErrorCode
  deriving DecidableEq, Repr

/-- Modelled from the spec: the table lookup `errors.Codes.ToAPIErr`, which is declared
outside `server.go`, gives the response of the gateway for a code. -/
def Codes.ToAPIErr (c : APIErrorCode) : APIError := { Code := c }

/-- Modelled from the spec: the method `APIErrorCode.ToAPIErr`, declared outside
`server.go`, gives the same response as the table lookup. -/
def APIErrorCode.ToAPIErr (c : APIErrorCode) : APIError := Codes.ToAPIErr c

/-- A non-nil Go `error` met by the gateway: a `*errors.APIErrorCode`, the value
`db.ErrNotFound`, an error wrapping another, or any other error. -/
inductive Err where
  | apiCode (c : APIErrorCode)
  | ErrNotFound
  | wrap (text : String) (inner : Err)
  | other (text : String)
  deriving DecidableEq, Repr

/-- Go `xerrors.Is(err, db.ErrNotFound)`: the error is `db.ErrNotFound` or wraps it. -/
def Err.IsNotFound : Err → Bool
  | .ErrNotFound => true
  | .wrap _ inner => inner.IsNotFound
  | _ => false

/-- The function `getApiErrOrDefault` (server.go:107). -/
def getApiErrOrDefault (err : Err) (defaultApiErr : APIErrorCode) : APIError :=
  match err with
  | .apiCode apiError => apiError.ToAPIErr
  | _ => defaultApiErr.ToAPIErr

/-- The struct `permissions.Action`. -/
structure Action where
  Permission : String
  Arn : String
  deriving DecidableEq, Repr

/-- The signature context that `Parse` returns; the gateway reads its access key id. -/
structure SigContext where
  AccessKeyId : String
  deriving DecidableEq, Repr

/-- The fields of the credentials that the gateway reads: `UserId`, a pointer, and the
field `Type`, here `CredType`. -/
structure Credential where
  UserId : Option Int
  CredType : String
  deriving DecidableEq, Repr

/-- The struct `auth.AuthorizationRequest` as the gateway fills it. -/
structure AuthorizationRequest where
  UserID : Int
  Permission : String
  SubjectARN : String
  deriving DecidableEq, Repr

/-- The fields of `auth.AuthorizationResponse` that the gateway reads. -/
structure AuthorizationResponse where
  Allowed : Bool
  Error : Option Err
  deriving DecidableEq, Repr

/-- The repository that `Index.GetRepo` returns; the gateway reads its id. -/
structure Repo where
  Id : String
  deriving DecidableEq, Repr

/-- The authenticator `sig.ChainedAuthenticator(...)` built from a request: what `Parse`
returns, as the Go pair, and what `Verify` returns for given credentials and domain. -/
structure Authenticator where
  Parse : Option SigContext × Option Err
  Verify : Credential → String → Option Err

/-- A request, as far as the handlers look at it: its signature authenticator. -/
structure Request where
  authenticator : Authenticator

/-- The struct `ServerContext` (server.go:26), reduced to the region, the domain and the
two services the handlers call: `GetRepo` of the index `meta`, and `GetAPICredentials`
and `Authorize` of `authService`.  A call returns its result or its error: a nil error
comes with a non-nil result, as is the convention for these services.  (`Parse` is kept
as the Go pair, because the gateway reads the context it returns beside an error.) -/
structure ServerContext where
  region : String
  bareDomain : String
  GetRepo : String → Except Err Repo
  GetAPICredentials : String → Except Err Credential
  Authorize : AuthorizationRequest → Except Err AuthorizationResponse

/-- The struct `operations.AuthenticatedOperation`, with the data fields of the
`operations.Operation` inside it. -/
structure AuthenticatedOperation where
  Region : String
  FQDN : String
  SubjectId : Int
  SubjectType : String
  deriving DecidableEq, Repr

/-- The struct `operations.RepoOperation`. -/
structure RepoOperation where
  AuthenticatedOperation : AuthenticatedOperation
  Repo : Repo
  deriving DecidableEq, Repr

/-- The struct `operations.PathOperation`, with the `RefOperation` inside it. -/
structure PathOperation where
  RepoOperation : RepoOperation
  Ref : String
  Path : String
  deriving DecidableEq, Repr

/-- What a handler does that can be seen from outside. -/
inductive Event where
  | Parse
  | GetAPICredentials (accessKeyId : String)
  | Verify (creds : Credential) (bareDomain : String)
  | Authorize (req : AuthorizationRequest)
  | GetRepo (repoId : String)
  | EncodeError (e : APIError)
  | Handle (op : AuthenticatedOperation)
  | HandleRepo (op : RepoOperation)
  | HandlePath (op : PathOperation)
  deriving DecidableEq, Repr

/-- An operation handler, as far as the gateway looks into it: the action it names for a
repository, a reference and a path.  Its `Handle` is recorded as an event. -/
structure Handler where
  Action : String → String → String → Action

/-- The function `authenticateOperation` (server.go:115).  The result is the operation, or
`none` for nil, and what was done.  Calling `GetAccessKeyId` on a nil signature context
and dereferencing a nil `UserId` panic. -/
def authenticateOperation (s : ServerContext) (request : Request) (action : Action) :
    Outcome (Option AuthenticatedOperation × List Event) :=
  match request.authenticator.Parse with
  | (none, _) => .panic
  | (some _, some err) =>
    .ret (none, [.Parse, .EncodeError (getApiErrOrDefault err .ErrAccessDenied)])
  | (some authContext, none) =>
    match s.GetAPICredentials authContext.AccessKeyId with
    | .error err =>
      if !err.IsNotFound then
        .ret (none, [.Parse, .GetAPICredentials authContext.AccessKeyId,
          .EncodeError (Codes.ToAPIErr .ErrInternalError)])
      else
        .ret (none, [.Parse, .GetAPICredentials authContext.AccessKeyId,
          .EncodeError (Codes.ToAPIErr .ErrAccessDenied)])
    | .ok creds =>
      match request.authenticator.Verify creds s.bareDomain with
      | some err =>
        .ret (none, [.Parse, .GetAPICredentials authContext.AccessKeyId,
          .Verify creds s.bareDomain,
          .EncodeError (getApiErrOrDefault err .ErrAccessDenied)])
      | none =>
        match creds.UserId with
        | none => .panic
        | some userId =>
          let op : AuthenticatedOperation :=
            { Region := s.region, FQDN := s.bareDomain, SubjectId := userId,
              SubjectType := creds.CredType }
          let req : AuthorizationRequest :=
            { UserID := op.SubjectId, Permission := action.Permission,
              SubjectARN := action.Arn }
          let done : List Event :=
            [.Parse, .GetAPICredentials authContext.AccessKeyId, .Verify creds s.bareDomain,
             .Authorize req]
          match s.Authorize req with
          | .error _ => .ret (none, done ++ [.EncodeError (Codes.ToAPIErr .ErrInternalError)])
          | .ok authResp =>
            if authResp.Error ≠ none ∨ !authResp.Allowed then
              .ret (none, done ++ [.EncodeError (Codes.ToAPIErr .ErrAccessDenied)])
            else .ret (some op, done)

/-- The handler that `OperationHandler` returns (server.go:195), run on a request. -/
def OperationHandler (ctx : ServerContext) (handler : Handler) (request : Request) :
    Outcome (List Event) :=
  let action := handler.Action "" "" ""
  match authenticateOperation ctx request action with
  | .panic => .panic
  | .fuel => .fuel
  | .ret (none, done) => .ret done
  | .ret (some authOp, done) => .ret (done ++ [.Handle authOp])

/-- The handler that `RepoOperationHandler` returns (server.go:208), run on a request. -/
def RepoOperationHandler (ctx : ServerContext) (repoId : String) (handler : Handler)
    (request : Request) : Outcome (List Event) :=
  let action := handler.Action repoId "" ""
  match authenticateOperation ctx request action with
  | .panic => .panic
  | .fuel => .fuel
  | .ret (none, done) => .ret done
  | .ret (some authOp, done) =>
    match ctx.GetRepo repoId with
    | .error err =>
      if err.IsNotFound then
        .ret (done ++ [.GetRepo repoId, .EncodeError APIErrorCode.ErrNoSuchBucket.ToAPIErr])
      else
        .ret (done ++ [.GetRepo repoId, .EncodeError APIErrorCode.ErrInternalError.ToAPIErr])
    | .ok repo =>
      let repoOperation : RepoOperation := { AuthenticatedOperation := authOp, Repo := repo }
      .ret (done ++ [.GetRepo repoId, .HandleRepo repoOperation])

/-- The handler that `PathOperationHandler` returns (server.go:239), run on a request. -/
def PathOperationHandler (ctx : ServerContext) (repoId refId path : String)
    (handler : Handler) (request : Request) : Outcome (List Event) :=
  let action := handler.Action repoId refId path
  match authenticateOperation ctx request action with
  | .panic => .panic
  | .fuel => .fuel
  | .ret (none, done) => .ret done
  | .ret (some authOp, done) =>
    match ctx.GetRepo repoId with
    | .error err =>
      if err.IsNotFound then
        .ret (done ++ [.GetRepo repoId, .EncodeError (Codes.ToAPIErr .ErrNoSuchBucket)])
      else
        .ret (done ++ [.GetRepo repoId, .EncodeError (Codes.ToAPIErr .ErrInternalError)])
    | .ok repo =>
      let operation : PathOperation :=
        { RepoOperation := { AuthenticatedOperation := authOp, Repo := repo },
          Ref := refId, Path := path }
      .ret (done ++ [.GetRepo repoId, .HandlePath operation])

/-- Whether an event is an operation callback. -/
def Event.isHandle : Event → Bool
  | .Handle _ => true
  | .HandleRepo _ => true
  | .HandlePath _ => true
  | _ => false

/-- A handler naming one action for everything. -/
def sampleHandler : Handler := { Action := fun _ _ _ => { Permission := "read", Arn := "*" } }

/-- A request whose signature parses and verifies. -/
def signedRequest : Request :=
  { authenticator := { Parse := (some { AccessKeyId := "AKIA1" }, none),
                       Verify := fun _ _ => none } }

/-- A server whose auth service knows every key and allows everything, and whose index
holds the repository `data` only; looking up `broken` fails for another reason. -/
def sampleServer : ServerContext :=
  { region := "us-east-1", bareDomain := "s3.example.com",
    GetRepo := fun repoId =>
      if repoId = "data" then .ok { Id := "data" }
      else if repoId = "broken" then .error (.other "connection refused")
      else .error (.wrap "get repo" .ErrNotFound),
    GetAPICredentials := fun _ => .ok { UserId := some 7, CredType := "user" },
    Authorize := fun _ => .ok { Allowed := true, Error := none } }

/-- Whether an event is a lookup of the repository. -/
def Event.isGetRepo : Event → Bool
  | .GetRepo _ => true
  | _ => false

/-- Whether an event is an encoded error response. -/
def Event.isEncodeError : Event → Bool
  | .EncodeError _ => true
  | _ => false

/-- A request without a signature: `Parse` fails, and returns no context beside the
error. -/
def unsignedRequest : Request :=
  { authenticator := { Parse := (none, some (.other "missing fields")),
                       Verify := fun _ _ => none } }

/-- A request whose signature does not parse, with a `Parse` that returns a context
beside the error. -/
def malformedRequest : Request :=
  { authenticator := { Parse := (some { AccessKeyId := "" }, some (.other "missing fields")),
                       Verify := fun _ _ => none } }

/-- The sample server with an auth service that knows no key. -/
def strangerServer : ServerContext :=
  { sampleServer with GetAPICredentials := fun _ => .error (.wrap "get credentials" .ErrNotFound) }

end Gateway

/-! ## The persisted records (`pkg/graveler/graveler.pb.go`)

The generated file declares the records and their nil-safe getters; the engine that
computes with them is not part of the sources at hand. -/

namespace Graveler

/-- The type `BranchProtectionBlockedAction`, an `int32` (graveler.pb.go:29). -/
abbrev BranchProtectionBlockedAction := Int

/-- The constant `BranchProtectionBlockedAction_STAGING_WRITE` (graveler.pb.go:32). -/
def BranchProtectionBlockedAction_STAGING_WRITE : BranchProtectionBlockedAction := 0

/-- The constant `BranchProtectionBlockedAction_COMMIT` (graveler.pb.go:33). -/
def BranchProtectionBlockedAction_COMMIT : BranchProtectionBlockedAction := 1

/-- The table `BranchProtectionBlockedAction_name`, a `map[int32]string`
(graveler.pb.go:38), as the list of its entries. -/
def BranchProtectionBlockedAction_name : List (Int × String) :=
  [(0, "STAGING_WRITE"), (1, "COMMIT")]

/-- The table `BranchProtectionBlockedAction_value`, a `map[string]int32`
(graveler.pb.go:42), as the list of its entries. -/
def BranchProtectionBlockedAction_value : List (String × Int) :=
  [("STAGING_WRITE", 0), ("COMMIT", 1)]

/-- The type `timestamppb.Timestamp`, declared outside the repository. -/
structure Timestamp where
  Seconds : Int
  Nanos : Int
  deriving DecidableEq, Repr

/-- The struct `CommitData` (graveler.pb.go:272), without the three fields of the
protobuf runtime.  `Version` and `Generation` are `int32`. -/
structure CommitData where
  Id : String
  Committer : String
  Message : String
  CreationDate : Option Timestamp
  MetaRangeId : String
  Metadata : List (String × String)
  Parents : List String
  Version : Int
  Generation : Int
  deriving DecidableEq, Repr

/-- The getter `(*CommitData).GetId` (graveler.pb.go:316); `none` is the nil pointer. -/
def CommitData.GetId : Option CommitData → String
  | some x => x.Id
  | none => ""

/-- The getter `(*CommitData).GetParents` (graveler.pb.go:358). -/
def CommitData.GetParents : Option CommitData → List String
  | some x => x.Parents
  | none => []

/-- The getter `(*CommitData).GetGeneration` (graveler.pb.go:372). -/
def CommitData.GetGeneration : Option CommitData → Int
  | some x => x.Generation
  | none => 0

/-- The struct `BranchProtectionBlockedActions` (graveler.pb.go:501). -/
structure BranchProtectionBlockedActions where
  Value : List BranchProtectionBlockedAction
  deriving DecidableEq, Repr

/-- The getter `(*BranchProtectionBlockedActions).GetValue` (graveler.pb.go:541). -/
def BranchProtectionBlockedActions.GetValue :
    Option BranchProtectionBlockedActions → List BranchProtectionBlockedAction
  | some x => x.Value
  | none => []

/-- The struct `BranchProtectionRules` (graveler.pb.go:548): a Go map from a branch
pattern to a pointer to the blocked actions, as the list of its entries.  The order of
the list stands for the order in which a `range` over the map meets the entries, which
Go leaves open. -/
structure BranchProtectionRules where
  BranchPatternToBlockedActions : List (String × Option BranchProtectionBlockedActions)
  deriving DecidableEq, Repr

/-- The getter `(*BranchProtectionRules).GetBranchPatternToBlockedActions`
(graveler.pb.go:588). -/
def BranchProtectionRules.GetBranchPatternToBlockedActions :
    Option BranchProtectionRules → List (String × Option BranchProtectionBlockedActions)
  | some x => x.BranchPatternToBlockedActions
  | none => []

/-! ### The commit graph -/

/-- Modelled from the spec: the rule of the data model for the generation of a commit,
given the generations of its parents: "Generation = max(Generation of each Parent) + 1,
or 1 if Parents is empty".  The rule is over the integers, as the spec words it; the
`int32` field holds the result as long as it is below `2^31`.  The engine function that
fills the field is missing from the sources at hand. -/
def nextGeneration : List Int → Int
  | [] => 1
  | g :: gs => gs.foldl max g + 1

/-- Modelled from the spec: the commits written so far, the "lookup structure
(id → node)" of the design notes, newest first. -/
abbrev Commits := List CommitData

/-- Modelled from the spec: the lookup of a commit by its id. -/
def Commits.get (cs : Commits) (id : String) : Option CommitData :=
  cs.find? (fun c => c.Id == id)

/-- Modelled from the spec: the lookup of all parents; it fails when one is missing. -/
def Commits.resolve (cs : Commits) : List String → Option (List CommitData)
  | [] => some []
  | id :: ids =>
    match cs.get id, resolve cs ids with
    | some c, some rest => some (c :: rest)
    | _, _ => none

/-- Modelled from the spec: the engine step that writes a new commit (4.2, Committed).
The record comes with every field but `Generation`, which is "computed per §3" from the
parents; these are "fixed and already-persisted", and a commit is "immutable once
written", so an id that is taken is refused.  The engine function is missing from the
sources at hand. -/
def Commits.add (cs : Commits) (c : CommitData) : Option Commits :=
  match cs.resolve c.Parents with
  | none => none
  | some parents =>
    if (cs.get c.Id).isSome then none
    else
      some ({ c with Generation := nextGeneration (parents.map (fun p => p.Generation)) }
        :: cs)

/-- Modelled from the spec: a history, the commits written one after the other from an
empty repository. -/
def Commits.addAll : List CommitData → Option Commits
  | [] => some []
  | c :: earlier =>
    match addAll earlier with
    | none => none
    | some cs => cs.add c

/-- What the rule of the data model says of one commit `c` among the commits `cs`: its
parents are there, its generation is 1 without parents, and with parents it is one more
than the generation of a parent that no other parent exceeds. -/
def GenerationRule (cs : Commits) (c : CommitData) : Prop :=
  ∃ parents, cs.resolve c.Parents = some parents ∧
    (c.Parents = [] → c.Generation = 1) ∧
    (c.Parents ≠ [] →
      ∃ p ∈ parents, c.Generation = 1 + p.Generation ∧
        ∀ q ∈ parents, q.Generation ≤ p.Generation)

/-- A commit record with the given id and parents, the generation not yet filled. -/
def commitOf (id : String) (parents : List String) : CommitData :=
  { Id := id, Committer := "ada", Message := "", CreationDate := none, MetaRangeId := "",
    Metadata := [], Parents := parents, Version := 0, Generation := 0 }

/-- A sample history, oldest last: a chain `c1 ← c2 ← c3` of generations 1, 2, 3, a
second chain `c2 ← d3 ← d4 ← d5` reaching generation 5, and the merge `m` of `c3` and
`d5`. -/
def sampleHistory : List CommitData :=
  [commitOf "m" ["c3", "d5"], commitOf "d5" ["d4"], commitOf "d4" ["d3"],
   commitOf "d3" ["c2"], commitOf "c3" ["c2"], commitOf "c2" ["c1"], commitOf "c1" []]

/-! ### Branch protection -/

/-- Modelled from the spec: glob matching of a pattern against a whole branch
identifier (4.3): `*` stands for any run of characters, `?` for any one character, any
other character for itself; the match is case-sensitive and "anchored to the full branch
identifier".  The matcher is missing from the sources at hand. -/
def globMatch : List Char → List Char → Bool
  | [], s => s.isEmpty
  | p :: ps, s =>
    if p = '*' then s.tails.any (fun rest => globMatch ps rest)
    else
      match s with
      | [] => false
      | c :: cs => (p = '?' || p = c) && globMatch ps cs

/-- What it means for a pattern to match a whole identifier, stated as rules: the empty
pattern matches the empty identifier; `*` followed by `p` matches any run of characters
followed by an identifier that `p` matches; `?` followed by `p` matches one character
followed by an identifier that `p` matches; and another character followed by `p`
matches itself followed by an identifier that `p` matches. -/
inductive GlobMatches : List Char → List Char → Prop where
  | done : GlobMatches [] []
  | star (run s p : List Char) : GlobMatches p s → GlobMatches ('*' :: p) (run ++ s)
  | one (c : Char) (s p : List Char) : GlobMatches p s → GlobMatches ('?' :: p) (c :: s)
  | same (c : Char) (s p : List Char) : c ≠ '*' → c ≠ '?' → GlobMatches p s →
      GlobMatches (c :: p) (c :: s)

/-- Modelled from the spec: the union of "the blocked-action sets of all matching
patterns" for a branch identifier (4.3). -/
def blockedActions (rules : Option BranchProtectionRules) (branchID : String) :
    List BranchProtectionBlockedAction :=
  (BranchProtectionRules.GetBranchPatternToBlockedActions rules).flatMap
    (fun entry =>
      if globMatch entry.1.toList branchID.toList then
        BranchProtectionBlockedActions.GetValue entry.2
      else [])

/-- Modelled from the spec: the branch protection decision (4.3), "deny if the requested
action is in that union"; `true` is deny.  The engine function is missing from the
sources at hand. -/
def isBlocked (rules : Option BranchProtectionRules) (branchID : String)
    (action : BranchProtectionBlockedAction) : Bool :=
  (blockedActions rules branchID).contains action

/-- The rules of the example: `release-*` blocks `COMMIT`. -/
def releaseRules : BranchProtectionRules :=
  { BranchPatternToBlockedActions :=
      [("release-*", some { Value := [BranchProtectionBlockedAction_COMMIT] })] }

end Graveler

end LakeFS

namespace LakeFS.Dynamodb.Mem
open LakeFS LakeFS.KV LakeFS.Dynamodb

/-! ## Facts about the in-memory table -/

theorem lookup_removeKey_same (rows : List Row) (pk sk : List Byte) :
    lookup (removeKey rows pk sk) pk sk = none := by
  simp [lookup, removeKey, List.find?_eq_none]

theorem lookup_removeKey_other (rows : List Row) (p k pk sk : List Byte)
    (h : ¬ (pk = p ∧ sk = k)) :
    lookup (removeKey rows p k) pk sk = lookup rows pk sk := by
  induction rows with
  | nil => rfl
  | cons x xs ih =>
    unfold lookup removeKey at *
    by_cases hx : Row.hasKey p k x = true
    · have hne : Row.hasKey pk sk x = false := by
        simp only [Row.hasKey, Bool.and_eq_true, decide_eq_true_eq] at hx
        simp only [Row.hasKey, Bool.and_eq_false_iff, decide_eq_false_iff_not]
        by_contra hc
        push_neg at hc
        exact h ⟨hc.1.symm.trans hx.1, hc.2.symm.trans hx.2⟩
      simp [List.filter_cons, hx, List.find?_cons, hne, ih]
    · simp only [Bool.not_eq_true] at hx
      cases hx2 : Row.hasKey pk sk x <;> simp [List.filter_cons, hx, List.find?_cons, hx2, ih]

theorem lookup_insertRow_other (r : Row) (rows : List Row) (pk sk : List Byte)
    (h : Row.hasKey pk sk r = false) :
    lookup (insertRow r rows) pk sk = lookup rows pk sk := by
  induction rows with
  | nil => simp [insertRow, lookup, h]
  | cons x xs ih =>
    unfold lookup at *
    by_cases hlt : rowLt r x = true
    · simp [insertRow, hlt, List.find?_cons, h]
    · cases hx : Row.hasKey pk sk x <;> simp [insertRow, hlt, List.find?_cons, hx, ih]

theorem lookup_insertRow_same (r : Row) (rows : List Row) (pk sk : List Byte)
    (h : Row.hasKey pk sk r = true) (hnone : lookup rows pk sk = none) :
    lookup (insertRow r rows) pk sk = some r := by
  induction rows with
  | nil => simp [insertRow, lookup, h]
  | cons x xs ih =>
    unfold lookup at *
    have hx : Row.hasKey pk sk x = false := by
      cases hh : Row.hasKey pk sk x
      · rfl
      · simp [List.find?_cons, hh] at hnone
    have hxs : List.find? (Row.hasKey pk sk) xs = none := by
      simpa [List.find?_cons, hx] using hnone
    by_cases hlt : rowLt r x = true
    · simp [insertRow, hlt, List.find?_cons, h]
    · simp [insertRow, hlt, List.find?_cons, hx, ih hxs]

theorem lookup_upsert_same (r : Row) (rows : List Row) :
    lookup (upsert r rows) r.pk r.sk = some r := by
  unfold upsert
  exact lookup_insertRow_same r _ r.pk r.sk (by simp [Row.hasKey])
    (lookup_removeKey_same rows r.pk r.sk)

theorem lookup_upsert_other (r : Row) (rows : List Row) (pk sk : List Byte)
    (h : ¬ (pk = r.pk ∧ sk = r.sk)) :
    lookup (upsert r rows) pk sk = lookup rows pk sk := by
  unfold upsert
  rw [lookup_insertRow_other r _ pk sk, lookup_removeKey_other rows r.pk r.sk pk sk h]
  simp only [Row.hasKey, Bool.and_eq_false_iff, decide_eq_false_iff_not]
  by_contra hc
  push_neg at hc
  exact h ⟨hc.1.symm, hc.2.symm⟩

@[simp] theorem record_rows (t : Table) (c : Call) : (t.record c).rows = t.rows := rfl

@[simp] theorem valueAt_record (t : Table) (c : Call) (pk sk : List Byte) :
    valueAt (t.record c) pk sk = valueAt t pk sk := rfl

@[simp] theorem readAt_record (t : Table) (c : Call) (pk sk : List Byte) :
    readAt (t.record c) pk sk = readAt t pk sk := rfl

/-- A slice that holds bytes is encoded as a binary attribute. -/
theorem encodeBytes_of_ne (l : List Byte) (h : l ≠ []) :
    encodeBytes (some l) = { B := some l } := by
  cases l with
  | nil => exact absurd rfl h
  | cons x xs => rfl

/-- The codec gives every value a data type. -/
theorem typed_encodeBytes (v : Bytes) : typed (encodeBytes v) = true := by
  cases v with
  | none => rfl
  | some l => cases l <;> rfl

/-- A slice that holds bytes is read back as it was written. -/
theorem decode_encode_of_ne (l : List Byte) (h : l ≠ []) :
    decodeBytes (some (encodeBytes (some l))) = some l := by
  cases l with
  | nil => exact absurd rfl h
  | cons x xs => rfl

/-- A binary attribute that holds bytes is read as these bytes. -/
theorem decodeBytes_of_ne (l : List Byte) (n : Bool) (h : l ≠ []) :
    decodeBytes (some ⟨some l, n⟩) = some l := by
  cases l with
  | nil => exact absurd rfl h
  | cons x xs => rfl

@[simp] theorem lookup_write_same (t : Table) (pk sk : List Byte) (v : Bytes) :
    lookup (t.write pk sk v).rows pk sk = some { pk := pk, sk := sk, item := encoded pk sk v } :=
  lookup_upsert_same { pk := pk, sk := sk, item := encoded pk sk v } t.rows

theorem lookup_write_other (t : Table) (pk sk : List Byte) (v : Bytes) (pk1 sk1 : List Byte)
    (h : ¬ (pk1 = pk ∧ sk1 = sk)) :
    lookup (t.write pk sk v).rows pk1 sk1 = lookup t.rows pk1 sk1 :=
  lookup_upsert_other { pk := pk, sk := sk, item := encoded pk sk v } t.rows pk1 sk1 h

@[simp] theorem valueAt_write_same (t : Table) (pk sk : List Byte) (v : Bytes) :
    valueAt (t.write pk sk v) pk sk = some (encodeBytes v) := by
  simp [valueAt, encoded, AttrMap.get]

@[simp] theorem readAt_write_same (t : Table) (pk sk : List Byte) (v : Bytes) :
    readAt (t.write pk sk v) pk sk = some (decodeBytes (some (encodeBytes v))) := by
  simp [readAt, encoded, AttrMap.get]

theorem valueAt_write_other (t : Table) (pk sk : List Byte) (v : Bytes) (pk1 sk1 : List Byte)
    (h : ¬ (pk1 = pk ∧ sk1 = sk)) :
    valueAt (t.write pk sk v) pk1 sk1 = valueAt t pk1 sk1 := by
  simp [valueAt, lookup_write_other t pk sk v pk1 sk1 h]

theorem keyOf_encoded (pk sk : List Byte) (v : Bytes) (hp : pk ≠ []) (hk : sk ≠ []) :
    keyOf (encoded pk sk v) = some (pk, sk) := by
  simp [keyOf, encoded, AttrMap.get, encodeBytes_of_ne _ hp, encodeBytes_of_ne _ hk, hp, hk]

theorem keyOf_key {σ : Type} (s : Store σ) (pk sk : List Byte) (hp : pk ≠ []) (hk : sk ≠ []) :
    keyOf (s.bytesKeyToDynamoKey (some pk) (some sk)) = some (pk, sk) := by
  simp [keyOf, Store.bytesKeyToDynamoKey, AttrMap.get, PartitionKey, ItemKey, hp, hk]

/-- Every attribute of an item that the codec produces has a data type. -/
theorem typed_encoded (pk sk : List Byte) (v : Bytes) :
    (encoded pk sk v).all (fun kv => typed kv.2) = true := by
  simp [encoded, typed_encodeBytes]

theorem condHolds_eq_aux (item : AttrMap) (tn : String) (v : AttributeValue)
    (existing : Option Row) :
    condHolds { Item := item, TableName := tn,
                ConditionExpression := some "ItemValue = :predicate",
                ExpressionAttributeValues := [(":predicate", v)] } existing
      = if typed v = true then
          some (decide (existing.bind (fun r => r.item.get "ItemValue") = some v))
        else none := by
  have e : ("ItemValue = :predicate" = "attribute_not_exists(ItemValue)") = False := by decide
  have g : AttrMap.get [(":predicate", v)] ":predicate" = some v := by simp [AttrMap.get]
  simp only [condHolds, e, if_false, if_true, g]
  cases existing with
  | none => simp
  | some r => simp

/-- The equality condition: a value without a data type is rejected; otherwise the
condition holds exactly when the attribute stored is the value. -/
theorem condHolds_eq (item : AttrMap) (tn : String) (v : AttributeValue) (t : Table)
    (pk sk : List Byte) :
    condHolds { Item := item, TableName := tn,
                ConditionExpression := some "ItemValue = :predicate",
                ExpressionAttributeValues := [(":predicate", v)] } (lookup t.rows pk sk)
      = if typed v = true then some (decide (valueAt t pk sk = some v)) else none :=
  condHolds_eq_aux item tn v (lookup t.rows pk sk)

theorem condHolds_absent_aux (item : AttrMap) (tn : String) (existing : Option Row) :
    condHolds { Item := item, TableName := tn,
                ConditionExpression := some "attribute_not_exists(ItemValue)",
                ExpressionAttributeValues := [] } existing
      = some (decide (existing.bind (fun r => r.item.get "ItemValue") = none)) := by
  simp only [condHolds, if_true]
  cases existing with
  | none => simp
  | some r =>
    simp only [Option.some_bind, Option.some.injEq]
    rw [Bool.eq_iff_iff]
    simp [Option.isNone_iff_eq_none]

/-- The absence condition holds exactly when no `ItemValue` attribute is stored. -/
theorem condHolds_absent (item : AttrMap) (tn : String) (t : Table) (pk sk : List Byte) :
    condHolds { Item := item, TableName := tn,
                ConditionExpression := some "attribute_not_exists(ItemValue)",
                ExpressionAttributeValues := [] } (lookup t.rows pk sk)
      = some (decide (valueAt t pk sk = none)) :=
  condHolds_absent_aux item tn (lookup t.rows pk sk)

/-- Outcome of `SetIf` with a byte predicate on the in-memory table: a predicate that
holds a nil slice is sent as a value without a data type, which the service rejects;
another predicate is compared with the attribute stored. -/
theorem setIf_bytes (params : Params) (t : Table) (pk sk val : List Byte) (b : Bytes)
    (hp : pk ≠ []) (hk : sk ≠ []) :
    ∃ c, (store params).SetIf (some pk) (some sk) (some val) (.bytes b) t
      = if b = none then
          .ret (some (.errorf "put item: %s (key=%v): %w" (.sentinel .ErrOperationFailed)),
            t.record c)
        else if valueAt t pk sk = some { B := b } then
          .ret (none, (t.record c).write pk sk (some val))
        else .ret (some (.sentinel .ErrPredicateFailed), t.record c) := by
  have e1 : (ItemValue ++ " = :predicate") = "ItemValue = :predicate" := by decide
  have hp' : pk.length ≠ 0 := by simpa using hp
  have hk' : sk.length ≠ 0 := by simpa using hk
  refine ⟨.putItem { Item := encoded pk sk (some val), TableName := params.TableName,
                     ConditionExpression := some "ItemValue = :predicate",
                     ExpressionAttributeValues := [(":predicate", { B := b })] }, ?_⟩
  simp only [Store.SetIf, Store.setWithOptionalPredicate, Bytes.len, hp', hk', if_false,
    store, sdk, marshalMap, putItem, e1, if_true, ← encoded.eq_1, keyOf_encoded _ _ _ hp hk,
    typed_encoded, condHolds_eq]
  cases b with
  | none => simp [typed, validationException]
  | some l =>
    by_cases h : valueAt t pk sk = some { B := some l }
    · simp [typed, h, Table.write, Table.record]
    · simp [typed, h]

/-- Outcome of `SetIf` with the nil predicate on the in-memory table. -/
theorem setIf_nil (params : Params) (t : Table) (pk sk val : List Byte)
    (hp : pk ≠ []) (hk : sk ≠ []) :
    ∃ c, (store params).SetIf (some pk) (some sk) (some val) .nil t
      = if valueAt t pk sk = none then .ret (none, (t.record c).write pk sk (some val))
        else .ret (some (.sentinel .ErrPredicateFailed), t.record c) := by
  have e1 : ("attribute_not_exists(" ++ ItemValue ++ ")") = "attribute_not_exists(ItemValue)" := by
    decide
  have hp' : pk.length ≠ 0 := by simpa using hp
  have hk' : sk.length ≠ 0 := by simpa using hk
  refine ⟨.putItem { Item := encoded pk sk (some val), TableName := params.TableName,
                     ConditionExpression := some "attribute_not_exists(ItemValue)",
                     ExpressionAttributeValues := [] }, ?_⟩
  simp only [Store.SetIf, Store.setWithOptionalPredicate, Bytes.len, hp', hk', if_false,
    store, sdk, marshalMap, putItem, e1, if_true, ← encoded.eq_1, keyOf_encoded _ _ _ hp hk,
    typed_encoded, condHolds_absent]
  by_cases h : valueAt t pk sk = none
  · simp [h, Table.write, Table.record]
  · simp [h]

/-- Outcome of `Set` on the in-memory table. -/
theorem set_writes (params : Params) (t : Table) (pk sk val : List Byte)
    (hp : pk ≠ []) (hk : sk ≠ []) :
    ∃ c, (store params).Set (some pk) (some sk) (some val) t
      = .ret (none, (t.record c).write pk sk (some val)) := by
  have hp' : pk.length ≠ 0 := by simpa using hp
  have hk' : sk.length ≠ 0 := by simpa using hk
  refine ⟨.putItem { Item := encoded pk sk (some val), TableName := params.TableName,
                     ConditionExpression := none,
                     ExpressionAttributeValues := [] }, ?_⟩
  simp [Store.Set, Store.setWithOptionalPredicate, Bytes.len, hp', hk',
    store, sdk, marshalMap, putItem, ← encoded.eq_1, keyOf_encoded _ _ _ hp hk,
    typed_encoded, condHolds, Table.write, Table.record]

/-- Outcome of `Delete` on the in-memory table. -/
theorem delete_removes (params : Params) (t : Table) (pk sk : List Byte)
    (hp : pk ≠ []) (hk : sk ≠ []) :
    ∃ c, (store params).Delete (some pk) (some sk) t = (none, (t.record c).remove pk sk) := by
  have hp' : pk.length ≠ 0 := by simpa using hp
  have hk' : sk.length ≠ 0 := by simpa using hk
  refine ⟨.deleteItem { TableName := params.TableName,
                        Key := (store params).bytesKeyToDynamoKey (some pk) (some sk) }, ?_⟩
  simp [Store.Delete, Bytes.len, hp', hk', store, sdk, deleteItem,
    keyOf_key _ _ _ hp hk, Table.remove, Table.record]

/-- Outcome of `Get` on the in-memory table. -/
theorem get_reads (params : Params) (t : Table) (pk sk : List Byte)
    (hp : pk ≠ []) (hk : sk ≠ []) :
    ∃ c, (store params).Get (some pk) (some sk) t
      = (getResult (lookup t.rows pk sk), t.record c) := by
  have hp' : pk.length ≠ 0 := by simpa using hp
  have hk' : sk.length ≠ 0 := by simpa using hk
  refine ⟨.getItem { TableName := params.TableName,
                     Key := (store params).bytesKeyToDynamoKey (some pk) (some sk),
                     ConsistentRead := true }, ?_⟩
  simp only [Store.Get, Bytes.len, hp', hk', if_false, store, sdk, getItem,
    keyOf_key _ _ _ hp hk]
  cases lookup t.rows pk sk <;> simp [getResult, unmarshalMap]

end LakeFS.Dynamodb.Mem

namespace LakeFS.Dynamodb
open LakeFS LakeFS.KV LakeFS.Dynamodb LakeFS.Dynamodb.Mem

theorem Mem.getResult_encoded (pk sk : List Byte) (v : Bytes) :
    Mem.getResult (some { pk := pk, sk := sk, item := Mem.encoded pk sk v })
      = (some { Value := Mem.decodeBytes (some (Mem.encodeBytes v)),
                Predicate := .bytes (Mem.decodeBytes (some (Mem.encodeBytes v))) }, none) := by
  simp [Mem.getResult, Mem.encoded, AttrMap.get]

/-! ## Conditional and unconditional writes -/

/-- `SetIf` with a predicate that holds bytes is a compare-and-swap on the attribute
stored: for a non-empty partition key and key and a value that holds bytes, over the
working backend, the call returns nil and the key reads as the new value when the
attribute stored is the binary of the predicate; otherwise it returns
`ErrPredicateFailed` and the rows of the table are unchanged. -/
theorem setIf_cas_of_bytes (params : Params) (t : Mem.Table) (pk sk val l : List Byte)
    (hp : pk ≠ []) (hk : sk ≠ []) (hval : val ≠ []) :
    (Mem.valueAt t pk sk = some { B := some l } →
      ∃ t1, (Mem.store params).SetIf (some pk) (some sk) (some val) (.bytes (some l)) t
              = .ret (none, t1)
        ∧ Mem.readAt t1 pk sk = some (some val)) ∧
    (Mem.valueAt t pk sk ≠ some { B := some l } →
      ∃ t1, (Mem.store params).SetIf (some pk) (some sk) (some val) (.bytes (some l)) t
              = .ret (some (.sentinel .ErrPredicateFailed), t1)
        ∧ t1.rows = t.rows) := by
  obtain ⟨c, hc⟩ := Mem.setIf_bytes params t pk sk val (some l) hp hk
  simp only [reduceCtorEq, if_false] at hc
  constructor
  · intro h
    exact ⟨(t.record c).write pk sk (some val), by rw [hc, if_pos h],
      by simp [Mem.decode_encode_of_ne _ hval]⟩
  · intro h
    exact ⟨t.record c, by rw [hc, if_neg h], rfl⟩

/-- C1, at the failing input: on the sample table the key `([1], [2, 0])` holds the item
the driver writes for an empty value.  `Get` reads a nil value and returns a predicate
that holds a nil slice.  `SetIf` with that predicate, which is the value stored, does not
succeed and does not return `ErrPredicateFailed`: the predicate is sent without a data
type, the service rejects the request, and the call returns an error wrapping
`ErrOperationFailed`.  So it does on the key `([1], [2])`, which holds another value. -/
theorem C1_nil_slice_predicate_is_rejected :
    Mem.valueAt Mem.sampleTable [1] [2, 0] = some (Mem.encodeBytes (some []))
    ∧ ((Mem.store Mem.sampleParams).Get (some [1]) (some [2, 0]) Mem.sampleTable).1
      = (some { Value := none, Predicate := .bytes none }, none)
    ∧ (∃ t1, (Mem.store Mem.sampleParams).SetIf (some [1]) (some [2, 0]) (some [4])
          (.bytes none) Mem.sampleTable
        = .ret (some (.errorf "put item: %s (key=%v): %w" (.sentinel .ErrOperationFailed)), t1)
      ∧ t1.rows = Mem.sampleTable.rows)
    ∧ (∃ t1, (Mem.store Mem.sampleParams).SetIf (some [1]) (some [2]) (some [4])
          (.bytes none) Mem.sampleTable
        = .ret (some (.errorf "put item: %s (key=%v): %w" (.sentinel .ErrOperationFailed)), t1)
      ∧ t1.rows = Mem.sampleTable.rows) := by
  refine ⟨by decide, rfl, ⟨_, rfl, rfl⟩, ⟨_, rfl, rfl⟩⟩

/-- `SetIf` with the nil predicate, for a non-empty partition key and key and a value
that holds bytes, over the working backend: when no item is stored under the key the call
returns nil and the key reads as the value; when the key holds an `ItemValue` attribute
it returns `ErrPredicateFailed` and the rows of the table are unchanged. -/
theorem setIf_nil_of_bytes (params : Params) (t : Mem.Table) (pk sk val : List Byte)
    (hp : pk ≠ []) (hk : sk ≠ []) (hval : val ≠ []) :
    (Mem.lookup t.rows pk sk = none →
      ∃ t1, (Mem.store params).SetIf (some pk) (some sk) (some val) .nil t = .ret (none, t1)
        ∧ Mem.readAt t1 pk sk = some (some val)) ∧
    (Mem.valueAt t pk sk ≠ none →
      ∃ t1, (Mem.store params).SetIf (some pk) (some sk) (some val) .nil t
              = .ret (some (.sentinel .ErrPredicateFailed), t1)
        ∧ t1.rows = t.rows) := by
  obtain ⟨c, hc⟩ := Mem.setIf_nil params t pk sk val hp hk
  constructor
  · intro h
    have hv : Mem.valueAt t pk sk = none := by simp [Mem.valueAt, h]
    exact ⟨(t.record c).write pk sk (some val), by rw [hc, if_pos hv],
      by simp [Mem.decode_encode_of_ne _ hval]⟩
  · intro h
    exact ⟨t.record c, by rw [hc, if_neg h], rfl⟩

/-- `Get` after a write of a value that holds bytes round-trips: for a non-empty
partition key and key, over the working backend, after `Set` of the value `Get` returns
it with the predicate holding it, and a `SetIf` of any value that holds bytes with that
predicate right after succeeds. -/
theorem get_after_set_of_bytes (params : Params) (t : Mem.Table) (pk sk val : List Byte)
    (hp : pk ≠ []) (hk : sk ≠ []) (hval : val ≠ []) :
    ∃ t1, (Mem.store params).Set (some pk) (some sk) (some val) t = .ret (none, t1)
      ∧ ∃ t2, (Mem.store params).Get (some pk) (some sk) t1
          = ((some { Value := some val, Predicate := .bytes (some val) }, none), t2)
        ∧ ∀ val2 : List Byte, val2 ≠ [] → ∃ t3,
            (Mem.store params).SetIf (some pk) (some sk) (some val2) (.bytes (some val)) t2
              = .ret (none, t3)
            ∧ Mem.readAt t3 pk sk = some (some val2) := by
  obtain ⟨c, hc⟩ := Mem.set_writes params t pk sk val hp hk
  refine ⟨_, hc, ?_⟩
  obtain ⟨c2, h2⟩ := Mem.get_reads params ((t.record c).write pk sk (some val)) pk sk hp hk
  rw [Mem.lookup_write_same, Mem.getResult_encoded, Mem.decode_encode_of_ne _ hval] at h2
  refine ⟨_, h2, ?_⟩
  intro val2 hval2
  have hv : Mem.valueAt (((t.record c).write pk sk (some val)).record c2) pk sk
      = some { B := some val } := by
    simp [Mem.encodeBytes_of_ne _ hval]
  exact (setIf_cas_of_bytes params _ pk sk val2 val hp hk hval2).1 hv

/-- C3, at the failing input: `Set` of the non-nil empty value under the key
`([1], [9])` of the sample table returns nil.  `Get` right after returns a nil value, not
the value written, and a predicate that holds a nil slice; `SetIf` with that predicate
right after does not succeed: it returns an error wrapping `ErrOperationFailed`, and the
rows of the table stay as `Set` left them. -/
theorem C3_empty_value_does_not_round_trip :
    ∃ t1 t2 t3,
      (Mem.store Mem.sampleParams).Set (some [1]) (some [9]) (some []) Mem.sampleTable
        = .ret (none, t1)
      ∧ (Mem.store Mem.sampleParams).Get (some [1]) (some [9]) t1
        = ((some { Value := none, Predicate := .bytes none }, none), t2)
      ∧ (Mem.store Mem.sampleParams).SetIf (some [1]) (some [9]) (some [4]) (.bytes none) t2
        = .ret (some (.errorf "put item: %s (key=%v): %w" (.sentinel .ErrOperationFailed)), t3)
      ∧ t3.rows = t1.rows := by
  refine ⟨_, _, _, rfl, rfl, rfl, rfl⟩

/-- `Set` of a value that holds bytes is an unconditional upsert: for a non-empty
partition key and key and any table, over the working backend, it returns nil, the key
reads as the value afterwards and every other key is unchanged. -/
theorem set_upsert_of_bytes (params : Params) (t : Mem.Table) (pk sk val : List Byte)
    (hp : pk ≠ []) (hk : sk ≠ []) (hval : val ≠ []) :
    ∃ t1, (Mem.store params).Set (some pk) (some sk) (some val) t = .ret (none, t1)
      ∧ Mem.readAt t1 pk sk = some (some val)
      ∧ ∀ pk1 sk1, ¬ (pk1 = pk ∧ sk1 = sk) →
          Mem.lookup t1.rows pk1 sk1 = Mem.lookup t.rows pk1 sk1 := by
  obtain ⟨c, hc⟩ := Mem.set_writes params t pk sk val hp hk
  refine ⟨(t.record c).write pk sk (some val), hc,
    by simp [Mem.decode_encode_of_ne _ hval], ?_⟩
  intro pk1 sk1 h
  rw [Mem.lookup_write_other _ _ _ _ _ _ h]
  rfl

/-- Over any backend at all, `Set` returns (it does not panic) and its error never is or
wraps `ErrPredicateFailed`, whatever the backend reports. -/
theorem set_never_predicate_failed {σ : Type} (s : Store σ) (p k v : Bytes) (db : σ) :
    ∃ e db1, s.Set p k v db = .ret (e, db1)
      ∧ ∀ err, e = some err → err.Is .ErrPredicateFailed = false := by
  simp only [Store.Set, Store.setWithOptionalPredicate, Bool.false_eq_true, if_false,
    and_false]
  repeat' split
  all_goals
    refine ⟨_, _, rfl, ?_⟩
    intro err h
    cases h
    try rfl

/-- C6: argument validation fails fast and never reaches the backend.  Over any backend and
service state `db`: with an empty partition key `Get`, `Set`, `SetIf`, `Delete` and `Scan`
return `ErrMissingPartitionKey`; otherwise with an empty key `Get`, `Set`, `SetIf` and
`Delete` return `ErrMissingKey`; otherwise with a nil value `Set` and `SetIf` return
`ErrMissingValue`.  In each case the service state returned is `db` itself, so no call was
issued and nothing was stored.  A non-nil empty value passes validation: on the working
backend `Set` and `SetIf` of it issue their one `PutItem` request and return nil; the
attribute that request stores for the value is `NULL`. -/
theorem C6_validation_fails_fast {σ : Type} (s : Store σ) (db : σ) (p k v : Bytes)
    (pred : Predicate) :
    (p.len = 0 →
      s.Get p k db = ((none, some (.sentinel .ErrMissingPartitionKey)), db)
      ∧ s.Set p k v db = .ret (some (.sentinel .ErrMissingPartitionKey), db)
      ∧ s.SetIf p k v pred db = .ret (some (.sentinel .ErrMissingPartitionKey), db)
      ∧ s.Delete p k db = (some (.sentinel .ErrMissingPartitionKey), db)
      ∧ s.Scan p k db = ((none, some (.sentinel .ErrMissingPartitionKey)), db)) ∧
    (p.len ≠ 0 → k.len = 0 →
      s.Get p k db = ((none, some (.sentinel .ErrMissingKey)), db)
      ∧ s.Set p k v db = .ret (some (.sentinel .ErrMissingKey), db)
      ∧ s.SetIf p k v pred db = .ret (some (.sentinel .ErrMissingKey), db)
      ∧ s.Delete p k db = (some (.sentinel .ErrMissingKey), db)) ∧
    (p.len ≠ 0 → k.len ≠ 0 → v = none →
      s.Set p k v db = .ret (some (.sentinel .ErrMissingValue), db)
      ∧ s.SetIf p k v pred db = .ret (some (.sentinel .ErrMissingValue), db)) ∧
    (∀ (params : Params) (t : Mem.Table) (pk sk : List Byte), pk ≠ [] → sk ≠ [] →
      (∃ t1, (Mem.store params).Set (some pk) (some sk) (some []) t = .ret (none, t1)
        ∧ t1.calls.length = t.calls.length + 1
        ∧ Mem.valueAt t1 pk sk = some { B := none, NULL := true }) ∧
      (Mem.lookup t.rows pk sk = none →
        ∃ t1, (Mem.store params).SetIf (some pk) (some sk) (some []) .nil t = .ret (none, t1)
          ∧ t1.calls.length = t.calls.length + 1
          ∧ Mem.valueAt t1 pk sk = some { B := none, NULL := true })) := by
  refine ⟨?_, ?_, ?_, ?_⟩
  · intro hp
    simp [Store.Get, Store.Set, Store.SetIf, Store.setWithOptionalPredicate, Store.Delete,
      Store.Scan, Store.scanInternal, hp]
  · intro hp hk
    simp [Store.Get, Store.Set, Store.SetIf, Store.setWithOptionalPredicate, Store.Delete,
      hp, hk]
  · intro hp hk hv
    simp [Store.Set, Store.SetIf, Store.setWithOptionalPredicate, hp, hk, hv]
  · intro params t pk sk hp hk
    constructor
    · obtain ⟨c, hc⟩ := Mem.set_writes params t pk sk [] hp hk
      exact ⟨(t.record c).write pk sk (some []), hc,
        by simp [Mem.Table.write, Mem.Table.record],
        by rw [Mem.valueAt_write_same]; rfl⟩
    · intro hl
      obtain ⟨c, hc⟩ := Mem.setIf_nil params t pk sk [] hp hk
      have hv : Mem.valueAt t pk sk = none := by simp [Mem.valueAt, hl]
      rw [if_pos hv] at hc
      exact ⟨(t.record c).write pk sk (some []), hc,
        by simp [Mem.Table.write, Mem.Table.record],
        by rw [Mem.valueAt_write_same]; rfl⟩

/-- C6 at the sample table: `Set` with the nil partition key is rejected and the table,
its call record included, is untouched. -/
theorem C6_validation_fails_fast_witness :
    (Mem.store Mem.sampleParams).Set none (some [1]) (some [2]) Mem.sampleTable
      = .ret (some (.sentinel .ErrMissingPartitionKey), Mem.sampleTable) :=
  ((C6_validation_fails_fast (Mem.store Mem.sampleParams) Mem.sampleTable none (some [1])
    (some [2]) .nil).1 (by decide)).2.1

/-- C9: `Delete` is unconditional and absence is not an error.  For a non-empty partition
key and key and any table, `Delete` over the working backend returns nil whether or not the
key is stored; afterwards `Get` of that key returns no result and an error wrapping
`ErrNotFound`, and every other key is unchanged. -/
theorem C9_delete_unconditional (params : Params) (t : Mem.Table) (pk sk : List Byte)
    (hp : pk ≠ []) (hk : sk ≠ []) :
    ∃ t1, (Mem.store params).Delete (some pk) (some sk) t = (none, t1)
      ∧ (∃ e t2, (Mem.store params).Get (some pk) (some sk) t1 = ((none, some e), t2)
          ∧ e.Is .ErrNotFound = true)
      ∧ ∀ pk1 sk1, ¬ (pk1 = pk ∧ sk1 = sk) →
          Mem.lookup t1.rows pk1 sk1 = Mem.lookup t.rows pk1 sk1 := by
  obtain ⟨c, hc⟩ := Mem.delete_removes params t pk sk hp hk
  refine ⟨(t.record c).remove pk sk, hc, ?_, ?_⟩
  · obtain ⟨c1, h1⟩ := Mem.get_reads params ((t.record c).remove pk sk) pk sk hp hk
    have hl : Mem.lookup ((t.record c).remove pk sk).rows pk sk = none :=
      Mem.lookup_removeKey_same _ pk sk
    rw [hl] at h1
    exact ⟨_, _, h1, rfl⟩
  · intro pk1 sk1 h
    exact Mem.lookup_removeKey_other t.rows pk sk pk1 sk1 h

/-- C9 at the sample table, for a key that is stored. -/
theorem C9_delete_unconditional_witness :
    ∃ t1, (Mem.store Mem.sampleParams).Delete (some [1]) (some [7]) Mem.sampleTable
        = (none, t1)
      ∧ (∃ e t2, (Mem.store Mem.sampleParams).Get (some [1]) (some [7]) t1
            = ((none, some e), t2) ∧ e.Is .ErrNotFound = true)
      ∧ ∀ pk1 sk1, ¬ (pk1 = [1] ∧ sk1 = [7]) →
          Mem.lookup t1.rows pk1 sk1 = Mem.lookup Mem.sampleTable.rows pk1 sk1 :=
  C9_delete_unconditional Mem.sampleParams Mem.sampleTable [1] [7] (by decide) (by decide)

/-- C10: `Get` on a non-empty partition key and key.  Over any backend: when the service
reports no item under the key, `Get` returns a nil result and an error that wraps
`ErrNotFound` and does not wrap `ErrOperationFailed`; `Get` returns a non-nil result with
a nil error exactly when the service returns an item and the item decodes; and the result
is nil exactly when the error is non-nil.  On the working backend the service reports no
item exactly when no row is stored under the key. -/
theorem C10_get_not_found {σ : Type} (s : Store σ) (p k : Bytes) (db : σ)
    (hp : p.len ≠ 0) (hk : k.len ≠ 0) :
    (∀ db1, s.svc.GetItemWithContext
          { TableName := s.params.TableName, Key := s.bytesKeyToDynamoKey p k,
            ConsistentRead := true } db = (.ok none, db1) →
      ∃ e, s.Get p k db = ((none, some e), db1)
        ∧ e.Is .ErrNotFound = true ∧ e.Is .ErrOperationFailed = false) ∧
    (((s.Get p k db).1.1 ≠ none ∧ (s.Get p k db).1.2 = none) ↔
      ∃ raw db1, s.svc.GetItemWithContext
          { TableName := s.params.TableName, Key := s.bytesKeyToDynamoKey p k,
            ConsistentRead := true } db = (.ok (some raw), db1)
        ∧ (s.svc.UnmarshalMap raw).2 = none) ∧
    ((s.Get p k db).1.1 = none ↔ (s.Get p k db).1.2 ≠ none) ∧
    (∀ (params : Params) (t : Mem.Table) (pk sk : List Byte), pk ≠ [] → sk ≠ [] →
      Mem.lookup t.rows pk sk = none →
      ∃ e t1, (Mem.store params).Get (some pk) (some sk) t = ((none, some e), t1)
        ∧ e.Is .ErrNotFound = true ∧ e.Is .ErrOperationFailed = false) := by
  refine ⟨?_, ?_, ?_, ?_⟩
  · intro db1 h
    refine ⟨.errorf "key=%v: %w" (.sentinel .ErrNotFound), ?_, rfl, rfl⟩
    simp [Store.Get, hp, hk, h]
  · simp only [Store.Get, hp, hk, if_false]
    rcases hg : s.svc.GetItemWithContext
          { TableName := s.params.TableName, Key := s.bytesKeyToDynamoKey p k,
            ConsistentRead := true } db with ⟨r, db1⟩
    rcases r with x | x
    · simp
    · cases x with
      | none => simp
      | some raw =>
        rcases hu : s.svc.UnmarshalMap raw with ⟨item, uerr⟩
        cases uerr <;> simp [hu]
  · simp only [Store.Get, hp, hk, if_false]
    rcases hg : s.svc.GetItemWithContext
          { TableName := s.params.TableName, Key := s.bytesKeyToDynamoKey p k,
            ConsistentRead := true } db with ⟨r, db1⟩
    rcases r with x | x
    · simp
    · cases x with
      | none => simp
      | some raw =>
        rcases hu : s.svc.UnmarshalMap raw with ⟨item, uerr⟩
        cases uerr <;> simp [hu]
  · intro params t pk sk hp1 hk1 hl
    obtain ⟨c, hc⟩ := Mem.get_reads params t pk sk hp1 hk1
    rw [hl] at hc
    exact ⟨_, _, hc, rfl, rfl⟩

/-- C10 at the sample table: key `[9]` of partition `[1]` is not stored. -/
theorem C10_get_not_found_witness :
    ∃ e t1, (Mem.store Mem.sampleParams).Get (some [1]) (some [9]) Mem.sampleTable
        = ((none, some e), t1)
      ∧ e.Is .ErrNotFound = true ∧ e.Is .ErrOperationFailed = false :=
  (C10_get_not_found (Mem.store Mem.sampleParams) (some [1]) (some [9]) Mem.sampleTable
    (by decide) (by decide)).2.2.2 Mem.sampleParams Mem.sampleTable [1] [9]
    (by decide) (by decide) (by decide)

end LakeFS.Dynamodb

namespace LakeFS.Dynamodb.Mem
open LakeFS LakeFS.KV LakeFS.Dynamodb

/-! ## Storage order -/

theorem bytesLt_irrefl (a : List Byte) : bytesLt a a = false := by
  induction a with
  | nil => rfl
  | cons x xs ih => simp [bytesLt, ih]

theorem bytesLt_trans (a b c : List Byte) (h1 : bytesLt a b = true) (h2 : bytesLt b c = true) :
    bytesLt a c = true := by
  induction a generalizing b c with
  | nil =>
    cases b with
    | nil => simp [bytesLt] at h1
    | cons y ys =>
      cases c with
      | nil => simp [bytesLt] at h2
      | cons z zs => rfl
  | cons x xs ih =>
    cases b with
    | nil => simp [bytesLt] at h1
    | cons y ys =>
      cases c with
      | nil => simp [bytesLt] at h2
      | cons z zs =>
        simp only [bytesLt, Bool.or_eq_true, decide_eq_true_eq, Bool.and_eq_true] at h1 h2 ⊢
        rcases h1 with h1 | ⟨h1, h1r⟩
        · rcases h2 with h2 | ⟨h2, _⟩
          · left; omega
          · left; rw [← h2]; exact h1
        · rcases h2 with h2 | ⟨h2, h2r⟩
          · left; rw [h1]; exact h2
          · right; exact ⟨h1.trans h2, ih ys zs h1r h2r⟩

theorem bytesLt_connected (a b : List Byte) (h1 : bytesLt a b = false)
    (h2 : bytesLt b a = false) : a = b := by
  induction a generalizing b with
  | nil =>
    cases b with
    | nil => rfl
    | cons y ys => simp [bytesLt] at h1
  | cons x xs ih =>
    cases b with
    | nil => simp [bytesLt] at h2
    | cons y ys =>
      simp only [bytesLt, Bool.or_eq_false_iff, decide_eq_false_iff_not,
        Bool.and_eq_false_iff] at h1 h2
      have hxy : x = y := by
        apply Fin.ext
        omega
      subst hxy
      have e1 : bytesLt xs ys = false := by
        rcases h1.2 with h | h
        · exact absurd rfl h
        · exact h
      have e2 : bytesLt ys xs = false := by
        rcases h2.2 with h | h
        · exact absurd rfl h
        · exact h
      rw [ih ys e1 e2]

theorem rowLt_trans (a b c : Row) (h1 : rowLt a b = true) (h2 : rowLt b c = true) :
    rowLt a c = true := by
  simp only [rowLt, Bool.or_eq_true, Bool.and_eq_true, decide_eq_true_eq] at h1 h2 ⊢
  rcases h1 with h1 | ⟨h1, h1r⟩
  · rcases h2 with h2 | ⟨h2, _⟩
    · left; exact bytesLt_trans _ _ _ h1 h2
    · left; rw [← h2]; exact h1
  · rcases h2 with h2 | ⟨h2, h2r⟩
    · left; rw [h1]; exact h2
    · right; exact ⟨h1.trans h2, bytesLt_trans _ _ _ h1r h2r⟩

/-- Two rows not ordered either way have the same key. -/
theorem rowLt_connected (a b : Row) (h1 : rowLt a b = false) (h2 : rowLt b a = false) :
    a.pk = b.pk ∧ a.sk = b.sk := by
  simp only [rowLt, Bool.or_eq_false_iff, Bool.and_eq_false_iff, decide_eq_false_iff_not] at h1 h2
  have hpk : a.pk = b.pk := bytesLt_connected _ _ h1.1 h2.1
  refine ⟨hpk, ?_⟩
  have e1 : bytesLt a.sk b.sk = false := by
    rcases h1.2 with h | h
    · exact absurd hpk h
    · exact h
  have e2 : bytesLt b.sk a.sk = false := by
    rcases h2.2 with h | h
    · exact absurd hpk.symm h
    · exact h
  exact bytesLt_connected _ _ e1 e2

/-! ## Scanning the in-memory table -/

theorem pageLimit_scan (scanLimit : Int) (cap : Nat) (h : 0 ≤ scanLimit) :
    pageLimit (if scanLimit ≠ 0 then some scanLimit else none) cap
      = some (limitOf scanLimit cap) := by
  by_cases h0 : scanLimit = 0
  · simp [pageLimit, limitOf, h0]
  · have h1 : ¬ scanLimit < 1 := by omega
    simp [pageLimit, limitOf, h0, h1]

theorem limitOf_pos (scanLimit : Int) (cap n : Nat) (h : 0 ≤ scanLimit)
    (hn : limitOf scanLimit cap = some n) : 1 ≤ n := by
  unfold limitOf at hn
  split at hn
  · split at hn
    · simp at hn
    · simp only [Option.some.injEq] at hn; omega
  · split at hn
    · simp only [Option.some.injEq] at hn; omega
    · simp only [Option.some.injEq] at hn; omega

/-- The iterator `scanInternal` builds over a page. -/
theorem scanInternal_page (params : Params) (t : Table) (pk : List Byte) (start : Bytes)
    (esk : Option AttrMap) (after : Option (List Byte))
    (hp : pk ≠ []) (hlim : 0 ≤ params.ScanLimit) (hesk : startAfter pk esk = some after) :
    ∃ c, Call.isScanQuery pk (lowerBound start) c = true ∧
      served t.rows t.pageCap c
        = (pageOutput t.rows { pk := pk, lo := lowerBound start } after
            (limitOf params.ScanLimit t.pageCap)).Items ∧
      (store params).scanInternal (some pk) start esk t
        = ((some { entry := none, err := none, store := store params, partKey := some pk,
                   startKey := start,
                   queryResult := pageOutput t.rows { pk := pk, lo := lowerBound start } after
                     (limitOf params.ScanLimit t.pageCap),
                   currEntryIdx := 0 }, none), t.record c) := by
  have e1 : (PartitionKey ++ " = :partitionkey") = "PartitionKey = :partitionkey" := by decide
  have e2 : (PartitionKey ++ " = :partitionkey" ++ " AND " ++ ItemKey ++ " >= :fromkey")
      = "PartitionKey = :partitionkey AND ItemKey >= :fromkey" := by decide
  have e3 : ("PartitionKey = :partitionkey AND ItemKey >= :fromkey"
      = "PartitionKey = :partitionkey") = False := by decide
  have hp' : pk.length ≠ 0 := by simpa using hp
  have hparse : ∀ lim : Option Int,
      parseKeyCondition
        { TableName := params.TableName,
          KeyConditionExpression :=
            if start.len > 0 then PartitionKey ++ " = :partitionkey" ++ " AND " ++ ItemKey
              ++ " >= :fromkey"
            else PartitionKey ++ " = :partitionkey",
          ExpressionAttributeValues :=
            if start.len > 0 then
              [(":partitionkey", { B := some pk })] ++ [(":fromkey", { B := start })]
            else [(":partitionkey", { B := some pk })],
          ConsistentRead := true, ScanIndexForward := true, ExclusiveStartKey := esk,
          Limit := lim } = some { pk := pk, lo := lowerBound start } := by
    intro lim
    rcases start with _ | _ | ⟨x, xs⟩
    · simp [parseKeyCondition, Bytes.len, e1, AttrMap.get, hp, lowerBound]
    · simp [parseKeyCondition, Bytes.len, e1, AttrMap.get, hp, lowerBound]
    · simp [parseKeyCondition, Bytes.len, e2, e3, AttrMap.get, hp, lowerBound]
  refine ⟨.query
    { TableName := params.TableName,
      KeyConditionExpression :=
        if start.len > 0 then PartitionKey ++ " = :partitionkey" ++ " AND " ++ ItemKey
          ++ " >= :fromkey"
        else PartitionKey ++ " = :partitionkey",
      ExpressionAttributeValues :=
        if start.len > 0 then
          [(":partitionkey", { B := some pk })] ++ [(":fromkey", { B := start })]
        else [(":partitionkey", { B := some pk })],
      ConsistentRead := true, ScanIndexForward := true, ExclusiveStartKey := esk,
      Limit := if params.ScanLimit ≠ 0 then some params.ScanLimit else none }, ?_, ?_, ?_⟩
  · simp only [Call.isScanQuery, hparse, decide_True]
  · have hl := pageLimit_scan params.ScanLimit t.pageCap hlim
    simp only [served, query, hparse, hesk, hl]
    simp
  · have hl := pageLimit_scan params.ScanLimit t.pageCap hlim
    have hpl : ¬ Bytes.len (some pk) = 0 := hp'
    by_cases h0 : params.ScanLimit = 0
    · simp only [h0, ne_eq, not_true_eq_false, if_false] at hl ⊢
      simp only [Store.scanInternal, hpl, if_false, store, sdk, query, h0, ne_eq,
        not_true_eq_false, hparse, hesk, hl]
      simp
    · simp only [h0, ne_eq, not_false_eq_true, if_true] at hl ⊢
      simp only [Store.scanInternal, hpl, if_false, store, sdk, query, h0, ne_eq,
        not_false_eq_true, if_true, hparse, hesk, hl]
      simp

/-- In a list in ascending sort-key order, the elements above the last element of the
first `n` are the elements after the first `n`. -/
theorem filter_above_last (X : List Row) (n : Nat) (r : Row)
    (hs : X.Pairwise (fun a b => bytesLt a.sk b.sk = true))
    (hr : (X.take n).getLast? = some r) :
    X.filter (fun x => bytesLt r.sk x.sk) = X.drop n := by
  have hsplit : X = X.take n ++ X.drop n := (List.take_append_drop n X).symm
  have hs2 := hs
  rw [hsplit, List.pairwise_append] at hs2
  obtain ⟨hst, _, hcross⟩ := hs2
  have hrmem : r ∈ X.take n := List.mem_of_getLast?_eq_some hr
  have h1 : (X.take n).filter (fun x => bytesLt r.sk x.sk) = [] := by
    rw [List.filter_eq_nil_iff]
    intro x hx hlt
    obtain ⟨ini, hini⟩ : ∃ ini, X.take n = ini ++ [r] := by
      rcases List.getLast?_eq_some_iff.mp hr with ⟨ini, h⟩
      exact ⟨ini, h⟩
    rw [hini] at hx hst
    rw [List.mem_append] at hx
    rcases hx with hx | hx
    · rw [List.pairwise_append] at hst
      have hxr : bytesLt x.sk r.sk = true := hst.2.2 x hx r (by simp)
      have := bytesLt_trans _ _ _ hxr hlt
      rw [bytesLt_irrefl] at this
      exact Bool.false_ne_true this
    · simp only [List.mem_singleton] at hx
      subst hx
      rw [bytesLt_irrefl] at hlt
      exact Bool.false_ne_true hlt
  have h2 : (X.drop n).filter (fun x => bytesLt r.sk x.sk) = X.drop n := by
    rw [List.filter_eq_self]
    intro x hx
    exact hcross r hrmem x hx
  conv_lhs => rw [hsplit]
  rw [List.filter_append, h1, h2, List.nil_append]

/-- The selected rows of one partition are in ascending sort-key order. -/
theorem selected_sorted (rows : List Row) (c : KeyCond) (after : Option (List Byte))
    (hs : rows.Pairwise (fun a b => rowLt a b = true)) :
    (rows.filter (selects c after)).Pairwise (fun a b => bytesLt a.sk b.sk = true) := by
  have h1 := List.Pairwise.filter (selects c after) hs
  refine List.Pairwise.imp_of_mem ?_ h1
  intro a b ha hb hab
  have hapk : a.pk = c.pk := by
    have := (List.mem_filter.mp ha).2
    simp only [selects, Bool.and_eq_true, decide_eq_true_eq] at this
    exact this.1.1
  have hbpk : b.pk = c.pk := by
    have := (List.mem_filter.mp hb).2
    simp only [selects, Bool.and_eq_true, decide_eq_true_eq] at this
    exact this.1.1
  simp only [rowLt, Bool.or_eq_true, Bool.and_eq_true, decide_eq_true_eq] at hab
  rcases hab with h | h
  · rw [hapk, hbpk, bytesLt_irrefl] at h
    exact absurd h Bool.false_ne_true
  · exact h.2

/-- Resuming after the last row of a full page selects the rows after that page. -/
theorem selected_resume (rows : List Row) (c : KeyCond) (after : Option (List Byte))
    (n : Nat) (r : Row) (hs : rows.Pairwise (fun a b => rowLt a b = true))
    (hr : ((rows.filter (selects c after)).take n).getLast? = some r) :
    rows.filter (selects c (some r.sk)) = (rows.filter (selects c after)).drop n := by
  rw [← filter_above_last _ n r (selected_sorted rows c after hs) hr, List.filter_filter]
  have hrsel : selects c after r = true :=
    (List.mem_filter.mp (List.mem_of_mem_take (List.mem_of_getLast?_eq_some hr))).2
  apply List.filter_congr
  intro x _
  cases after with
  | none => simp [selects, Bool.and_comm]
  | some a =>
    have har : bytesLt a r.sk = true := by
      simp only [selects, Bool.and_eq_true] at hrsel
      exact hrsel.2
    by_cases hx : bytesLt r.sk x.sk = true
    · have := bytesLt_trans _ _ _ har hx
      simp [selects, hx, this]
    · simp only [Bool.not_eq_true] at hx
      simp [selects, hx]

/-- Inside a page `Next` yields the row at the index and moves on, without a service call. -/
theorem nextLoop_yield (params : Params) (pk : List Byte) (start : Bytes)
    (rows : List Row) (c : KeyCond) (after : Option (List Byte)) (lim : Option Nat)
    (i : Nat) (ent : Option KV.Entry) (t : Table) (pages : Nat) (r : Row)
    (hr : (pageRows rows c after lim).get? i = some r) :
    (iterAt params pk start (pageOutput rows c after lim) i ent).nextLoop pages t
      = .ret (true, iterAt params pk start (pageOutput rows c after lim) (i + 1 : Nat)
                (some (entryOf r)), t) := by
  have hlt : i < (pageRows rows c after lim).length := by
    rcases List.get?_eq_some.mp hr with ⟨h, _⟩
    exact h
  have hne : ¬ ((i : Int) = ((pageRows rows c after lim).length : Int)) := by
    intro h
    have := Int.ofNat_inj.mp h
    omega
  have hneg : ¬ ((i : Int) < 0) := by omega
  have hr2 : (List.map (fun r => r.item) (pageRows rows c after lim)).get? i = some r.item := by
    rw [List.get?_eq_getElem?] at hr ⊢
    rw [List.getElem?_map, hr]
    rfl
  unfold EntriesIterator.nextLoop
  simp only [iterAt, pageOutput, hne, if_false, hneg, Int.toNat_ofNat, hr2,
    store, sdk, unmarshalMap, entryOf]
  simp

/-- At the end of the last page `Next` returns false, without a service call. -/
theorem nextLoop_stop (params : Params) (pk : List Byte) (start : Bytes)
    (rows : List Row) (c : KeyCond) (after : Option (List Byte)) (lim : Option Nat)
    (i : Nat) (ent : Option KV.Entry) (t : Table) (pages : Nat)
    (hi : i = (pageRows rows c after lim).length)
    (hl : (pageOutput rows c after lim).LastEvaluatedKey = none) :
    (iterAt params pk start (pageOutput rows c after lim) i ent).nextLoop pages t
      = .ret (false, iterAt params pk start (pageOutput rows c after lim) i ent, t) := by
  have he : ((i : Int) = (pageOutput rows c after lim).Count) := by
    rw [hi]
    rfl
  unfold EntriesIterator.nextLoop
  simp only [iterAt, he, if_true, hl]

/-- At the end of a page that has a continuation key `Next` fetches the page after it,
with the same partition and lower bound. -/
theorem nextLoop_fetch (params : Params) (pk : List Byte) (start : Bytes)
    (after : Option (List Byte)) (i : Nat) (ent : Option KV.Entry) (t : Table) (pages : Nat)
    (r : Row) (hp : pk ≠ []) (hlim : 0 ≤ params.ScanLimit)
    (hi : i = (pageRows t.rows { pk := pk, lo := lowerBound start } after
                (limitOf params.ScanLimit t.pageCap)).length)
    (hl : (pageOutput t.rows { pk := pk, lo := lowerBound start } after
            (limitOf params.ScanLimit t.pageCap)).LastEvaluatedKey = some (keyMap r))
    (hrpk : r.pk = pk) (hrsk : r.sk ≠ []) :
    ∃ call, Call.isScanQuery pk (lowerBound start) call = true ∧
      served t.rows t.pageCap call
        = (pageOutput t.rows { pk := pk, lo := lowerBound start } (some r.sk)
            (limitOf params.ScanLimit t.pageCap)).Items ∧
      (iterAt params pk start (pageOutput t.rows { pk := pk, lo := lowerBound start } after
          (limitOf params.ScanLimit t.pageCap)) i ent).nextLoop (pages + 1) t
        = (iterAt params pk start (pageOutput t.rows { pk := pk, lo := lowerBound start }
            (some r.sk) (limitOf params.ScanLimit t.pageCap)) (0 : Nat) ent).nextLoop pages
            (t.record call) := by
  have hesk : startAfter pk (some (keyMap r)) = some (some r.sk) := by
    have hrp : r.pk ≠ [] := by rw [hrpk]; exact hp
    subst hrpk
    simp [startAfter, keyOf, keyMap, AttrMap.get, hrp, hrsk]
  obtain ⟨call, hcall, hserved, hscan⟩ :=
    scanInternal_page params t pk start (some (keyMap r)) (some r.sk) hp hlim hesk
  refine ⟨call, hcall, hserved, ?_⟩
  have he : ((i : Int) = (pageOutput t.rows { pk := pk, lo := lowerBound start } after
      (limitOf params.ScanLimit t.pageCap)).Count) := by
    rw [hi]
    rfl
  conv_lhs => unfold EntriesIterator.nextLoop
  simp only [iterAt, he, if_true, hl, hscan]
  rfl

theorem drop_of_get? {α : Type} (X : List α) (i : Nat) (r : α) (h : X.get? i = some r) :
    X.drop i = r :: X.drop (i + 1) := by
  rw [List.get?_eq_getElem?, List.getElem?_eq_some] at h
  obtain ⟨hlt, hx⟩ := h
  rw [List.drop_eq_getElem_cons hlt, hx]

/-- A row at an index of a page is the selected row at that index. -/
theorem pageRows_get (rows : List Row) (c : KeyCond) (after : Option (List Byte))
    (lim : Option Nat) (i : Nat) (r : Row) (h : (pageRows rows c after lim).get? i = some r) :
    (rows.filter (selects c after)).drop i
      = r :: (rows.filter (selects c after)).drop (i + 1) := by
  apply drop_of_get?
  cases lim with
  | none => exact h
  | some n =>
    simp only [pageRows, List.get?_eq_getElem?, List.getElem?_take] at h
    split at h
    · rw [List.get?_eq_getElem?]; exact h
    · cases h

theorem pageRows_length_le (rows : List Row) (c : KeyCond) (after : Option (List Byte))
    (lim : Option Nat) :
    (pageRows rows c after lim).length ≤ (rows.filter (selects c after)).length := by
  cases lim with
  | none => exact le_refl _
  | some n => exact List.length_take_le' n _

/-- A page without a continuation key ends the selected rows. -/
theorem pageRows_last (rows : List Row) (c : KeyCond) (after : Option (List Byte))
    (lim : Option Nat) (hpos : ∀ n, lim = some n → 1 ≤ n)
    (hl : (pageOutput rows c after lim).LastEvaluatedKey = none) :
    (rows.filter (selects c after)).drop (pageRows rows c after lim).length = [] := by
  cases lim with
  | none => simp [pageRows]
  | some n =>
    have hn := hpos n rfl
    simp only [pageOutput] at hl
    split at hl
    · rename_i hlen
      simp only [Option.map_eq_none', List.getLast?_eq_none_iff] at hl
      rw [hl] at hlen
      simp only [List.length_nil] at hlen
      omega
    · rename_i hlen
      simp only [pageRows, List.length_take] at hlen ⊢
      rw [List.drop_eq_nil_iff]
      omega

/-- A page with a continuation key is a full page, and the key is that of its last row. -/
theorem pageRows_more (rows : List Row) (c : KeyCond) (after : Option (List Byte))
    (lim : Option Nat) (m : AttrMap)
    (hl : (pageOutput rows c after lim).LastEvaluatedKey = some m) :
    ∃ n r, lim = some n ∧ (pageRows rows c after lim).length = n
      ∧ ((rows.filter (selects c after)).take n).getLast? = some r ∧ m = keyMap r := by
  cases lim with
  | none => simp [pageOutput] at hl
  | some n =>
    simp only [pageOutput] at hl
    split at hl
    · rename_i hlen
      simp only [Option.map_eq_some'] at hl
      obtain ⟨r, hr, hm⟩ := hl
      exact ⟨n, r, rfl, hlen, hr, hm.symm⟩
    · cases hl

theorem next_iterAt (params : Params) (pk : List Byte) (start : Bytes) (out : QueryOutput)
    (i : Int) (ent : Option KV.Entry) (pages : Nat) (t : Table) :
    (iterAt params pk start out i ent).Next pages t
      = (iterAt params pk start out i ent).nextLoop pages t := by
  simp [EntriesIterator.Next, iterAt]

/-- One `Next` on an iterator over a well-formed table: it returns false when no selected
row remains, and otherwise yields the first remaining row and stands before the rest.
The unread items of the page it started on, followed by the pages served during the call,
are the item yielded followed by the unread items of the page it ends on. -/
theorem next_step (params : Params) (pk : List Byte) (start : Bytes) (rows : List Row)
    (cap : Nat) (hs : rows.Pairwise (fun a b => rowLt a b = true))
    (hk : ∀ r ∈ rows, keyOf r.item = some (r.pk, r.sk))
    (hp : pk ≠ []) (hlim : 0 ≤ params.ScanLimit)
    (after : Option (List Byte)) (i : Nat) (ent : Option KV.Entry) (calls : List Call)
    (pages : Nat)
    (hi : i ≤ (pageRows rows { pk := pk, lo := lowerBound start } after
                (limitOf params.ScanLimit cap)).length) :
    ((rows.filter (selects { pk := pk, lo := lowerBound start } after)).drop i = [] →
      ∃ after1 i1 added, (∀ x ∈ added, Call.isScanQuery pk (lowerBound start) x = true) ∧
        (iterAt params pk start (pageOutput rows { pk := pk, lo := lowerBound start } after
            (limitOf params.ScanLimit cap)) i ent).Next (pages + 1)
            { rows := rows, pageCap := cap, calls := calls }
          = .ret (false,
              iterAt params pk start (pageOutput rows { pk := pk, lo := lowerBound start }
                after1 (limitOf params.ScanLimit cap)) (i1 : Nat) ent,
              { rows := rows, pageCap := cap, calls := added ++ calls })
        ∧ ((pageRows rows { pk := pk, lo := lowerBound start } after
              (limitOf params.ScanLimit cap)).drop i).map (fun r => r.item)
            ++ added.reverse.flatMap (served rows cap) = []) ∧
    (∀ r rest,
      (rows.filter (selects { pk := pk, lo := lowerBound start } after)).drop i = r :: rest →
      ∃ after1 i1 added, (∀ x ∈ added, Call.isScanQuery pk (lowerBound start) x = true) ∧
        (iterAt params pk start (pageOutput rows { pk := pk, lo := lowerBound start } after
            (limitOf params.ScanLimit cap)) i ent).Next (pages + 1)
            { rows := rows, pageCap := cap, calls := calls }
          = .ret (true,
              iterAt params pk start (pageOutput rows { pk := pk, lo := lowerBound start }
                after1 (limitOf params.ScanLimit cap)) (i1 : Nat) (some (entryOf r)),
              { rows := rows, pageCap := cap, calls := added ++ calls })
        ∧ i1 ≤ (pageRows rows { pk := pk, lo := lowerBound start } after1
                  (limitOf params.ScanLimit cap)).length
        ∧ (rows.filter (selects { pk := pk, lo := lowerBound start } after1)).drop i1
            = rest
        ∧ ((pageRows rows { pk := pk, lo := lowerBound start } after
              (limitOf params.ScanLimit cap)).drop i).map (fun r => r.item)
            ++ added.reverse.flatMap (served rows cap)
            = r.item :: ((pageRows rows { pk := pk, lo := lowerBound start } after1
                (limitOf params.ScanLimit cap)).drop i1).map (fun r => r.item)) := by
  have hpos : ∀ n, limitOf params.ScanLimit cap = some n → 1 ≤ n :=
    fun n hn => limitOf_pos params.ScanLimit cap n hlim hn
  rw [next_iterAt]
  rcases Nat.lt_or_ge i (pageRows rows { pk := pk, lo := lowerBound start } after
      (limitOf params.ScanLimit cap)).length with hlt | hge
  · -- inside the page
    obtain ⟨r0, hr0⟩ : ∃ r0, (pageRows rows { pk := pk, lo := lowerBound start } after
        (limitOf params.ScanLimit cap)).get? i = some r0 :=
      ⟨_, List.get?_eq_get hlt⟩
    have hdrop := pageRows_get _ _ _ _ _ _ hr0
    have hpdrop := drop_of_get? _ _ _ hr0
    have hy := nextLoop_yield params pk start rows { pk := pk, lo := lowerBound start } after
      (limitOf params.ScanLimit cap) i ent { rows := rows, pageCap := cap, calls := calls }
      (pages + 1) r0 hr0
    constructor
    · intro h
      rw [hdrop] at h
      cases h
    · intro r rest h
      rw [hdrop] at h
      injection h with h1 h2
      subst h1
      exact ⟨after, i + 1, [], by simp, hy, hlt, h2, by simp [hpdrop]⟩
  · -- at the end of the page
    have hieq : i = (pageRows rows { pk := pk, lo := lowerBound start } after
        (limitOf params.ScanLimit cap)).length := le_antisymm hi hge
    have hpend : (pageRows rows { pk := pk, lo := lowerBound start } after
        (limitOf params.ScanLimit cap)).drop i = [] := by
      rw [hieq]
      exact List.drop_length _
    cases hlek : (pageOutput rows { pk := pk, lo := lowerBound start } after
        (limitOf params.ScanLimit cap)).LastEvaluatedKey with
    | none =>
      have hend := pageRows_last rows _ after _ hpos hlek
      rw [← hieq] at hend
      have hstop := nextLoop_stop params pk start rows { pk := pk, lo := lowerBound start }
        after (limitOf params.ScanLimit cap) i ent
        { rows := rows, pageCap := cap, calls := calls } (pages + 1) hieq hlek
      constructor
      · intro _
        exact ⟨after, i, [], by simp, hstop, by simp [hpend]⟩
      · intro r rest h
        rw [hend] at h
        cases h
    | some m =>
      obtain ⟨n, rl, hlimn, hlen, hlast, hm⟩ := pageRows_more rows _ after _ m hlek
      have hn : 1 ≤ n := hpos n hlimn
      have hrlsel : rl ∈ rows.filter (selects { pk := pk, lo := lowerBound start } after) :=
        List.mem_of_mem_take (List.mem_of_getLast?_eq_some hlast)
      have hrlrows : rl ∈ rows := (List.mem_filter.mp hrlsel).1
      have hrlpk : rl.pk = pk := by
        have := (List.mem_filter.mp hrlsel).2
        simp only [selects, Bool.and_eq_true, decide_eq_true_eq] at this
        exact this.1.1
      have hrlsk : rl.sk ≠ [] := by
        have := hk rl hrlrows
        unfold keyOf at this
        split at this
        · split at this
          · rename_i hne
            simp only [Option.some.injEq, Prod.mk.injEq] at this
            rw [← this.2]
            exact hne.2
          · cases this
        · cases this
      have hresume := selected_resume rows { pk := pk, lo := lowerBound start } after n rl hs hlast
      have hin : i = n := by rw [hieq, hlen]
      rw [hm] at hlek
      obtain ⟨call, hcall, hserved, hfetch⟩ := nextLoop_fetch params pk start after i ent
        { rows := rows, pageCap := cap, calls := calls } pages rl hp hlim hieq hlek hrlpk hrlsk
      rw [hfetch]
      simp only [Table.record]
      simp only [pageOutput] at hserved
      rw [← hin] at hresume
      cases hX : (rows.filter (selects { pk := pk, lo := lowerBound start } after)).drop i with
      | nil =>
        rw [hX] at hresume
        have hpage0 : (pageRows rows { pk := pk, lo := lowerBound start } (some rl.sk)
            (limitOf params.ScanLimit cap)).length = 0 := by
          have := pageRows_length_le rows { pk := pk, lo := lowerBound start } (some rl.sk)
            (limitOf params.ScanLimit cap)
          rw [hresume] at this
          simpa using this
        have hlek0 : (pageOutput rows { pk := pk, lo := lowerBound start } (some rl.sk)
            (limitOf params.ScanLimit cap)).LastEvaluatedKey = none := by
          rw [hlimn]
          simp only [pageOutput]
          rw [hlimn] at hpage0
          rw [hpage0]
          have : ¬ (0 = n) := by omega
          simp [this]
        have hstop := nextLoop_stop params pk start rows { pk := pk, lo := lowerBound start }
          (some rl.sk) (limitOf params.ScanLimit cap) 0 ent
          { rows := rows, pageCap := cap, calls := call :: calls } pages hpage0.symm hlek0
        constructor
        · intro _
          refine ⟨some rl.sk, 0, [call], by simpa using hcall, hstop, ?_⟩
          rw [List.length_eq_zero] at hpage0
          simp [hpend, hserved, hpage0]
        · intro r rest h
          cases h
      | cons r0 rest0 =>
        rw [hX] at hresume
        have hget : (pageRows rows { pk := pk, lo := lowerBound start } (some rl.sk)
            (limitOf params.ScanLimit cap)).get? 0 = some r0 := by
          rw [hlimn]
          simp only [pageRows, hresume]
          obtain ⟨n', rfl⟩ : ∃ n', n = n' + 1 := ⟨n - 1, by omega⟩
          rfl
        have hpdrop := drop_of_get? _ _ _ hget
        have hy := nextLoop_yield params pk start rows { pk := pk, lo := lowerBound start }
          (some rl.sk) (limitOf params.ScanLimit cap) 0 ent
          { rows := rows, pageCap := cap, calls := call :: calls } pages r0 hget
        constructor
        · intro h
          cases h
        · intro r rest h
          injection h with h1 h2
          subst h1 h2
          refine ⟨some rl.sk, 0 + 1, [call], by simpa using hcall, hy, ?_, ?_, ?_⟩
          · rcases List.get?_eq_some.mp hget with ⟨hl0, _⟩
            omega
          · rw [hresume]
            rfl
          · have h3 := congrArg (List.map (fun r => r.item)) hpdrop
            simp only [List.drop_zero, List.map_cons] at h3
            simp only [hpend, List.map_nil, List.nil_append, List.reverse_cons,
              List.reverse_nil, List.flatMap_cons, List.flatMap_nil, List.append_nil, hserved]
            exact h3

/-- Draining an iterator over a well-formed table yields the remaining selected rows, in
storage order, and ends without an error.  Every call it makes is a query of the same
partition and lower bound, and what it yields is the unread part of its page followed by
the pages served to it, in the order served. -/
theorem drain_yields (params : Params) (pk : List Byte) (start : Bytes) (rows : List Row)
    (cap : Nat) (hs : rows.Pairwise (fun a b => rowLt a b = true))
    (hk : ∀ r ∈ rows, keyOf r.item = some (r.pk, r.sk))
    (hp : pk ≠ []) (hlim : 0 ≤ params.ScanLimit) (pages : Nat) :
    ∀ (remaining : List Row) (after : Option (List Byte)) (i : Nat) (ent : Option KV.Entry)
      (calls : List Call) (steps : Nat),
      i ≤ (pageRows rows { pk := pk, lo := lowerBound start } after
            (limitOf params.ScanLimit cap)).length →
      (rows.filter (selects { pk := pk, lo := lowerBound start } after)).drop i = remaining →
      remaining.length + 1 ≤ steps →
      ∃ e1 added, (∀ x ∈ added, Call.isScanQuery pk (lowerBound start) x = true) ∧
        e1.Err = none ∧
        (iterAt params pk start (pageOutput rows { pk := pk, lo := lowerBound start } after
            (limitOf params.ScanLimit cap)) i ent).drain (pages + 1) steps
            { rows := rows, pageCap := cap, calls := calls }
          = .ret (remaining.map (fun r => some (entryOf r)), e1,
              { rows := rows, pageCap := cap, calls := added ++ calls })
        ∧ ((pageRows rows { pk := pk, lo := lowerBound start } after
              (limitOf params.ScanLimit cap)).drop i).map (fun r => r.item)
            ++ added.reverse.flatMap (served rows cap)
            = remaining.map (fun r => r.item) := by
  intro remaining
  induction remaining with
  | nil =>
    intro after i ent calls steps hi hrem hsteps
    obtain ⟨after1, i1, added, hadded, hnext, hpg⟩ :=
      (next_step params pk start rows cap hs hk hp hlim after i ent calls pages hi).1 hrem
    obtain ⟨steps1, rfl⟩ : ∃ s1, steps = s1 + 1 := ⟨steps - 1, by omega⟩
    refine ⟨iterAt params pk start (pageOutput rows { pk := pk, lo := lowerBound start }
      after1 (limitOf params.ScanLimit cap)) (i1 : Nat) ent, added, hadded, rfl, ?_, ?_⟩
    · simp only [EntriesIterator.drain, hnext, List.map_nil]
    · simpa using hpg
  | cons r rest ih =>
    intro after i ent calls steps hi hrem hsteps
    obtain ⟨after1, i1, added, hadded, hnext, hi1, hrest, hpg⟩ :=
      (next_step params pk start rows cap hs hk hp hlim after i ent calls pages hi).2 r rest hrem
    obtain ⟨steps1, rfl⟩ : ∃ s1, steps = s1 + 1 := ⟨steps - 1, by omega⟩
    have hsteps1 : rest.length + 1 ≤ steps1 := by
      simp only [List.length_cons] at hsteps
      omega
    obtain ⟨e2, added2, hadded2, herr2, hdrain, hpg2⟩ :=
      ih after1 i1 (some (entryOf r)) (added ++ calls) steps1 hi1 hrest hsteps1
    refine ⟨e2, added2 ++ added, ?_, herr2, ?_, ?_⟩
    · intro x hx
      rcases List.mem_append.mp hx with h | h
      · exact hadded2 x h
      · exact hadded x h
    · simp only [EntriesIterator.drain, hnext, hdrain]
      simp [EntriesIterator.Entry, iterAt]
    · rw [List.reverse_append, List.flatMap_append, ← List.append_assoc, hpg, List.cons_append,
        hpg2, List.map_cons]

/-- The rows a scan selects, spelled out: the partition's rows whose sort key is not below
the content of `start`. -/
theorem selects_scan (pk : List Byte) (start : Bytes) (r : Row) :
    selects { pk := pk, lo := lowerBound start } none r
      = (decide (r.pk = pk) && !bytesLt r.sk (content start)) := by
  have hnil : ∀ l : List Byte, bytesLt l [] = false := by
    intro l
    cases l <;> rfl
  rcases start with _ | _ | ⟨x, xs⟩
  · simp [selects, lowerBound, content, hnil]
  · simp [selects, lowerBound, content, hnil]
  · simp [selects, lowerBound, content]

/-- `Scan` followed by draining, on a well-formed table. -/
theorem scan_drain (params : Params) (t : Table) (pk : List Byte) (start : Bytes)
    (hwf : t.WF) (hp : pk ≠ []) (hlim : 0 ≤ params.ScanLimit) (pages steps : Nat)
    (hpages : 1 ≤ pages)
    (hsteps : (t.rows.filter
        (fun r => decide (r.pk = pk) && !bytesLt r.sk (content start))).length + 1 ≤ steps) :
    ∃ it t1 it2 added,
      (store params).Scan (some pk) start t = ((some it, none), t1)
      ∧ it.drain pages steps t1
          = .ret ((t.rows.filter
                (fun r => decide (r.pk = pk) && !bytesLt r.sk (content start))).map
                  (fun r => some (entryOf r)), it2,
              { rows := t.rows, pageCap := t.pageCap, calls := added ++ t.calls })
      ∧ it2.Err = none
      ∧ added ≠ []
      ∧ (∀ x ∈ added, Call.isScanQuery pk (lowerBound start) x = true)
      ∧ (added.reverse.flatMap (served t.rows t.pageCap)).map decoded
          = (t.rows.filter
                (fun r => decide (r.pk = pk) && !bytesLt r.sk (content start))).map
                  (fun r => some (entryOf r)) := by
  obtain ⟨rows, cap, calls⟩ := t
  obtain ⟨hs, hk⟩ := hwf
  simp only at hs hk hsteps ⊢
  obtain ⟨c, hc, hserved, hscan⟩ := scanInternal_page params
    { rows := rows, pageCap := cap, calls := calls } pk start none none hp hlim rfl
  obtain ⟨pages1, rfl⟩ : ∃ p1, pages = p1 + 1 := ⟨pages - 1, by omega⟩
  have hfilter : rows.filter (selects { pk := pk, lo := lowerBound start } none)
      = rows.filter (fun r => decide (r.pk = pk) && !bytesLt r.sk (content start)) :=
    List.filter_congr (fun r _ => selects_scan pk start r)
  obtain ⟨e1, added, hadded, herr, hdrain, hpg⟩ := drain_yields params pk start rows cap hs hk
    hp hlim pages1
    (rows.filter (selects { pk := pk, lo := lowerBound start } none)) none 0 none (c :: calls)
    steps (Nat.zero_le _) rfl (by rw [hfilter]; exact hsteps)
  rw [hfilter] at hdrain hpg
  refine ⟨iterAt params pk start (pageOutput rows { pk := pk, lo := lowerBound start } none
      (limitOf params.ScanLimit cap)) (0 : Nat) none,
    { rows := rows, pageCap := cap, calls := c :: calls }, e1, added ++ [c], ?_, ?_, herr,
    by simp, ?_, ?_⟩
  · simp only [Store.Scan, hscan]
    rfl
  · simpa using hdrain
  · intro x hx
    rcases List.mem_append.mp hx with h | h
    · exact hadded x h
    · simp only [List.mem_singleton] at h
      rw [h]
      exact hc
  · simp only [pageOutput] at hserved
    rw [List.reverse_append, List.flatMap_append]
    simp only [List.reverse_cons, List.reverse_nil, List.nil_append, List.flatMap_cons,
      List.flatMap_nil, List.append_nil, hserved]
    rw [List.drop_zero] at hpg
    rw [hpg, List.map_map]
    rfl

/-! ## Well-formedness is kept by the driver -/

theorem mem_insertRow (r y : Row) (rows : List Row) :
    y ∈ insertRow r rows ↔ y = r ∨ y ∈ rows := by
  induction rows with
  | nil => simp [insertRow]
  | cons x xs ih =>
    unfold insertRow
    split
    · simp
    · simp only [List.mem_cons, ih]
      tauto

theorem insertRow_sorted (r : Row) (rows : List Row)
    (hs : rows.Pairwise (fun a b => rowLt a b = true))
    (hfresh : ∀ x ∈ rows, Row.hasKey r.pk r.sk x = false) :
    (insertRow r rows).Pairwise (fun a b => rowLt a b = true) := by
  induction rows with
  | nil => simp [insertRow]
  | cons x xs ih =>
    rw [List.pairwise_cons] at hs
    unfold insertRow
    split
    · rename_i hlt
      rw [List.pairwise_cons]
      refine ⟨?_, List.pairwise_cons.mpr hs⟩
      intro y hy
      rcases List.mem_cons.mp hy with h | h
      · rw [h]; exact hlt
      · exact rowLt_trans _ _ _ hlt (hs.1 y h)
    · rename_i hnlt
      rw [List.pairwise_cons]
      refine ⟨?_, ih hs.2 (fun y hy => hfresh y (List.mem_cons_of_mem _ hy))⟩
      intro y hy
      rcases (mem_insertRow r y xs).mp hy with h | h
      · rw [h]
        by_contra hxr
        have hkey := rowLt_connected r x (by simpa using hnlt) (by simpa using hxr)
        have := hfresh x (List.mem_cons_self _ _)
        simp [Row.hasKey, hkey.1, hkey.2] at this
      · exact hs.1 y h

/-- The entry of a row filed under its item's key carries the sort key. -/
theorem entryOf_key (r : Row) (h : keyOf r.item = some (r.pk, r.sk)) :
    (entryOf r).Key = some r.sk := by
  unfold keyOf at h
  split at h
  · rename_i p k _ hik
    split at h
    · rename_i hne
      simp only [Option.some.injEq, Prod.mk.injEq] at h
      rw [← h.2]
      simp only [entryOf, hik, decodeBytes_of_ne k false hne.2]
    · cases h
  · cases h

/-- The empty table is well formed. -/
theorem wf_empty (cap : Nat) (calls : List Call) :
    Table.WF { rows := [], pageCap := cap, calls := calls } := by
  simp [Table.WF]

theorem wf_record (t : Table) (c : Call) (h : t.WF) : (t.record c).WF := h

/-- Writing an item with non-empty keys keeps the table well formed. -/
theorem wf_write (t : Table) (pk sk : List Byte) (v : Bytes) (hp : pk ≠ []) (hk : sk ≠ [])
    (h : t.WF) : (t.write pk sk v).WF := by
  obtain ⟨hs, hkeys⟩ := h
  constructor
  · apply insertRow_sorted
    · exact List.Pairwise.filter _ hs
    · intro x hx
      have := (List.mem_filter.mp hx).2
      simpa using this
  · intro y hy
    rcases (mem_insertRow _ y _).mp hy with h1 | h1
    · rw [h1]
      exact keyOf_encoded pk sk v hp hk
    · exact hkeys y (List.mem_filter.mp h1).1

/-- Removing a key keeps the table well formed. -/
theorem wf_remove (t : Table) (pk sk : List Byte) (h : t.WF) : (t.remove pk sk).WF := by
  obtain ⟨hs, hkeys⟩ := h
  exact ⟨List.Pairwise.filter _ hs, fun y hy => hkeys y (List.mem_filter.mp hy).1⟩

/-- The writes of the driver keep the table well formed. -/
theorem wf_preserved (params : Params) (t : Table) (pk sk val : List Byte) (pred : Predicate)
    (hp : pk ≠ []) (hk : sk ≠ []) (h : t.WF) :
    (∀ e t1, (store params).Set (some pk) (some sk) (some val) t = .ret (e, t1) → t1.WF) ∧
    (∀ e t1, (store params).SetIf (some pk) (some sk) (some val) pred t = .ret (e, t1) →
      t1.WF) ∧
    ((store params).Delete (some pk) (some sk) t).2.WF := by
  refine ⟨?_, ?_, ?_⟩
  · intro e t1 h1
    obtain ⟨c, hc⟩ := set_writes params t pk sk val hp hk
    rw [hc] at h1
    injection h1 with h1
    rw [← (Prod.mk.inj h1).2]
    exact wf_write _ pk sk _ hp hk (wf_record t c h)
  · intro e t1 h1
    cases pred with
    | nil =>
      obtain ⟨c, hc⟩ := setIf_nil params t pk sk val hp hk
      rw [hc] at h1
      split at h1
      · injection h1 with h1
        rw [← (Prod.mk.inj h1).2]
        exact wf_write _ pk sk _ hp hk (wf_record t c h)
      · injection h1 with h1
        rw [← (Prod.mk.inj h1).2]
        exact wf_record t c h
    | bytes b =>
      obtain ⟨c, hc⟩ := setIf_bytes params t pk sk val b hp hk
      rw [hc] at h1
      split at h1
      · injection h1 with h1
        rw [← (Prod.mk.inj h1).2]
        exact wf_record t c h
      · split at h1
        · injection h1 with h1
          rw [← (Prod.mk.inj h1).2]
          exact wf_write _ pk sk _ hp hk (wf_record t c h)
        · injection h1 with h1
          rw [← (Prod.mk.inj h1).2]
          exact wf_record t c h
    | other =>
      have hp1 : pk.length ≠ 0 := by simpa using hp
      have hk1 : sk.length ≠ 0 := by simpa using hk
      simp [Store.SetIf, Store.setWithOptionalPredicate, Bytes.len, hp1, hk1, store,
        sdk, marshalMap] at h1
  · obtain ⟨c, hc⟩ := delete_removes params t pk sk hp hk
    rw [hc]
    exact wf_remove _ pk sk (wf_record t c h)

end LakeFS.Dynamodb.Mem

namespace LakeFS.Dynamodb
open LakeFS LakeFS.KV LakeFS.Dynamodb LakeFS.Dynamodb.Mem

/-! ## Scans -/

/-- C7: `Scan` is pagination-independent.  On a well-formed table, for a non-empty
partition key, any start key and any `ScanLimit` that is 0 (unlimited) or positive, and
whatever bound the service itself puts on a page: `Scan` returns an iterator, and calling
`Next` until it returns false (at least one page fetch allowed per call, and one call more
than there are entries to yield) yields the selected entries, each once, in storage order,
which is strictly ascending in the key; iteration ends without an error.  The sequence
yielded is the concatenation, in the order served, of the pages the service returned to
the requests of the scan, decoded; it does not depend on `ScanLimit` or on the page bound.
With a nil start key it is the sequence of all entries of the partition. -/
theorem C7_scan_pagination_independent (params : Params) (t : Mem.Table) (pk : List Byte)
    (start : Bytes) (hwf : t.WF) (hp : pk ≠ []) (hlim : 0 ≤ params.ScanLimit)
    (pages steps : Nat) (hpages : 1 ≤ pages)
    (hsteps : (t.rows.filter
        (fun r => decide (r.pk = pk) && !Mem.bytesLt r.sk (Mem.content start))).length + 1
          ≤ steps) :
    (∃ it t1 it2 added,
      (Mem.store params).Scan (some pk) start t = ((some it, none), t1)
      ∧ it.drain pages steps t1
          = .ret ((t.rows.filter
                (fun r => decide (r.pk = pk) && !Mem.bytesLt r.sk (Mem.content start))).map
                  (fun r => some (Mem.entryOf r)), it2,
              { rows := t.rows, pageCap := t.pageCap, calls := added ++ t.calls })
      ∧ it2.Err = none
      ∧ (added.reverse.flatMap (Mem.served t.rows t.pageCap)).map Mem.decoded
          = (t.rows.filter
                (fun r => decide (r.pk = pk) && !Mem.bytesLt r.sk (Mem.content start))).map
                  (fun r => some (Mem.entryOf r))) ∧
    ((t.rows.filter
        (fun r => decide (r.pk = pk) && !Mem.bytesLt r.sk (Mem.content start))).map
          (fun r => some (Mem.entryOf r))).Pairwise (fun a b => Mem.keyBelow a b = true) ∧
    (start = none →
      t.rows.filter (fun r => decide (r.pk = pk) && !Mem.bytesLt r.sk (Mem.content start))
        = t.rows.filter (fun r => decide (r.pk = pk))) := by
  refine ⟨?_, ?_, ?_⟩
  · obtain ⟨it, t1, it2, added, h1, h2, h3, _, _, h6⟩ :=
      Mem.scan_drain params t pk start hwf hp hlim pages steps hpages hsteps
    exact ⟨it, t1, it2, added, h1, h2, h3, h6⟩
  · rw [List.pairwise_map]
    have hsorted := Mem.selected_sorted t.rows { pk := pk, lo := Mem.lowerBound start } none
      hwf.1
    rw [List.filter_congr (fun r _ => Mem.selects_scan pk start r)] at hsorted
    refine List.Pairwise.imp_of_mem ?_ hsorted
    intro a b ha hb hab
    have hka := hwf.2 a (List.mem_filter.mp ha).1
    have hkb := hwf.2 b (List.mem_filter.mp hb).1
    simp only [Mem.keyBelow, Mem.entryOf_key a hka, Mem.entryOf_key b hkb]
    exact hab
  · intro h
    subst h
    apply List.filter_congr
    intro r _
    cases hr : r.sk <;> simp [Mem.content, Mem.bytesLt]

/-- C7 at the sample table: partition `[1]` scanned from the beginning in pages of two. -/
theorem C7_scan_pagination_independent_witness :
    ∃ it t1 it2 added,
      (Mem.store Mem.sampleParams).Scan (some [1]) none Mem.sampleTable = ((some it, none), t1)
      ∧ it.drain 1 4 t1
          = .ret ((Mem.sampleTable.rows.filter
                (fun r => decide (r.pk = [1]) && !Mem.bytesLt r.sk (Mem.content none))).map
                  (fun r => some (Mem.entryOf r)), it2,
              { rows := Mem.sampleTable.rows, pageCap := Mem.sampleTable.pageCap,
                calls := added ++ Mem.sampleTable.calls })
      ∧ it2.Err = none
      ∧ (added.reverse.flatMap
            (Mem.served Mem.sampleTable.rows Mem.sampleTable.pageCap)).map Mem.decoded
          = (Mem.sampleTable.rows.filter
                (fun r => decide (r.pk = [1]) && !Mem.bytesLt r.sk (Mem.content none))).map
                  (fun r => some (Mem.entryOf r)) :=
  (C7_scan_pagination_independent Mem.sampleParams Mem.sampleTable [1] none
    (by decide) (by decide) (by decide) 1 4 (by decide) (by decide)).1

/-- C8: `Scan(p, start)` yields exactly the stored entries of partition `p` whose key is
bytewise not below `start`.  On a well-formed table, for a non-empty partition key and any
`ScanLimit` that is 0 or positive: the entries yielded until `Next` returns false are those
of the rows of partition `p` whose sort key is not below the content of `start`, in storage
order; a row whose key equals `start` is among them, a row of another partition is not, and
with an empty (or nil) `start` they are all rows of the partition.  Every request the scan
sends, the first and each page fetch after it, is a query of partition `p` with the lower
bound `start` (no lower bound when `start` is empty), and the table rows are unchanged. -/
theorem C8_scan_from_start (params : Params) (t : Mem.Table) (pk : List Byte)
    (start : Bytes) (hwf : t.WF) (hp : pk ≠ []) (hlim : 0 ≤ params.ScanLimit)
    (pages steps : Nat) (hpages : 1 ≤ pages)
    (hsteps : (t.rows.filter
        (fun r => decide (r.pk = pk) && !Mem.bytesLt r.sk (Mem.content start))).length + 1
          ≤ steps) :
    (∃ it t1 it2 added,
      (Mem.store params).Scan (some pk) start t = ((some it, none), t1)
      ∧ it.drain pages steps t1
          = .ret ((t.rows.filter
                (fun r => decide (r.pk = pk) && !Mem.bytesLt r.sk (Mem.content start))).map
                  (fun r => some (Mem.entryOf r)), it2,
              { rows := t.rows, pageCap := t.pageCap, calls := added ++ t.calls })
      ∧ added ≠ []
      ∧ ∀ x ∈ added, Mem.Call.isScanQuery pk (Mem.lowerBound start) x = true) ∧
    (∀ r, r ∈ t.rows.filter
            (fun r => decide (r.pk = pk) && !Mem.bytesLt r.sk (Mem.content start))
        ↔ r ∈ t.rows ∧ r.pk = pk ∧ Mem.bytesLt r.sk (Mem.content start) = false) ∧
    (∀ r ∈ t.rows, r.pk = pk → r.sk = Mem.content start →
      r ∈ t.rows.filter
            (fun r => decide (r.pk = pk) && !Mem.bytesLt r.sk (Mem.content start))) ∧
    (Mem.content start = [] →
      Mem.lowerBound start = none ∧
      t.rows.filter (fun r => decide (r.pk = pk) && !Mem.bytesLt r.sk (Mem.content start))
        = t.rows.filter (fun r => decide (r.pk = pk))) ∧
    (Mem.content start ≠ [] → Mem.lowerBound start = some (Mem.content start)) := by
  refine ⟨?_, ?_, ?_, ?_, ?_⟩
  · obtain ⟨it, t1, it2, added, h1, h2, _, h4, h5, _⟩ :=
      Mem.scan_drain params t pk start hwf hp hlim pages steps hpages hsteps
    exact ⟨it, t1, it2, added, h1, h2, h4, h5⟩
  · intro r
    simp [List.mem_filter, and_assoc]
  · intro r hr hpk hsk
    rw [List.mem_filter]
    refine ⟨hr, ?_⟩
    rw [← hsk, Mem.bytesLt_irrefl]
    simp [hpk]
  · intro h
    constructor
    · rcases start with _ | _ | ⟨x, xs⟩
      · rfl
      · rfl
      · simp [Mem.content] at h
    · apply List.filter_congr
      intro r _
      rw [h]
      cases hr : r.sk <;> simp [Mem.bytesLt]
  · intro h
    rcases start with _ | _ | ⟨x, xs⟩
    · simp [Mem.content] at h
    · simp [Mem.content] at h
    · rfl

/-- C8 at the sample table: partition `[1]` scanned from key `[2, 0]` in pages of two. -/
theorem C8_scan_from_start_witness :
    ∃ it t1 it2 added,
      (Mem.store Mem.sampleParams).Scan (some [1]) (some [2, 0]) Mem.sampleTable
        = ((some it, none), t1)
      ∧ it.drain 1 3 t1
          = .ret ((Mem.sampleTable.rows.filter
                (fun r => decide (r.pk = [1]) && !Mem.bytesLt r.sk (Mem.content (some [2, 0])))).map
                  (fun r => some (Mem.entryOf r)), it2,
              { rows := Mem.sampleTable.rows, pageCap := Mem.sampleTable.pageCap,
                calls := added ++ Mem.sampleTable.calls })
      ∧ added ≠ []
      ∧ ∀ x ∈ added, Mem.Call.isScanQuery [1] (Mem.lowerBound (some [2, 0])) x = true :=
  (C8_scan_from_start Mem.sampleParams Mem.sampleTable [1] (some [2, 0])
    (by decide) (by decide) (by decide) 1 3 (by decide) (by decide)).1

end LakeFS.Dynamodb

namespace LakeFS.Dynamodb
open LakeFS LakeFS.KV LakeFS.Dynamodb

/-! ## The requests the driver sends -/

/-- What `setWithOptionalPredicate` does once its arguments are valid and the item is
marshaled, in terms of the request it sends. -/
theorem setWithOptionalPredicate_sends {σ : Type} (s : Store σ) (p k v : Bytes)
    (pred : Predicate) (use : Bool) (db : σ) (m : AttrMap)
    (hp : p.len ≠ 0) (hk : k.len ≠ 0) (hv : v ≠ none)
    (hm : s.svc.MarshalMap { PartitionKey := p, ItemKey := k, ItemValue := v } = .ok m) :
    s.setWithOptionalPredicate p k v pred use db
      = match s.putItemInput m pred use with
        | none => .panic
        | some input =>
          match s.svc.PutItemWithContext input db with
          | (some err, db1) =>
            if err = .ConditionalCheckFailedException ∧ use = true then
              .ret (some (.sentinel .ErrPredicateFailed), db1)
            else
              .ret (some (.errorf "put item: %s (key=%v): %w" (.sentinel .ErrOperationFailed)),
                db1)
          | (none, db1) => .ret (none, db1) := by
  simp only [Store.setWithOptionalPredicate, hp, hk, hv, if_false, hm, Store.putItemInput]

/-- What `scanInternal` does for a non-empty partition key, in terms of the request it
sends. -/
theorem scanInternal_sends {σ : Type} (s : Store σ) (p scanKey : Bytes)
    (esk : Option AttrMap) (db : σ) (hp : p.len ≠ 0) :
    s.scanInternal p scanKey esk db
      = match s.svc.QueryWithContext (s.queryInput p scanKey esk) db with
        | (.error _, db1) =>
          ((none, some (.errorf "query: %s (start=%v): %w " (.sentinel .ErrOperationFailed))),
            db1)
        | (.ok queryOutput, db1) =>
          ((some { entry := none, err := none, store := s, partKey := p,
                   startKey := scanKey, queryResult := queryOutput, currEntryIdx := 0 }, none),
            db1) := by
  simp only [Store.scanInternal, hp, if_false, Store.queryInput]
  by_cases h0 : s.params.ScanLimit = 0 <;> simp [h0]

end LakeFS.Dynamodb

namespace LakeFS.Dynamodb
open LakeFS LakeFS.KV LakeFS.Dynamodb

/-! ## Failures of the backend -/

/-- C11: backend failures surface as `ErrOperationFailed`.  Over any backend, with valid
arguments: when the `GetItem` call of `Get` fails, `Get` returns an error wrapping
`ErrOperationFailed`; when the `PutItem` call of `Set` fails, with whatever error, so does
`Set`; when the `PutItem` call of `SetIf` fails with an error other than a conditional-check
failure, so does `SetIf`; when the `DeleteItem` call of `Delete` fails, so does `Delete`;
when the query of `Scan` fails, `Scan` returns no iterator and such an error; and when an
iterator without error stands at the end of a page that has a continuation key and the
query for the next page fails, `Next` returns false and `Err` wraps `ErrOperationFailed`. -/
theorem C11_backend_failure_is_operation_failed {σ : Type} (s : Store σ) (p k v : Bytes)
    (pred : Predicate) (db : σ) (hp : p.len ≠ 0) (hk : k.len ≠ 0) :
    (∀ err db1,
      s.svc.GetItemWithContext
          { TableName := s.params.TableName, Key := s.bytesKeyToDynamoKey p k,
            ConsistentRead := true } db = (.error err, db1) →
      ∃ e, s.Get p k db = ((none, some e), db1) ∧ e.Is .ErrOperationFailed = true) ∧
    (∀ m input err db1, v ≠ none →
      s.svc.MarshalMap { PartitionKey := p, ItemKey := k, ItemValue := v } = .ok m →
      s.putItemInput m .nil false = some input →
      s.svc.PutItemWithContext input db = (some err, db1) →
      ∃ e, s.Set p k v db = .ret (some e, db1) ∧ e.Is .ErrOperationFailed = true) ∧
    (∀ m input err db1, v ≠ none →
      s.svc.MarshalMap { PartitionKey := p, ItemKey := k, ItemValue := v } = .ok m →
      s.putItemInput m pred true = some input →
      s.svc.PutItemWithContext input db = (some err, db1) →
      err ≠ .ConditionalCheckFailedException →
      ∃ e, s.SetIf p k v pred db = .ret (some e, db1) ∧ e.Is .ErrOperationFailed = true) ∧
    (∀ err db1,
      s.svc.DeleteItemWithContext
          { TableName := s.params.TableName, Key := s.bytesKeyToDynamoKey p k } db
        = (some err, db1) →
      ∃ e, s.Delete p k db = (some e, db1) ∧ e.Is .ErrOperationFailed = true) ∧
    (∀ start err db1,
      s.svc.QueryWithContext (s.queryInput p start none) db = (.error err, db1) →
      ∃ e, s.Scan p start db = ((none, some e), db1) ∧ e.Is .ErrOperationFailed = true) ∧
    (∀ (it : EntriesIterator σ) lastEvaluatedKey err db1 pages,
      it.err = none → it.partKey.len ≠ 0 →
      it.currEntryIdx = it.queryResult.Count →
      it.queryResult.LastEvaluatedKey = some lastEvaluatedKey →
      it.store.svc.QueryWithContext
          (it.store.queryInput it.partKey it.startKey (some lastEvaluatedKey)) db
        = (.error err, db1) →
      ∃ it1 e, it.Next (pages + 1) db = .ret (false, it1, db1)
        ∧ it1.Err = some e ∧ e.Is .ErrOperationFailed = true
        ∧ it1.Entry = it.Entry) := by
  refine ⟨?_, ?_, ?_, ?_, ?_, ?_⟩
  · intro err db1 h
    exact ⟨.errorf "get item: %s (key=%v): %w" (.sentinel .ErrOperationFailed),
      by simp [Store.Get, hp, hk, h], rfl⟩
  · intro m input err db1 hv hm hin hput
    refine ⟨.errorf "put item: %s (key=%v): %w" (.sentinel .ErrOperationFailed), ?_, rfl⟩
    rw [Store.Set, setWithOptionalPredicate_sends s p k v .nil false db m hp hk hv hm, hin]
    simp [hput]
  · intro m input err db1 hv hm hin hput hne
    refine ⟨.errorf "put item: %s (key=%v): %w" (.sentinel .ErrOperationFailed), ?_, rfl⟩
    rw [Store.SetIf, setWithOptionalPredicate_sends s p k v pred true db m hp hk hv hm, hin]
    simp [hput, hne]
  · intro err db1 h
    exact ⟨.errorf "delete item: %s (key=%v): %w" (.sentinel .ErrOperationFailed),
      by simp [Store.Delete, hp, hk, h], rfl⟩
  · intro start err db1 h
    refine ⟨.errorf "query: %s (start=%v): %w " (.sentinel .ErrOperationFailed), ?_, rfl⟩
    simp [Store.Scan, scanInternal_sends s p start none db hp, h]
  · intro it lek err db1 pages herr hpk hidx hlek hq
    refine ⟨{ it with err := some (.errorf "scan paging: %w"
        (.errorf "query: %s (start=%v): %w " (.sentinel .ErrOperationFailed))) },
      .errorf "scan paging: %w"
        (.errorf "query: %s (start=%v): %w " (.sentinel .ErrOperationFailed)), ?_, rfl, rfl, rfl⟩
    simp only [EntriesIterator.Next, herr, ne_eq, not_true_eq_false, if_false]
    unfold EntriesIterator.nextLoop
    simp only [hidx, if_true, hlek, scanInternal_sends it.store it.partKey it.startKey
      (some lek) db hpk, hq]

/-- C11 on the in-memory table: a query with a negative page limit is rejected by the
service, and `Scan` reports the failure as `ErrOperationFailed`. -/
theorem C11_backend_failure_is_operation_failed_witness :
    ∃ e, (Mem.store { TableName := "kvstore", ScanLimit := -1 }).Scan (some [1]) none
          Mem.sampleTable
        = ((none, some e), Mem.sampleTable.record
            (.query ((Mem.store { TableName := "kvstore", ScanLimit := -1 }).queryInput
              (some [1]) none none)))
      ∧ e.Is .ErrOperationFailed = true :=
  (C11_backend_failure_is_operation_failed
    (Mem.store { TableName := "kvstore", ScanLimit := -1 }) (some [1]) (some [2]) (some [3])
    .nil Mem.sampleTable (by decide) (by decide)).2.2.2.2.1 none Mem.validationException
    _ rfl

/-- C12: a closed iterator stays closed.  Over any backend: after `Close`, `Err` returns
`ErrClosedEntries`, and `Next` returns false, leaves the iterator as it is, its current
entry included, and leaves the service state as it is, so no page is fetched; the same
holds however often `Next` is called again.  More generally `Next` on an iterator whose
`Err` is non-nil returns false and changes neither the iterator nor the service state. -/
theorem C12_closed_iterator_stays_closed {σ : Type} (it : EntriesIterator σ) (db : σ)
    (pages : Nat) :
    it.Close.Err = some (.sentinel .ErrClosedEntries) ∧
    it.Close.Entry = it.Entry ∧
    it.Close.Next pages db = .ret (false, it.Close, db) ∧
    (∀ steps, it.Close.drain pages (steps + 1) db = .ret ([], it.Close, db)) ∧
    (it.Err ≠ none → it.Next pages db = .ret (false, it, db)) := by
  refine ⟨rfl, rfl, ?_, ?_, ?_⟩
  · simp [EntriesIterator.Next, EntriesIterator.Close]
  · intro steps
    simp [EntriesIterator.drain, EntriesIterator.Next, EntriesIterator.Close]
  · intro h
    simp only [EntriesIterator.Err] at h
    simp [EntriesIterator.Next, h]

/-- C12 on an iterator over the sample table that was closed. -/
theorem C12_closed_iterator_stays_closed_witness :
    (Mem.iterAt Mem.sampleParams [1] none
        (Mem.pageOutput Mem.sampleTable.rows { pk := [1], lo := none } none (some 2)) 0
        none).Close.Next 1 Mem.sampleTable
      = .ret (false,
          (Mem.iterAt Mem.sampleParams [1] none
            (Mem.pageOutput Mem.sampleTable.rows { pk := [1], lo := none } none (some 2)) 0
            none).Close, Mem.sampleTable) :=
  (C12_closed_iterator_stays_closed
    (Mem.iterAt Mem.sampleParams [1] none
      (Mem.pageOutput Mem.sampleTable.rows { pk := [1], lo := none } none (some 2)) 0
      none).Close Mem.sampleTable 1).2.2.2.2 (by simp [EntriesIterator.Err, EntriesIterator.Close])

end LakeFS.Dynamodb

namespace LakeFS.Dynamodb
open LakeFS LakeFS.KV LakeFS.Dynamodb

/-! ## No retry inside the driver -/

/-- Recording the requests does not change what `setWithOptionalPredicate` does, and the
call sends no request, or one `PutItem` request and nothing else. -/
theorem setWithOptionalPredicate_traced {σ : Type} (s : Store σ) (p k v : Bytes)
    (pred : Predicate) (use : Bool) (db : σ) (log : List Mem.Call) :
    untraced (s.traced.setWithOptionalPredicate p k v pred use (db, log))
        = s.setWithOptionalPredicate p k v pred use db ∧
    (∀ e db1 log1,
      s.traced.setWithOptionalPredicate p k v pred use (db, log) = .ret (e, db1, log1) →
      (log1 = log ∧ db1 = db ∧ e ≠ none) ∨
      ∃ i, log1 = .putItem i :: log
        ∧ db1 = (s.svc.PutItemWithContext i db).2
        ∧ ((s.svc.PutItemWithContext i db).1 = none → e = none)
        ∧ ((s.svc.PutItemWithContext i db).1 = some .ConditionalCheckFailedException →
            use = true → e = some (.sentinel .ErrPredicateFailed))) := by
  by_cases hp : p.len = 0
  · simp [Store.setWithOptionalPredicate, hp, untraced]
  by_cases hk : k.len = 0
  · simp [Store.setWithOptionalPredicate, hp, hk, untraced]
  by_cases hv : v = none
  · simp [Store.setWithOptionalPredicate, hp, hk, hv, untraced]
  cases hm : s.svc.MarshalMap { PartitionKey := p, ItemKey := k, ItemValue := v } with
  | error x =>
    simp [Store.setWithOptionalPredicate, hp, hk, hv, hm, untraced, Store.traced,
      SDK.traced]
  | ok m =>
    have hm2 : s.traced.svc.MarshalMap { PartitionKey := p, ItemKey := k, ItemValue := v }
        = .ok m := hm
    rw [setWithOptionalPredicate_sends s p k v pred use db m hp hk hv hm,
      setWithOptionalPredicate_sends s.traced p k v pred use (db, log) m hp hk hv hm2]
    have hin : s.traced.putItemInput m pred use = s.putItemInput m pred use := rfl
    rw [hin]
    cases hi : s.putItemInput m pred use with
    | none => simp [untraced]
    | some input =>
      have hput : s.traced.svc.PutItemWithContext input (db, log)
          = ((s.svc.PutItemWithContext input db).1,
              ((s.svc.PutItemWithContext input db).2, Mem.Call.putItem input :: log)) := rfl
      simp only [hput]
      rcases hr : s.svc.PutItemWithContext input db with ⟨r, db2⟩
      cases r with
      | none =>
        constructor
        · simp [untraced]
        · intro e db1 log1 h
          right
          refine ⟨input, ?_⟩
          simp only [Outcome.ret.injEq, Prod.mk.injEq] at h
          simp [hr, h.1.symm, h.2.1.symm, h.2.2.symm]
      | some err =>
        constructor
        · simp only
          split <;> simp [untraced]
        · intro e db1 log1 h
          right
          refine ⟨input, ?_⟩
          simp only at h
          split at h
          · rename_i hc
            simp only [Outcome.ret.injEq, Prod.mk.injEq] at h
            simp [hr, h.1.symm, h.2.1.symm, h.2.2.symm]
          · rename_i hc
            simp only [Outcome.ret.injEq, Prod.mk.injEq] at h
            simp only [hr, h.2.1.symm, h.2.2.symm, true_and, Option.some.injEq]
            refine ⟨by simp, ?_⟩
            intro h1 h2
            exact absurd ⟨h1, h2⟩ hc

/-- C13: CAS conflicts are never retried internally.  Over any backend whose requests are
recorded: recording does not change what `SetIf` and `Set` do; a call of `SetIf` or `Set`
that returns has sent nothing (a validation or marshaling error) or exactly one request,
a `PutItem`, so it never reads the key and never writes twice; and when that one `PutItem`
is answered with a conditional-check failure, `SetIf` returns `ErrPredicateFailed` with
the service in the state that this answer left. -/
theorem C13_no_internal_retry {σ : Type} (s : Store σ) (p k v : Bytes) (pred : Predicate)
    (db : σ) (log : List Mem.Call) :
    untraced (s.traced.SetIf p k v pred (db, log)) = s.SetIf p k v pred db ∧
    untraced (s.traced.Set p k v (db, log)) = s.Set p k v db ∧
    (∀ e db1 log1, s.traced.SetIf p k v pred (db, log) = .ret (e, db1, log1) →
      log1 = log ∨ ∃ i, log1 = .putItem i :: log) ∧
    (∀ e db1 log1, s.traced.Set p k v (db, log) = .ret (e, db1, log1) →
      log1 = log ∨ ∃ i, log1 = .putItem i :: log) ∧
    (∀ e db1 i, s.traced.SetIf p k v pred (db, log) = .ret (e, db1, .putItem i :: log) →
      (s.svc.PutItemWithContext i db).1 = some .ConditionalCheckFailedException →
      e = some (.sentinel .ErrPredicateFailed) ∧ db1 = (s.svc.PutItemWithContext i db).2) := by
  have h1 := setWithOptionalPredicate_traced s p k v pred true db log
  have h2 := setWithOptionalPredicate_traced s p k v .nil false db log
  refine ⟨h1.1, h2.1, ?_, ?_, ?_⟩
  · intro e db1 log1 h
    rcases h1.2 e db1 log1 h with h3 | ⟨i, h3, _⟩
    · exact Or.inl h3.1
    · exact Or.inr ⟨i, h3⟩
  · intro e db1 log1 h
    rcases h2.2 e db1 log1 h with h3 | ⟨i, h3, _⟩
    · exact Or.inl h3.1
    · exact Or.inr ⟨i, h3⟩
  · intro e db1 i h hccf
    rcases h1.2 e db1 _ h with h3 | ⟨j, h3, h4, _, h6⟩
    · exact absurd h3.1 (by simp)
    · simp only [List.cons.injEq, Mem.Call.putItem.injEq, and_true] at h3
      subst h3
      exact ⟨h6 hccf rfl, h4⟩

/-- C13 on the in-memory table: a `SetIf` whose predicate does not match sends one
`PutItem` and returns `ErrPredicateFailed`. -/
theorem C13_no_internal_retry_witness :
    ∀ e db1 log1,
      (Mem.store Mem.sampleParams).traced.SetIf (some [1]) (some [2]) (some [4])
          (.bytes (some [9])) (Mem.sampleTable, []) = .ret (e, db1, log1) →
      log1 = [] ∨ ∃ i, log1 = .putItem i :: [] :=
  (C13_no_internal_retry (Mem.store Mem.sampleParams) (some [1]) (some [2]) (some [4])
    (.bytes (some [9])) Mem.sampleTable []).2.2.1

end LakeFS.Dynamodb

namespace LakeFS.Dynamodb
open LakeFS LakeFS.KV LakeFS.Dynamodb

/-! ## Provisioning -/

/-- A retried operation that ends with nil ended on an attempt that returned nil. -/
theorem Retry_nil {σ ε : Type} (operation : σ → Option (OpError ε) × σ) (retries : Nat)
    (db db1 : σ) (h : Retry operation retries db = (none, db1)) :
    ∃ db0, operation db0 = (none, db1) := by
  induction retries generalizing db with
  | zero =>
    unfold Retry at h
    rcases hop : operation db with ⟨r, db2⟩
    rw [hop] at h
    rcases r with _ | e | e
    · exact ⟨db, by rw [hop]; simpa using h⟩
    · simp at h
    · simp at h
  | succ n ih =>
    unfold Retry at h
    rcases hop : operation db with ⟨r, db2⟩
    rw [hop] at h
    rcases r with _ | e | e
    · exact ⟨db, by rw [hop]; simpa using h⟩
    · simp at h
    · exact ih db2 h

/-- A poll returns nil exactly when `DescribeTable` answers with status `ACTIVE`. -/
theorem pollTable_nil {σ : Type} (svc : Client σ) (tableName : String) (db db1 : σ) :
    pollTable svc tableName db = (none, db1) ↔
      svc.DescribeTable { TableName := tableName } db = (.ok { TableStatus := "ACTIVE" }, db1) := by
  unfold pollTable
  rcases hd : svc.DescribeTable { TableName := tableName } db with ⟨r, db2⟩
  rcases r with err | desc
  · simp
  · obtain ⟨status⟩ := desc
    by_cases hs : status = "ACTIVE"
    · simp [TableStatusActive, hs]
    · simp [TableStatusActive, hs]

/-- C14 fails as stated: on a service where the table exists and is still being created,
for parameters with a provisioned throughput of at least one unit each way, which the
client accepts, `CreateTable` reports resource-in-use, and `setupKeyValueDatabase` returns
nil at once.
The service state is the one it started from: no status has been reported to the driver,
and the status a poll would get is `CREATING`.  `Open` returns a store. -/
theorem C14_counterexample :
    1 ≤ Prov.sampleParams.ReadCapacityUnits
    ∧ 1 ≤ Prov.sampleParams.WriteCapacityUnits
    ∧ setupKeyValueDatabase Prov.client Prov.sampleParams 5 Prov.creating
      = (none, Prov.creating)
    ∧ Prov.creating.described = []
    ∧ (Prov.describeTable { TableName := "kvstore" } Prov.creating).1
        = .ok { TableStatus := "CREATING" }
    ∧ (Driver.Open Prov.client Prov.sampleParams 5 Prov.creating).1.1.isSome = true
    ∧ (Driver.Open Prov.client Prov.sampleParams 5 Prov.creating).1.2 = none := by
  refine ⟨by decide, by decide, rfl, rfl, rfl, rfl, rfl⟩

/-- C14, amended: provisioning is idempotent, and readiness is established only for a
table the driver created.  Over any client: when `CreateTable` reports resource-in-use,
`setupKeyValueDatabase` returns nil in the state that this answer left, without a poll.
When `CreateTable` succeeds and `setupKeyValueDatabase` returns nil, the state it returns
is the one left by a `DescribeTable` call, for the table created, that reported status
`ACTIVE`.  `Open` returns a store with a nil error exactly when `setupKeyValueDatabase`
returns nil. -/
theorem C14_setup_idempotent_amended {σ : Type} (svc : Client σ) (params : Params)
    (retries : Nat) (db : σ) :
    (∀ db1,
      svc.CreateTableWithContext
          { TableName := params.TableName,
            AttributeDefinitions := [(PartitionKey, "B"), (ItemKey, "B")],
            KeySchema := [(PartitionKey, "HASH"), (ItemKey, "RANGE")],
            ReadCapacityUnits := params.ReadCapacityUnits,
            WriteCapacityUnits := params.WriteCapacityUnits } db
        = (.error .ResourceInUseException, db1) →
      setupKeyValueDatabase svc params retries db = (none, db1)) ∧
    (∀ table db1 db2,
      svc.CreateTableWithContext
          { TableName := params.TableName,
            AttributeDefinitions := [(PartitionKey, "B"), (ItemKey, "B")],
            KeySchema := [(PartitionKey, "HASH"), (ItemKey, "RANGE")],
            ReadCapacityUnits := params.ReadCapacityUnits,
            WriteCapacityUnits := params.WriteCapacityUnits } db
        = (.ok table, db1) →
      setupKeyValueDatabase svc params retries db = (none, db2) →
      ∃ db0, svc.DescribeTable { TableName := table.TableName } db0
        = (.ok { TableStatus := "ACTIVE" }, db2)) ∧
    (((Driver.Open svc params retries db).1.1.isSome = true
        ∧ (Driver.Open svc params retries db).1.2 = none)
      ↔ (setupKeyValueDatabase svc params retries db).1 = none) := by
  refine ⟨?_, ?_, ?_⟩
  · intro db1 h
    simp [setupKeyValueDatabase, h]
  · intro table db1 db2 h hs
    simp only [setupKeyValueDatabase, h] at hs
    obtain ⟨db0, h0⟩ := Retry_nil _ retries db1 db2 hs
    exact ⟨db0, (pollTable_nil svc table.TableName db0 db2).mp h0⟩
  · unfold Driver.Open
    rcases hs : setupKeyValueDatabase svc params retries db with ⟨r, db1⟩
    cases r <;> simp

/-- C14 amended, on a service without the table: the driver creates it, polls three
times and returns after the poll that reported `ACTIVE`. -/
theorem C14_setup_idempotent_amended_witness :
    ∃ db0, Prov.client.DescribeTable { TableName := "kvstore" } db0
      = (.ok { TableStatus := "ACTIVE" },
          (setupKeyValueDatabase Prov.client Prov.sampleParams 5 Prov.fresh).2) :=
  (C14_setup_idempotent_amended Prov.client Prov.sampleParams 5 Prov.fresh).2.1
    { TableName := "kvstore" } _ _ rfl rfl

end LakeFS.Dynamodb

namespace LakeFS.Dynamodb
open LakeFS LakeFS.KV LakeFS.Dynamodb

/-- C15: readiness polling retries only the not-yet-active state.  Over any client, for a
poll of the table in service state `db`: when `DescribeTable` reports a status other than
`ACTIVE`, the poll returns an error that is not permanent and wraps `ErrTableNotActive`,
polling goes on from the state the answer left if the policy grants another attempt, and
ends with that error if it does not; when `DescribeTable` reports `ACTIVE`, the poll
returns nil and polling ends with nil; when `DescribeTable` fails, the poll returns the
error as permanent, and polling ends at once, in the state the answer left and whatever
the policy would grant, with that error.  After a successful create,
`setupKeyValueDatabase` returns what polling the created table returns. -/
theorem C15_polling_retries_only_not_active {σ : Type} (svc : Client σ) (tableName : String)
    (retries : Nat) (db : σ) :
    (∀ desc db1, svc.DescribeTable { TableName := tableName } db = (.ok desc, db1) →
      desc.TableStatus ≠ "ACTIVE" →
      (∃ e, pollTable svc tableName db = (some (.transient (.kv e)), db1)
        ∧ e.Is .ErrTableNotActive = true)
      ∧ Retry (pollTable svc tableName) (retries + 1) db
          = Retry (pollTable svc tableName) retries db1
      ∧ ∃ e, Retry (pollTable svc tableName) 0 db = (some (.kv e), db1)
          ∧ e.Is .ErrTableNotActive = true) ∧
    (∀ db1, svc.DescribeTable { TableName := tableName } db
        = (.ok { TableStatus := "ACTIVE" }, db1) →
      pollTable svc tableName db = (none, db1)
      ∧ Retry (pollTable svc tableName) retries db = (none, db1)) ∧
    (∀ err db1, svc.DescribeTable { TableName := tableName } db = (.error err, db1) →
      pollTable svc tableName db = (some (.permanent (.aws err)), db1)
      ∧ Retry (pollTable svc tableName) retries db = (some (.aws err), db1)) ∧
    (∀ (params : Params) (table : CreateTableOutput) (db0 : σ),
      svc.CreateTableWithContext
          { TableName := params.TableName,
            AttributeDefinitions := [(PartitionKey, "B"), (ItemKey, "B")],
            KeySchema := [(PartitionKey, "HASH"), (ItemKey, "RANGE")],
            ReadCapacityUnits := params.ReadCapacityUnits,
            WriteCapacityUnits := params.WriteCapacityUnits } db0
        = (.ok table, db) →
      setupKeyValueDatabase svc params retries db0
        = Retry (pollTable svc table.TableName) retries db) := by
  refine ⟨?_, ?_, ?_, ?_⟩
  · intro desc db1 hd hs
    have hpoll : pollTable svc tableName db
        = (some (.transient (.kv (.errorf "table status(%s): %w"
            (.sentinel .ErrTableNotActive)))), db1) := by
      simp [pollTable, hd, TableStatusActive, hs]
    refine ⟨⟨_, hpoll, rfl⟩, ?_, ⟨.errorf "table status(%s): %w"
      (.sentinel .ErrTableNotActive), ?_, rfl⟩⟩
    · conv_lhs => unfold Retry
      simp only [hpoll]
    · unfold Retry
      simp only [hpoll]
  · intro db1 hd
    have hpoll : pollTable svc tableName db = (none, db1) :=
      (pollTable_nil svc tableName db db1).mpr hd
    refine ⟨hpoll, ?_⟩
    unfold Retry
    simp only [hpoll]
  · intro err db1 hd
    have hpoll : pollTable svc tableName db = (some (.permanent (.aws err)), db1) := by
      simp [pollTable, hd]
    refine ⟨hpoll, ?_⟩
    unfold Retry
    simp only [hpoll]
  · intro params table db0 h
    simp [setupKeyValueDatabase, h]

/-- C15 on a service where the table has just been created: the first poll reports
`CREATING`, and with no further attempt granted polling ends with `ErrTableNotActive`. -/
theorem C15_polling_retries_only_not_active_witness :
    ∃ e, Retry (pollTable Prov.client "kvstore") 0 Prov.created
        = (some (.kv e), (Prov.describeTable { TableName := "kvstore" } Prov.created).2)
      ∧ e.Is .ErrTableNotActive = true :=
  ((C15_polling_retries_only_not_active Prov.client "kvstore" 0 Prov.created).1
    { TableStatus := "CREATING" } _ rfl (by decide)).2.2

/-- C16: provisioning failure is fatal to `Open`.  Over any client: whenever
`setupKeyValueDatabase` returns an error, `Open` returns no store and an error wrapping
`ErrSetupFailed`; `Open` returns a store exactly when `setupKeyValueDatabase` returns nil,
and then its error is nil.  `setupKeyValueDatabase` returns an error when `CreateTable`
fails with an error other than resource-in-use, when a poll fails, and when polling is
exhausted on a table that is not active. -/
theorem C16_setup_failure_fatal_to_open {σ : Type} (svc : Client σ) (params : Params)
    (retries : Nat) (db : σ) :
    (∀ err db1, setupKeyValueDatabase svc params retries db = (some err, db1) →
      ∃ e, (Driver.Open svc params retries db).1.1.isNone = true
        ∧ (Driver.Open svc params retries db).1.2 = some e
        ∧ (Driver.Open svc params retries db).2 = db1
        ∧ e.Is .ErrSetupFailed = true) ∧
    ((Driver.Open svc params retries db).1.1.isSome = true
      ↔ (setupKeyValueDatabase svc params retries db).1 = none) ∧
    ((Driver.Open svc params retries db).1.1.isSome = true
      → (Driver.Open svc params retries db).1.2 = none) ∧
    (∀ err db1,
      svc.CreateTableWithContext
          { TableName := params.TableName,
            AttributeDefinitions := [(PartitionKey, "B"), (ItemKey, "B")],
            KeySchema := [(PartitionKey, "HASH"), (ItemKey, "RANGE")],
            ReadCapacityUnits := params.ReadCapacityUnits,
            WriteCapacityUnits := params.WriteCapacityUnits } db
        = (.error err, db1) →
      err ≠ .ResourceInUseException →
      setupKeyValueDatabase svc params retries db = (some (.aws err), db1)) ∧
    (∀ table db1 err db2,
      svc.CreateTableWithContext
          { TableName := params.TableName,
            AttributeDefinitions := [(PartitionKey, "B"), (ItemKey, "B")],
            KeySchema := [(PartitionKey, "HASH"), (ItemKey, "RANGE")],
            ReadCapacityUnits := params.ReadCapacityUnits,
            WriteCapacityUnits := params.WriteCapacityUnits } db
        = (.ok table, db1) →
      svc.DescribeTable { TableName := table.TableName } db1 = (.error err, db2) →
      setupKeyValueDatabase svc params retries db = (some (.aws err), db2)) ∧
    (∀ table db1 desc db2,
      svc.CreateTableWithContext
          { TableName := params.TableName,
            AttributeDefinitions := [(PartitionKey, "B"), (ItemKey, "B")],
            KeySchema := [(PartitionKey, "HASH"), (ItemKey, "RANGE")],
            ReadCapacityUnits := params.ReadCapacityUnits,
            WriteCapacityUnits := params.WriteCapacityUnits } db
        = (.ok table, db1) →
      svc.DescribeTable { TableName := table.TableName } db1 = (.ok desc, db2) →
      desc.TableStatus ≠ "ACTIVE" →
      ∃ e, setupKeyValueDatabase svc params 0 db = (some (.kv e), db2)
        ∧ e.Is .ErrTableNotActive = true) := by
  refine ⟨?_, ?_, ?_, ?_, ?_, ?_⟩
  · intro err db1 h
    exact ⟨.errorf "%w: %s" (.sentinel .ErrSetupFailed), by simp [Driver.Open, h],
      by simp [Driver.Open, h], by simp [Driver.Open, h], rfl⟩
  · unfold Driver.Open
    rcases hs : setupKeyValueDatabase svc params retries db with ⟨r, db1⟩
    cases r <;> simp
  · unfold Driver.Open
    rcases hs : setupKeyValueDatabase svc params retries db with ⟨r, db1⟩
    cases r <;> simp
  · intro err db1 h hne
    simp [setupKeyValueDatabase, h, hne]
  · intro table db1 err db2 h hd
    have hpoll : pollTable svc table.TableName db1 = (some (.permanent (.aws err)), db2) := by
      simp [pollTable, hd]
    simp only [setupKeyValueDatabase, h]
    unfold Retry
    simp only [hpoll]
  · intro table db1 desc db2 h hd hs
    have hpoll : pollTable svc table.TableName db1
        = (some (.transient (.kv (.errorf "table status(%s): %w"
            (.sentinel .ErrTableNotActive)))), db2) := by
      simp [pollTable, hd, TableStatusActive, hs]
    refine ⟨.errorf "table status(%s): %w" (.sentinel .ErrTableNotActive), ?_, rfl⟩
    simp only [setupKeyValueDatabase, h]
    unfold Retry
    simp only [hpoll]

/-- C16 on a service without the table, when the policy grants no further attempt: the
first poll reports `CREATING`, setup fails, and `Open` returns no store. -/
theorem C16_setup_failure_fatal_to_open_witness :
    ∃ e, (Driver.Open Prov.client Prov.sampleParams 0 Prov.fresh).1.1.isNone = true
      ∧ (Driver.Open Prov.client Prov.sampleParams 0 Prov.fresh).1.2 = some e
      ∧ (Driver.Open Prov.client Prov.sampleParams 0 Prov.fresh).2
          = (setupKeyValueDatabase Prov.client Prov.sampleParams 0 Prov.fresh).2
      ∧ e.Is .ErrSetupFailed = true :=
  (C16_setup_failure_fatal_to_open Prov.client Prov.sampleParams 0 Prov.fresh).1
    (.kv (.errorf "table status(%s): %w" (.sentinel .ErrTableNotActive))) _ rfl

end LakeFS.Dynamodb

namespace LakeFS.Templater
open LakeFS LakeFS.Templater

/-! ## The template functions -/

theorem GoMap.get_set_same {α : Type} (m : GoMap α) (key : String) (v : α) :
    GoMap.get (GoMap.set m key v) key = some v := by
  simp [GoMap.get, GoMap.set]

theorem GoMap.get_set_other {α : Type} (m : GoMap α) (key key2 : String) (v : α)
    (h : key2 ≠ key) : GoMap.get (GoMap.set m key v) key2 = GoMap.get m key2 := by
  have h1 : (key == key2) = false := by simpa using fun e => h e.symm
  simp only [GoMap.get, GoMap.set, List.find?_cons, h1]
  congr 1
  induction m with
  | nil => rfl
  | cons x xs ih =>
    cases hxk : (x.1 == key) with
    | true =>
      have hx : x.1 = key := by simpa using hxk
      have hx2 : (x.1 == key2) = false := by rw [hx]; exact h1
      simp only [List.filter_cons, hxk, Bool.not_true, List.find?_cons, hx2]
      exact ih
    | false =>
      simp only [List.filter_cons, hxk, Bool.not_false, if_true, List.find?_cons, ih]

/-- What `newCredentials` does once the user is authorized, on an allocated store. -/
theorem newCredentials_authorized {σ : Type} (params : ControlledParams σ) (name : String)
    (db db1 : σ) (resp : AuthorizationResponse) (store : GoMap StoreValue)
    (hauth : params.Auth.Authorize
        { Username := params.User.Username, Action := .CreateCredentialsAction,
          ResourceUser := params.User.Username } db = (.ok resp, db1))
    (he : resp.Error = none) (ha : resp.Allowed = true)
    (hstore : params.Store = some store) :
    (∀ c, cached params name = some c →
      newCredentials params name db = .ret ((some c, none), params, db1)) ∧
    (cached params name = none → GoMap.get store "new_credentials" ≠ some .other →
      ∀ credentials db2,
        params.Auth.CreateCredentials params.User.Username db1 = (.ok credentials, db2) →
        ∃ params1,
          newCredentials params name db
            = .ret ((some { Key := credentials.AccessKeyID,
                            Secret := credentials.SecretAccessKey }, none), params1, db2)
          ∧ cached params1 name
              = some { Key := credentials.AccessKeyID, Secret := credentials.SecretAccessKey }
          ∧ (∀ name2, name2 ≠ name → cached params1 name2 = cached params name2)
          ∧ params1.Auth = params.Auth ∧ params1.User = params.User
          ∧ ∃ store1, params1.Store = some store1
              ∧ GoMap.get store1 "new_credentials" ≠ some .other) := by
  obtain ⟨phase, auth, header, user, pstore⟩ := params
  simp only at hauth hstore
  subst hstore
  constructor
  · intro c hc
    simp only [cached] at hc
    simp only [newCredentials, hauth, he, ha]
    split at hc
    · rename_i m hm
      simp [hm, hc]
    · cases hc
  · intro hc hno credentials db2 hcreate
    simp only [cached] at hc
    simp only at hcreate
    simp only [newCredentials, hauth, he, ha]
    cases hs : GoMap.get store "new_credentials" with
    | none =>
      refine ⟨{ Phase := phase, Auth := auth, Header := header, User := user
                Store := some (GoMap.set
                  (GoMap.set store "new_credentials" (.generatedCreds []))
                  "new_credentials"
                  (.generatedCreds (GoMap.set [] name
                    { Key := credentials.AccessKeyID
                      Secret := credentials.SecretAccessKey }))) },
        by simp [GoMap.get, hcreate], ?_, ?_, rfl, rfl, _, rfl, ?_⟩
      · simp [cached, GoMap.get_set_same]
      · intro name2 h2
        simp only [cached, GoMap.get_set_same, GoMap.get_set_other _ _ _ _ h2, hs]
        rfl
      · simp [GoMap.get_set_same]
    | some sv =>
      cases sv with
      | other => exact absurd hs hno
      | generatedCreds m =>
        rw [hs] at hc
        simp only at hc
        refine ⟨{ Phase := phase, Auth := auth, Header := header, User := user
                  Store := some (GoMap.set store "new_credentials"
                    (.generatedCreds (GoMap.set m name
                      { Key := credentials.AccessKeyID
                        Secret := credentials.SecretAccessKey }))) },
          by simp [hc, hcreate], ?_, ?_, rfl, rfl, _, rfl, ?_⟩
        · simp [cached, GoMap.get_set_same]
        · intro name2 h2
          simp [cached, GoMap.get_set_same, GoMap.get_set_other _ _ _ _ h2, hs]
        · simp [GoMap.get_set_same]

end LakeFS.Templater

namespace LakeFS.Templater
open LakeFS LakeFS.Templater

/-- A call of `newCredentials` for one name leaves what is cached under other names. -/
theorem newCredentials_keeps_others {σ : Type} (params : ControlledParams σ)
    (name name2 : String) (db : σ) (r : Option Credentials × Option GoError)
    (params2 : ControlledParams σ) (db2 : σ) (hne : name ≠ name2)
    (h : newCredentials params name2 db = .ret (r, params2, db2)) :
    cached params2 name = cached params name := by
  obtain ⟨phase, auth, header, user, pstore⟩ := params
  unfold newCredentials at h
  simp only at h
  rcases ha : auth.Authorize
      { Username := user.Username, Action := .CreateCredentialsAction,
        ResourceUser := user.Username } db with ⟨ra, db1⟩
  rw [ha] at h
  rcases ra with err | resp
  · simp only [Outcome.ret.injEq, Prod.mk.injEq] at h
    rw [← h.2.1]
  · simp only at h
    cases he : resp.Error with
    | some err =>
      rw [he] at h
      simp only [Outcome.ret.injEq, Prod.mk.injEq] at h
      rw [← h.2.1]
    | none =>
      rw [he] at h
      simp only at h
      cases hal : resp.Allowed with
      | false =>
        simp only [hal, Bool.not_false, if_true, Outcome.ret.injEq, Prod.mk.injEq] at h
        rw [← h.2.1]
      | true =>
        simp only [hal, Bool.not_true, Bool.false_eq_true, if_false] at h
        cases pstore with
        | none => cases h
        | some store =>
          simp only at h
          cases hs : GoMap.get store "new_credentials" with
          | none =>
            rw [hs] at h
            simp only at h
            have hg : GoMap.get ([] : GoMap Credentials) name2 = none := rfl
            rw [hg] at h
            simp only at h
            rcases hc : auth.CreateCredentials user.Username db1 with ⟨rc, db3⟩
            rw [hc] at h
            rcases rc with err | credentials
            · simp only [Outcome.ret.injEq, Prod.mk.injEq] at h
              rw [← h.2.1]
              simp only [cached, GoMap.get_set_same, hs]
              rfl
            · simp only [Outcome.ret.injEq, Prod.mk.injEq] at h
              rw [← h.2.1]
              simp only [cached, GoMap.get_set_same, GoMap.get_set_other _ _ _ _ hne, hs]
              rfl
          | some sv =>
            rw [hs] at h
            cases sv with
            | other => simp at h
            | generatedCreds m =>
              simp only at h
              cases hg : GoMap.get m name2 with
              | some c =>
                rw [hg] at h
                simp only [Outcome.ret.injEq, Prod.mk.injEq] at h
                rw [← h.2.1]
              | none =>
                rw [hg] at h
                simp only at h
                rcases hc : auth.CreateCredentials user.Username db1 with ⟨rc, db3⟩
                rw [hc] at h
                rcases rc with err | credentials
                · simp only [Outcome.ret.injEq, Prod.mk.injEq] at h
                  rw [← h.2.1]
                · simp only [Outcome.ret.injEq, Prod.mk.injEq] at h
                  rw [← h.2.1]
                  simp only [cached, GoMap.get_set_same, GoMap.get_set_other _ _ _ _ hne, hs]

/-- C17: `newCredentials` caches by name within one `params.Store`.  Over any auth service
whose `CreateCredentials` calls are counted, for an allocated store that does not hold a
foreign value under `new_credentials`: when the user is authorized at both calls and nothing is
cached under `name`, the first call creates credentials and returns them, the second
call returns the same credentials, and `CreateCredentials` has been called once in all;
when credentials are already cached under `name`, a call returns them and creates none.
The first call leaves what is cached under other names, and so does any later call for
another name, which leaves the credentials cached under `name`. -/
theorem C17_newCredentials_caches_by_name {σ : Type} (params : ControlledParams σ)
    (name : String) (db db1 db2 db3 : σ) (n : Nat) (resp1 resp2 : AuthorizationResponse)
    (credentials : Credential) (store : GoMap StoreValue)
    (hstore : params.Store = some store)
    (hown : GoMap.get store "new_credentials" ≠ some .other)
    (hauth1 : params.Auth.Authorize
        { Username := params.User.Username, Action := .CreateCredentialsAction,
          ResourceUser := params.User.Username } db = (.ok resp1, db1))
    (he1 : resp1.Error = none) (ha1 : resp1.Allowed = true)
    (hcreate : params.Auth.CreateCredentials params.User.Username db1
        = (.ok credentials, db2))
    (hauth2 : params.Auth.Authorize
        { Username := params.User.Username, Action := .CreateCredentialsAction,
          ResourceUser := params.User.Username } db2 = (.ok resp2, db3))
    (he2 : resp2.Error = none) (ha2 : resp2.Allowed = true) :
    (cached params name = none →
      ∃ params1,
        newCredentials params.counted name (db, n)
          = .ret ((some { Key := credentials.AccessKeyID,
                          Secret := credentials.SecretAccessKey }, none), params1,
                  (db2, n + 1))
        ∧ newCredentials params1 name (db2, n + 1)
          = .ret ((some { Key := credentials.AccessKeyID,
                          Secret := credentials.SecretAccessKey }, none), params1,
                  (db3, n + 1))
        ∧ (∀ name2, name2 ≠ name → cached params1 name2 = cached params name2)
        ∧ (∀ name2 r params2 st2, name2 ≠ name →
            newCredentials params1 name2 (db2, n + 1) = .ret (r, params2, st2) →
            cached params2 name
              = some { Key := credentials.AccessKeyID,
                       Secret := credentials.SecretAccessKey })) ∧
    (∀ c, cached params name = some c →
      newCredentials params.counted name (db, n)
        = .ret ((some c, none), params.counted, (db1, n))) := by
  have hauth1c : params.counted.Auth.Authorize
      { Username := params.counted.User.Username, Action := .CreateCredentialsAction,
        ResourceUser := params.counted.User.Username } (db, n) = (.ok resp1, (db1, n)) := by
    simp [ControlledParams.counted, AuthService.counted, hauth1]
  have h1 := newCredentials_authorized params.counted name (db, n) (db1, n) resp1 store
    hauth1c he1 ha1 hstore
  constructor
  · intro hmiss
    have hcreatec : params.counted.Auth.CreateCredentials params.counted.User.Username (db1, n)
        = (.ok credentials, (db2, n + 1)) := by
      simp [ControlledParams.counted, AuthService.counted, hcreate]
    obtain ⟨params1, hcall, hcached, hothers, hauth, huser, store1, hstore1, _⟩ :=
      h1.2 hmiss hown credentials (db2, n + 1) hcreatec
    have hauth2c : params1.Auth.Authorize
        { Username := params1.User.Username, Action := .CreateCredentialsAction,
          ResourceUser := params1.User.Username } (db2, n + 1) = (.ok resp2, (db3, n + 1)) := by
      rw [hauth, huser]
      simp [ControlledParams.counted, AuthService.counted, hauth2]
    have h2 := newCredentials_authorized params1 name (db2, n + 1) (db3, n + 1) resp2 store1
      hauth2c he2 ha2 hstore1
    refine ⟨params1, hcall, h2.1 _ hcached, hothers, ?_⟩
    intro name2 r params2 st2 hne hcall2
    rw [newCredentials_keeps_others params1 name name2 (db2, n + 1) r params2 st2
      (fun e => hne e.symm) hcall2, hcached]
  · intro c hc
    exact h1.1 c hc

/-- C17 on the sample parameters: two calls for the name `ci` return the first credentials
of the pool, and `CreateCredentials` is called once. -/
theorem C17_newCredentials_caches_by_name_witness :
    ∃ params1,
      newCredentials sampleParams.counted "ci"
          ([{ AccessKeyID := "AKIA1", SecretAccessKey := "s1" },
            { AccessKeyID := "AKIA2", SecretAccessKey := "s2" }], 0)
        = .ret ((some { Key := "AKIA1", Secret := "s1" }, none), params1,
                ([{ AccessKeyID := "AKIA2", SecretAccessKey := "s2" }], 0 + 1))
      ∧ newCredentials params1 "ci"
          ([{ AccessKeyID := "AKIA2", SecretAccessKey := "s2" }], 0 + 1)
        = .ret ((some { Key := "AKIA1", Secret := "s1" }, none), params1,
                ([{ AccessKeyID := "AKIA2", SecretAccessKey := "s2" }], 0 + 1))
      ∧ (∀ name2, name2 ≠ "ci" → cached params1 name2 = cached sampleParams name2)
      ∧ (∀ name2 r params2 st2, name2 ≠ "ci" →
          newCredentials params1 name2
            ([{ AccessKeyID := "AKIA2", SecretAccessKey := "s2" }], 0 + 1)
              = .ret (r, params2, st2) →
          cached params2 "ci" = some { Key := "AKIA1", Secret := "s1" }) :=
  (C17_newCredentials_caches_by_name sampleParams "ci"
    [{ AccessKeyID := "AKIA1", SecretAccessKey := "s1" },
     { AccessKeyID := "AKIA2", SecretAccessKey := "s2" }]
    [{ AccessKeyID := "AKIA1", SecretAccessKey := "s1" },
     { AccessKeyID := "AKIA2", SecretAccessKey := "s2" }]
    [{ AccessKeyID := "AKIA2", SecretAccessKey := "s2" }]
    [{ AccessKeyID := "AKIA2", SecretAccessKey := "s2" }] 0
    { Allowed := true, Error := none } { Allowed := true, Error := none }
    { AccessKeyID := "AKIA1", SecretAccessKey := "s1" } []
    rfl (by decide) rfl rfl rfl rfl rfl rfl rfl).1 rfl

end LakeFS.Templater

namespace LakeFS.Templater
open LakeFS LakeFS.Templater

/-- C18: `fail` fails template expansion with the message passed in.  For every string
`msg`, `fail` returns `msg` together with a non-nil error that wraps `ErrTemplateFailed`
and whose message is exactly `msg`. -/
theorem C18_fail_returns_message (msg : String) :
    (fail msg).1 = msg ∧
    ∃ e, (fail msg).2 = some e ∧ e.Is .ErrTemplateFailed = true ∧ e.Error = msg := by
  refine ⟨rfl, _, rfl, ?_, ?_⟩
  · simp [GoError.Is]
  · simp [GoError.Error]

/-- C19, at the failing input: in the prepare phase, on a response header that already
holds the content type `text/plain`, `contentType` with `application/json` returns the
empty string and a nil error, and the header then lists both values; `Header.Get` reads
the first, `text/plain`, not the type passed in. -/
theorem C19_contentType_appends :
    contentType typedParams "application/json"
      = .ret (("", none),
          { typedParams with
            Header := some [("Content-Type", ["text/plain", "application/json"])] })
    ∧ Header.Get [("Content-Type", ["text/plain", "application/json"])] "Content-Type"
        = "text/plain" := by
  constructor
  · rfl
  · decide

end LakeFS.Templater

namespace LakeFS.Gateway
open LakeFS LakeFS.Gateway

/-! ## The gateway handlers -/

/-- What `authenticateOperation` does includes no operation callback. -/
theorem authenticateOperation_no_handle (s : ServerContext) (request : Request)
    (action : Action) (r : Option AuthenticatedOperation) (done : List Event)
    (h : authenticateOperation s request action = .ret (r, done)) :
    done.any Event.isHandle = false := by
  unfold authenticateOperation at h
  split at h
  · cases h
  · cases h; simp [Event.isHandle]
  · split at h
    · split at h <;> (cases h; simp [Event.isHandle])
    · split at h
      · cases h; simp [Event.isHandle]
      · split at h
        · cases h
        · simp only at h
          split at h
          · cases h; simp [Event.isHandle]
          · split at h <;> (cases h; simp [Event.isHandle])

/-- C20: the gateway propagates repository absence as its own not-found code.  For a
request that `authenticateOperation` lets through, in `RepoOperationHandler` and in
`PathOperationHandler`: the repository is looked up once, after authentication; if
`GetRepo` fails with an error that is or wraps `db.ErrNotFound`, `ErrNoSuchBucket` is
encoded and nothing else is done; if it fails with another error, `ErrInternalError` is
encoded and nothing else is done; if it succeeds, the callback is run on the operation
holding the repository fetched.  So a callback is run exactly when `GetRepo` succeeds. -/
theorem C20_repo_absence_is_no_such_bucket (ctx : ServerContext) (repoId refId path : String)
    (handler : Handler) (request : Request) :
    (∀ authOp done,
      authenticateOperation ctx request (handler.Action repoId "" "")
        = .ret (some authOp, done) →
      (∀ err, ctx.GetRepo repoId = .error err → err.IsNotFound = true →
        RepoOperationHandler ctx repoId handler request
          = .ret (done ++ [.GetRepo repoId, .EncodeError { Code := .ErrNoSuchBucket }])) ∧
      (∀ err, ctx.GetRepo repoId = .error err → err.IsNotFound = false →
        RepoOperationHandler ctx repoId handler request
          = .ret (done ++ [.GetRepo repoId, .EncodeError { Code := .ErrInternalError }])) ∧
      (∀ repo, ctx.GetRepo repoId = .ok repo →
        RepoOperationHandler ctx repoId handler request
          = .ret (done ++ [.GetRepo repoId,
              .HandleRepo { AuthenticatedOperation := authOp, Repo := repo }])) ∧
      ((∃ evs, RepoOperationHandler ctx repoId handler request = .ret evs
          ∧ evs.any Event.isHandle = true)
        ↔ ∃ repo, ctx.GetRepo repoId = .ok repo)) ∧
    (∀ authOp done,
      authenticateOperation ctx request (handler.Action repoId refId path)
        = .ret (some authOp, done) →
      (∀ err, ctx.GetRepo repoId = .error err → err.IsNotFound = true →
        PathOperationHandler ctx repoId refId path handler request
          = .ret (done ++ [.GetRepo repoId, .EncodeError { Code := .ErrNoSuchBucket }])) ∧
      (∀ err, ctx.GetRepo repoId = .error err → err.IsNotFound = false →
        PathOperationHandler ctx repoId refId path handler request
          = .ret (done ++ [.GetRepo repoId, .EncodeError { Code := .ErrInternalError }])) ∧
      (∀ repo, ctx.GetRepo repoId = .ok repo →
        PathOperationHandler ctx repoId refId path handler request
          = .ret (done ++ [.GetRepo repoId,
              .HandlePath { RepoOperation := { AuthenticatedOperation := authOp, Repo := repo },
                            Ref := refId, Path := path }])) ∧
      ((∃ evs, PathOperationHandler ctx repoId refId path handler request = .ret evs
          ∧ evs.any Event.isHandle = true)
        ↔ ∃ repo, ctx.GetRepo repoId = .ok repo)) := by
  constructor
  · intro authOp done hauth
    have hdone := authenticateOperation_no_handle _ _ _ _ _ hauth
    refine ⟨?_, ?_, ?_, ?_⟩
    · intro err hg hnf
      simp [RepoOperationHandler, hauth, hg, hnf, APIErrorCode.ToAPIErr, Codes.ToAPIErr]
    · intro err hg hnf
      simp [RepoOperationHandler, hauth, hg, hnf, APIErrorCode.ToAPIErr, Codes.ToAPIErr]
    · intro repo hg
      simp [RepoOperationHandler, hauth, hg]
    · cases hg : ctx.GetRepo repoId with
      | error err =>
        have hr : ∃ e, RepoOperationHandler ctx repoId handler request
            = .ret (done ++ [.GetRepo repoId, .EncodeError e]) := by
          cases hnf : err.IsNotFound
          · exact ⟨{ Code := .ErrInternalError }, by
              simp [RepoOperationHandler, hauth, hg, hnf, Codes.ToAPIErr, APIErrorCode.ToAPIErr]⟩
          · exact ⟨{ Code := .ErrNoSuchBucket }, by
              simp [RepoOperationHandler, hauth, hg, hnf, Codes.ToAPIErr, APIErrorCode.ToAPIErr]⟩
        obtain ⟨e, hr⟩ := hr
        constructor
        · rintro ⟨evs, he, ha⟩
          rw [hr] at he
          cases he
          rw [List.any_append, hdone] at ha
          simp [Event.isHandle] at ha
        · rintro ⟨repo, hrepo⟩
          cases hrepo
      | ok repo =>
        constructor
        · intro _
          exact ⟨repo, rfl⟩
        · intro _
          refine ⟨_, by simp only [RepoOperationHandler, hauth, hg]; rfl, ?_⟩
          rw [List.any_append, hdone]
          simp [Event.isHandle]
  · intro authOp done hauth
    have hdone := authenticateOperation_no_handle _ _ _ _ _ hauth
    refine ⟨?_, ?_, ?_, ?_⟩
    · intro err hg hnf
      simp [PathOperationHandler, hauth, hg, hnf, Codes.ToAPIErr]
    · intro err hg hnf
      simp [PathOperationHandler, hauth, hg, hnf, Codes.ToAPIErr]
    · intro repo hg
      simp [PathOperationHandler, hauth, hg]
    · cases hg : ctx.GetRepo repoId with
      | error err =>
        have hr : ∃ e, PathOperationHandler ctx repoId refId path handler request
            = .ret (done ++ [.GetRepo repoId, .EncodeError e]) := by
          cases hnf : err.IsNotFound
          · exact ⟨{ Code := .ErrInternalError }, by
              simp [PathOperationHandler, hauth, hg, hnf, Codes.ToAPIErr]⟩
          · exact ⟨{ Code := .ErrNoSuchBucket }, by
              simp [PathOperationHandler, hauth, hg, hnf, Codes.ToAPIErr]⟩
        obtain ⟨e, hr⟩ := hr
        constructor
        · rintro ⟨evs, he, ha⟩
          rw [hr] at he
          cases he
          rw [List.any_append, hdone] at ha
          simp [Event.isHandle] at ha
        · rintro ⟨repo, hrepo⟩
          cases hrepo
      | ok repo =>
        constructor
        · intro _
          exact ⟨repo, rfl⟩
        · intro _
          refine ⟨_, by simp only [PathOperationHandler, hauth, hg]; rfl, ?_⟩
          rw [List.any_append, hdone]
          simp [Event.isHandle]

/-- C20 on the sample server: a signed and authorized request for the repository `gone`,
which the index does not hold, gets `ErrNoSuchBucket` and no callback. -/
theorem C20_repo_absence_is_no_such_bucket_witness :
    RepoOperationHandler sampleServer "gone" sampleHandler signedRequest
      = .ret ([.Parse, .GetAPICredentials "AKIA1",
               .Verify { UserId := some 7, CredType := "user" } "s3.example.com",
               .Authorize { UserID := 7, Permission := "read", SubjectARN := "*" }]
              ++ [.GetRepo "gone", .EncodeError { Code := .ErrNoSuchBucket }]) :=
  ((C20_repo_absence_is_no_such_bucket sampleServer "gone" "main" "a/b" sampleHandler
    signedRequest).1 _ _ rfl).1 (.wrap "get repo" .ErrNotFound) rfl rfl

end LakeFS.Gateway

namespace LakeFS.Graveler
open LakeFS LakeFS.Graveler

/-! ## The blocked-action enum -/

/-- Reading the table of names. -/
theorem name_lookup (n : Int) :
    BranchProtectionBlockedAction_name.lookup n
      = if n = 0 then some "STAGING_WRITE" else if n = 1 then some "COMMIT" else none := by
  by_cases h0 : n = 0
  · subst h0; rfl
  · by_cases h1 : n = 1
    · subst h1; rfl
    · have e0 : (n == 0) = false := by simpa using h0
      have e1 : (n == 1) = false := by simpa using h1
      simp [BranchProtectionBlockedAction_name, List.lookup, e0, e1, h0, h1]

/-- Reading the table of numbers. -/
theorem value_lookup (s : String) :
    BranchProtectionBlockedAction_value.lookup s
      = if s = "STAGING_WRITE" then some 0 else if s = "COMMIT" then some 1 else none := by
  by_cases h0 : s = "STAGING_WRITE"
  · subst h0; rfl
  · by_cases h1 : s = "COMMIT"
    · subst h1; rfl
    · have e0 : (s == "STAGING_WRITE") = false := by simpa using h0
      have e1 : (s == "COMMIT") = false := by simpa using h1
      simp [BranchProtectionBlockedAction_value, List.lookup, e0, e1, h0, h1]

/-- C21: the blocked-action enum has exactly the two actions `STAGING_WRITE = 0` and
`COMMIT = 1`, and the tables `BranchProtectionBlockedAction_name` and
`BranchProtectionBlockedAction_value` are mutually inverse bijections between the numbers
0, 1 and the names `STAGING_WRITE`, `COMMIT`: no key is listed twice, the numbers with a
name are the two constants, the names with a number are the two names, and a number has
a name exactly when the name has that number. -/
theorem C21_blocked_action_tables :
    BranchProtectionBlockedAction_STAGING_WRITE = 0 ∧
    BranchProtectionBlockedAction_COMMIT = 1 ∧
    (BranchProtectionBlockedAction_name.map Prod.fst).Nodup ∧
    (BranchProtectionBlockedAction_value.map Prod.fst).Nodup ∧
    (∀ n : Int, (BranchProtectionBlockedAction_name.lookup n).isSome = true
      ↔ n = BranchProtectionBlockedAction_STAGING_WRITE
        ∨ n = BranchProtectionBlockedAction_COMMIT) ∧
    (∀ s : String, (BranchProtectionBlockedAction_value.lookup s).isSome = true
      ↔ s = "STAGING_WRITE" ∨ s = "COMMIT") ∧
    (∀ (n : Int) (s : String),
      BranchProtectionBlockedAction_name.lookup n = some s
        ↔ BranchProtectionBlockedAction_value.lookup s = some n) := by
  refine ⟨rfl, rfl, by decide, by decide, ?_, ?_, ?_⟩
  · intro n
    rw [name_lookup]
    simp only [BranchProtectionBlockedAction_STAGING_WRITE, BranchProtectionBlockedAction_COMMIT]
    split_ifs with h0 h1 <;> simp_all
  · intro s
    rw [value_lookup]
    split_ifs with h0 h1 <;> simp_all
  · intro n s
    rw [name_lookup, value_lookup]
    constructor
    · intro h
      split_ifs at h with h0 h1
      · cases h; simp [h0]
      · cases h; simp [h1]
    · intro h
      split_ifs at h with h0 h1
      · cases h; simp [h0]
      · cases h; simp [h1]

end LakeFS.Graveler

namespace LakeFS.Graveler
open LakeFS LakeFS.Graveler

/-! ## The generation of a commit -/

/-- The fold of `max` is the greatest element. -/
theorem foldl_max_spec (gs : List Int) (g : Int) :
    gs.foldl max g ∈ g :: gs ∧ ∀ x ∈ g :: gs, x ≤ gs.foldl max g := by
  induction gs generalizing g with
  | nil => simp
  | cons a rest ih =>
    obtain ⟨hm, hle⟩ := ih (max g a)
    simp only [List.foldl_cons]
    constructor
    · rcases List.mem_cons.mp hm with h | h
      · rw [h]
        rcases max_choice g a with e | e
        · rw [e]; simp
        · rw [e]; simp
      · simp [h]
    · intro x hx
      rcases List.mem_cons.mp hx with h | h
      · rw [h]
        exact le_trans (le_max_left g a) (hle _ (List.mem_cons_self _ _))
      · rcases List.mem_cons.mp h with h | h
        · rw [h]
          exact le_trans (le_max_right g a) (hle _ (List.mem_cons_self _ _))
        · exact hle _ (List.mem_cons_of_mem _ h)

/-- The generation computed from a non-empty list is one more than its greatest
element. -/
theorem nextGeneration_spec (gens : List Int) (h : gens ≠ []) :
    ∃ m ∈ gens, nextGeneration gens = 1 + m ∧ ∀ x ∈ gens, x ≤ m := by
  cases gens with
  | nil => exact absurd rfl h
  | cons g gs =>
    obtain ⟨hm, hle⟩ := foldl_max_spec gs g
    exact ⟨gs.foldl max g, hm, by simp [nextGeneration, add_comm], hle⟩

/-- Resolving gives one commit per id. -/
theorem resolve_length (cs : Commits) (ids : List String) (parents : List CommitData)
    (h : cs.resolve ids = some parents) : parents.length = ids.length := by
  induction ids generalizing parents with
  | nil =>
    simp only [Commits.resolve, Option.some.injEq] at h
    subst h
    rfl
  | cons id rest ih =>
    simp only [Commits.resolve] at h
    cases hg : cs.get id with
    | none => simp [hg] at h
    | some c =>
      cases hr : cs.resolve rest with
      | none => simp [hg, hr] at h
      | some ps =>
        simp only [hg, hr, Option.some.injEq] at h
        rw [← h]
        simp [ih ps hr]

/-- A commit that is found stays found, unchanged, when a commit with a fresh id is
written. -/
theorem get_cons (cs : Commits) (c1 : CommitData) (id : String) (p : CommitData)
    (hfresh : cs.get c1.Id = none) (h : cs.get id = some p) :
    Commits.get (c1 :: cs) id = some p := by
  have hne : (c1.Id == id) = false := by
    cases hb : (c1.Id == id) with
    | false => rfl
    | true =>
      have e : c1.Id = id := by simpa using hb
      rw [e, h] at hfresh
      cases hfresh
  simp only [Commits.get, List.find?_cons, hne]
  exact h

/-- Parents that are resolved stay resolved, unchanged, when a commit with a fresh id is
written. -/
theorem resolve_cons (cs : Commits) (c1 : CommitData) (ids : List String)
    (parents : List CommitData) (hfresh : cs.get c1.Id = none)
    (h : cs.resolve ids = some parents) :
    Commits.resolve (c1 :: cs) ids = some parents := by
  induction ids generalizing parents with
  | nil => simpa [Commits.resolve] using h
  | cons id rest ih =>
    simp only [Commits.resolve] at h ⊢
    cases hg : cs.get id with
    | none => simp [hg] at h
    | some c =>
      cases hr : cs.resolve rest with
      | none => simp [hg, hr] at h
      | some ps =>
        simp only [hg, hr, Option.some.injEq] at h
        rw [get_cons cs c1 id c hfresh hg, ih ps hr]
        simp [h]

/-- Writing a commit keeps the rule for the commits already written and establishes it
for the new one. -/
theorem add_rule (cs cs1 : Commits) (c : CommitData)
    (hinv : ∀ x ∈ cs, GenerationRule cs x) (hadd : cs.add c = some cs1) :
    ∀ x ∈ cs1, GenerationRule cs1 x := by
  unfold Commits.add at hadd
  cases hr : cs.resolve c.Parents with
  | none => simp [hr] at hadd
  | some parents =>
    cases hg : cs.get c.Id with
    | some old => simp [hr, hg] at hadd
    | none =>
      simp only [hr, hg, Option.isSome_none, Bool.false_eq_true, if_false,
        Option.some.injEq] at hadd
      subst hadd
      have hfresh : cs.get
          ({ c with Generation := nextGeneration (parents.map (fun p => p.Generation)) }
            : CommitData).Id = none := hg
      intro x hx
      rcases List.mem_cons.mp hx with hnew | hold
      · subst hnew
        refine ⟨parents, resolve_cons cs _ _ parents hfresh hr, ?_, ?_⟩
        · intro hp
          have hp2 : c.Parents = [] := hp
          have hl := resolve_length cs _ _ hr
          rw [hp2] at hl
          have : parents = [] := List.length_eq_zero.mp hl
          subst this
          rfl
        · intro hp
          have hp2 : c.Parents ≠ [] := hp
          have hl := resolve_length cs _ _ hr
          have hne : parents.map (fun p => p.Generation) ≠ [] := by
            intro e
            have : parents = [] := List.map_eq_nil_iff.mp e
            rw [this] at hl
            exact hp2 (List.length_eq_zero.mp hl.symm)
          obtain ⟨m, hm, hgen, hle⟩ := nextGeneration_spec _ hne
          obtain ⟨p, hpmem, hpe⟩ := List.mem_map.mp hm
          refine ⟨p, hpmem, ?_, ?_⟩
          · show nextGeneration (parents.map (fun p => p.Generation)) = 1 + p.Generation
            rw [hgen, hpe]
          · intro q hq
            rw [hpe]
            exact hle _ (List.mem_map.mpr ⟨q, hq, rfl⟩)
      · obtain ⟨ps, hres, h1, h2⟩ := hinv x hold
        exact ⟨ps, resolve_cons cs _ _ ps hfresh hres, h1, h2⟩

/-- C22: the commit generation rule.  In every history that the engine step of the model
writes from an empty repository, every commit has its parents among the commits, has
`Generation` 1 when `Parents` is empty, and otherwise has `Generation` one more than the
largest `Generation` among its parents; parents with generations 3 and 5 give 6, and no
parents give 1. -/
theorem C22_commit_generation_rule (history : List CommitData) (cs : Commits)
    (h : Commits.addAll history = some cs) :
    (∀ c ∈ cs, GenerationRule cs c) ∧
    nextGeneration [3, 5] = 6 ∧ nextGeneration [] = 1 := by
  refine ⟨?_, by decide, by decide⟩
  induction history generalizing cs with
  | nil =>
    simp only [Commits.addAll, Option.some.injEq] at h
    subst h
    intro c hc
    cases hc
  | cons c earlier ih =>
    simp only [Commits.addAll] at h
    cases he : Commits.addAll earlier with
    | none => simp [he] at h
    | some cs0 =>
      simp only [he] at h
      exact add_rule cs0 cs c (ih cs0 he) h

/-- C22 on the sample history: the merge commit `m` of `c3` (generation 3) and `d5`
(generation 5) has generation 6, and the root `c1` has generation 1. -/
theorem C22_commit_generation_rule_witness :
    Commits.addAll sampleHistory
      = some [{ commitOf "m" ["c3", "d5"] with Generation := 6 },
              { commitOf "d5" ["d4"] with Generation := 5 },
              { commitOf "d4" ["d3"] with Generation := 4 },
              { commitOf "d3" ["c2"] with Generation := 3 },
              { commitOf "c3" ["c2"] with Generation := 3 },
              { commitOf "c2" ["c1"] with Generation := 2 },
              { commitOf "c1" [] with Generation := 1 }]
    ∧ ∀ c ∈ [{ commitOf "m" ["c3", "d5"] with Generation := 6 },
              { commitOf "d5" ["d4"] with Generation := 5 },
              { commitOf "d4" ["d3"] with Generation := 4 },
              { commitOf "d3" ["c2"] with Generation := 3 },
              { commitOf "c3" ["c2"] with Generation := 3 },
              { commitOf "c2" ["c1"] with Generation := 2 },
              { commitOf "c1" [] with Generation := 1 }],
        GenerationRule
          [{ commitOf "m" ["c3", "d5"] with Generation := 6 },
           { commitOf "d5" ["d4"] with Generation := 5 },
           { commitOf "d4" ["d3"] with Generation := 4 },
           { commitOf "d3" ["c2"] with Generation := 3 },
           { commitOf "c3" ["c2"] with Generation := 3 },
           { commitOf "c2" ["c1"] with Generation := 2 },
           { commitOf "c1" [] with Generation := 1 }] c :=
  ⟨by decide, (C22_commit_generation_rule sampleHistory _ (by decide)).1⟩

end LakeFS.Graveler

namespace LakeFS.Graveler
open LakeFS LakeFS.Graveler

/-! ## Branch protection -/

/-- The matcher accepts what the rules of matching accept. -/
theorem globMatch_sound (p s : List Char) (h : globMatch p s = true) : GlobMatches p s := by
  induction p generalizing s with
  | nil =>
    cases s with
    | nil => exact .done
    | cons c cs => simp [globMatch] at h
  | cons x ps ih =>
    unfold globMatch at h
    by_cases hx : x = '*'
    · subst hx
      simp only [if_true, List.any_eq_true, List.mem_tails] at h
      obtain ⟨rest, ⟨run, hrun⟩, hm⟩ := h
      rw [← hrun]
      exact .star run rest ps (ih rest hm)
    · simp only [if_neg hx] at h
      cases s with
      | nil => simp at h
      | cons c cs =>
        simp only [Bool.and_eq_true, Bool.or_eq_true, decide_eq_true_eq] at h
        obtain ⟨hc, hm⟩ := h
        by_cases hq : x = '?'
        · subst hq
          exact .one c cs ps (ih cs hm)
        · rcases hc with hc | hc
          · exact absurd hc hq
          · subst hc
            exact .same x cs ps hx hq (ih cs hm)

/-- The matcher accepts all that the rules of matching accept. -/
theorem globMatch_complete (p s : List Char) (h : GlobMatches p s) : globMatch p s = true := by
  induction h with
  | done => rfl
  | star run s p _ ih =>
    unfold globMatch
    simp only [if_true, List.any_eq_true, List.mem_tails]
    exact ⟨s, ⟨run, rfl⟩, ih⟩
  | one c s p _ ih =>
    unfold globMatch
    have hne : ¬ ('?' = '*') := by decide
    simp [hne, ih]
  | same c s p hstar _ _ ih =>
    unfold globMatch
    simp [hstar, ih]

/-- An action is in the union exactly when an entry with a matching pattern lists it. -/
theorem mem_blockedActions (rules : Option BranchProtectionRules) (branchID : String)
    (action : BranchProtectionBlockedAction) :
    action ∈ blockedActions rules branchID ↔
      ∃ pattern actions,
        (pattern, actions) ∈ BranchProtectionRules.GetBranchPatternToBlockedActions rules
        ∧ globMatch pattern.toList branchID.toList = true
        ∧ action ∈ BranchProtectionBlockedActions.GetValue actions := by
  unfold blockedActions
  simp only [List.mem_flatMap]
  constructor
  · rintro ⟨⟨pattern, actions⟩, hmem, hact⟩
    by_cases hm : globMatch pattern.toList branchID.toList = true
    · rw [if_pos hm] at hact
      exact ⟨pattern, actions, hmem, hm, hact⟩
    · rw [if_neg hm] at hact
      cases hact
  · rintro ⟨pattern, actions, hmem, hm, hact⟩
    refine ⟨(pattern, actions), hmem, ?_⟩
    rw [if_pos hm]
    exact hact

/-- C23: branch protection is a pure union-of-matches decision.  For every branch
identifier, action and rules (nil rules and nil action lists included), the action is
denied exactly when the rules hold a pattern that matches the whole identifier,
character by character and so case-sensitively, and whose actions list the action; the
decision is the same in whatever order the entries of the map are met.  With
`release-*` blocking `COMMIT`: `COMMIT` on `release-1.0` is denied, `STAGING_WRITE` on
`release-1.0` is allowed, and `COMMIT` on `feature-x` is allowed; so is `COMMIT` on
`Release-1.0` and on `pre-release-1.0`. -/
theorem C23_branch_protection_union (rules : Option BranchProtectionRules)
    (branchID : String) (action : BranchProtectionBlockedAction) :
    (isBlocked rules branchID action = true ↔
      ∃ pattern actions,
        (pattern, actions) ∈ BranchProtectionRules.GetBranchPatternToBlockedActions rules
        ∧ GlobMatches pattern.toList branchID.toList
        ∧ action ∈ BranchProtectionBlockedActions.GetValue actions) ∧
    (∀ entries : List (String × Option BranchProtectionBlockedActions),
      (∀ e, e ∈ entries ↔ e ∈ BranchProtectionRules.GetBranchPatternToBlockedActions rules) →
      isBlocked (some { BranchPatternToBlockedActions := entries }) branchID action
        = isBlocked rules branchID action) ∧
    isBlocked (some releaseRules) "release-1.0" BranchProtectionBlockedAction_COMMIT = true ∧
    isBlocked (some releaseRules) "release-1.0" BranchProtectionBlockedAction_STAGING_WRITE
      = false ∧
    isBlocked (some releaseRules) "feature-x" BranchProtectionBlockedAction_COMMIT = false ∧
    isBlocked (some releaseRules) "Release-1.0" BranchProtectionBlockedAction_COMMIT = false ∧
    isBlocked (some releaseRules) "pre-release-1.0" BranchProtectionBlockedAction_COMMIT
      = false := by
  have key : ∀ r : Option BranchProtectionRules, isBlocked r branchID action = true ↔
      ∃ pattern actions,
        (pattern, actions) ∈ BranchProtectionRules.GetBranchPatternToBlockedActions r
        ∧ globMatch pattern.toList branchID.toList = true
        ∧ action ∈ BranchProtectionBlockedActions.GetValue actions := by
    intro r
    unfold isBlocked
    have hc : (blockedActions r branchID).contains action = true
        ↔ action ∈ blockedActions r branchID := by simp
    rw [hc]
    exact mem_blockedActions r branchID action
  refine ⟨?_, ?_, by decide, by decide, by decide, by decide, by decide⟩
  · rw [key]
    constructor
    · rintro ⟨pattern, actions, hmem, hm, hact⟩
      exact ⟨pattern, actions, hmem, globMatch_sound _ _ hm, hact⟩
    · rintro ⟨pattern, actions, hmem, hm, hact⟩
      exact ⟨pattern, actions, hmem, globMatch_complete _ _ hm, hact⟩
  · intro entries hsame
    rw [Bool.eq_iff_iff, key, key]
    constructor
    · rintro ⟨pattern, actions, hmem, hm, hact⟩
      exact ⟨pattern, actions, (hsame _).mp hmem, hm, hact⟩
    · rintro ⟨pattern, actions, hmem, hm, hact⟩
      exact ⟨pattern, actions, (hsame _).mpr hmem, hm, hact⟩

/-- C23 on the rules of the example, with the entries listed in another order and a
second pattern added: the decision is that of the rules. -/
theorem C23_branch_protection_union_witness :
    isBlocked (some { BranchPatternToBlockedActions :=
        [("main", none),
         ("release-*", some { Value := [BranchProtectionBlockedAction_COMMIT] })] })
      "release-1.0" BranchProtectionBlockedAction_COMMIT
    = isBlocked (some { BranchPatternToBlockedActions :=
        [("release-*", some { Value := [BranchProtectionBlockedAction_COMMIT] }),
         ("main", none)] })
      "release-1.0" BranchProtectionBlockedAction_COMMIT :=
  (C23_branch_protection_union
    (some { BranchPatternToBlockedActions :=
        [("release-*", some { Value := [BranchProtectionBlockedAction_COMMIT] }),
         ("main", none)] })
    "release-1.0" BranchProtectionBlockedAction_COMMIT).2.1
    [("main", none), ("release-*", some { Value := [BranchProtectionBlockedAction_COMMIT] })]
    (by
      intro e
      simp only [BranchProtectionRules.GetBranchPatternToBlockedActions, List.mem_cons,
        List.mem_singleton, List.not_mem_nil, or_false]
      exact or_comm)

end LakeFS.Graveler

namespace LakeFS.Gateway
open LakeFS LakeFS.Gateway

/-! ## Authentication in the gateway -/

/-- What `authenticateOperation` does includes no lookup of the repository. -/
theorem authenticateOperation_no_getRepo (s : ServerContext) (request : Request)
    (action : Action) (r : Option AuthenticatedOperation) (done : List Event)
    (h : authenticateOperation s request action = .ret (r, done)) :
    done.any Event.isGetRepo = false := by
  unfold authenticateOperation at h
  split at h
  · cases h
  · cases h; simp [Event.isGetRepo]
  · split at h
    · split at h <;> (cases h; simp [Event.isGetRepo])
    · split at h
      · cases h; simp [Event.isGetRepo]
      · split at h
        · cases h
        · simp only at h
          split at h
          · cases h; simp [Event.isGetRepo]
          · split at h <;> (cases h; simp [Event.isGetRepo])

/-- The index plays no part in `authenticateOperation`. -/
theorem authenticateOperation_index (s : ServerContext) (getRepo : String → Except Err Repo)
    (request : Request) (action : Action) :
    authenticateOperation { s with GetRepo := getRepo } request action
      = authenticateOperation s request action := rfl

/-- When `Parse` returns a context and the credentials found name a user,
`authenticateOperation` returns; it returns an operation exactly when every step passes,
and otherwise it returns nil after encoding one error response, the last thing it
does. -/
theorem authenticateOperation_returns (s : ServerContext) (request : Request)
    (action : Action)
    (hctx : request.authenticator.Parse.1 ≠ none)
    (huser : ∀ key creds, s.GetAPICredentials key = .ok creds → creds.UserId ≠ none) :
    (∃ op done, authenticateOperation s request action = .ret (some op, done)
      ∧ done.any Event.isEncodeError = false
      ∧ ∃ authContext creds userId authResp,
          request.authenticator.Parse = (some authContext, none)
          ∧ s.GetAPICredentials authContext.AccessKeyId = .ok creds
          ∧ request.authenticator.Verify creds s.bareDomain = none
          ∧ creds.UserId = some userId
          ∧ s.Authorize { UserID := userId, Permission := action.Permission,
                          SubjectARN := action.Arn } = .ok authResp
          ∧ authResp.Error = none ∧ authResp.Allowed = true
          ∧ op = { Region := s.region, FQDN := s.bareDomain, SubjectId := userId,
                   SubjectType := creds.CredType })
    ∨ (∃ calls e, authenticateOperation s request action
          = .ret (none, calls ++ [.EncodeError e])
        ∧ calls.any Event.isEncodeError = false
        ∧ ¬ ∃ authContext creds userId authResp,
            request.authenticator.Parse = (some authContext, none)
            ∧ s.GetAPICredentials authContext.AccessKeyId = .ok creds
            ∧ request.authenticator.Verify creds s.bareDomain = none
            ∧ creds.UserId = some userId
            ∧ s.Authorize { UserID := userId, Permission := action.Permission,
                            SubjectARN := action.Arn } = .ok authResp
            ∧ authResp.Error = none ∧ authResp.Allowed = true) := by
  unfold authenticateOperation
  rcases hp : request.authenticator.Parse with ⟨pc, pe⟩
  rw [hp] at hctx
  cases pc with
  | none => exact absurd rfl hctx
  | some authContext =>
    cases pe with
    | some err =>
      right
      refine ⟨[.Parse], getApiErrOrDefault err .ErrAccessDenied, rfl,
        by simp [Event.isEncodeError], ?_⟩
      rintro ⟨a, c, u, r, h1, _⟩
      cases h1
    | none =>
      simp only
      cases hc : s.GetAPICredentials authContext.AccessKeyId with
      | error err =>
        right
        simp only
        by_cases hnf : err.IsNotFound = true
        · refine ⟨[.Parse, .GetAPICredentials authContext.AccessKeyId],
            Codes.ToAPIErr .ErrAccessDenied, ?_, by simp [Event.isEncodeError], ?_⟩
          · simp [hnf]
          · rintro ⟨a, c, u, r, h1, h2, _⟩
            cases h1
            rw [hc] at h2
            cases h2
        · refine ⟨[.Parse, .GetAPICredentials authContext.AccessKeyId],
            Codes.ToAPIErr .ErrInternalError, ?_, by simp [Event.isEncodeError], ?_⟩
          · simp [hnf]
          · rintro ⟨a, c, u, r, h1, h2, _⟩
            cases h1
            rw [hc] at h2
            cases h2
      | ok creds =>
        simp only
        cases hv : request.authenticator.Verify creds s.bareDomain with
        | some err =>
          right
          refine ⟨[.Parse, .GetAPICredentials authContext.AccessKeyId,
            .Verify creds s.bareDomain], getApiErrOrDefault err .ErrAccessDenied, rfl,
            by simp [Event.isEncodeError], ?_⟩
          rintro ⟨a, c, u, r, h1, h2, h3, _⟩
          cases h1
          rw [hc] at h2
          cases h2
          rw [hv] at h3
          cases h3
        | none =>
          simp only
          cases hu : creds.UserId with
          | none => exact absurd hu (huser _ _ hc)
          | some userId =>
            simp only
            cases ha : s.Authorize ⟨userId, action.Permission, action.Arn⟩ with
            | error err =>
              right
              refine ⟨[.Parse, .GetAPICredentials authContext.AccessKeyId,
                .Verify creds s.bareDomain, .Authorize ⟨userId, action.Permission, action.Arn⟩],
                Codes.ToAPIErr .ErrInternalError, rfl, by simp [Event.isEncodeError], ?_⟩
              rintro ⟨a, c, u, r, h1, h2, _, h4, h5, _⟩
              cases h1
              rw [hc] at h2
              cases h2
              rw [hu] at h4
              cases h4
              rw [ha] at h5
              cases h5
            | ok authResp =>
              simp only
              by_cases hden : authResp.Error ≠ none ∨ (!authResp.Allowed) = true
              · right
                rw [if_pos hden]
                refine ⟨[.Parse, .GetAPICredentials authContext.AccessKeyId,
                  .Verify creds s.bareDomain,
                  .Authorize ⟨userId, action.Permission, action.Arn⟩],
                  Codes.ToAPIErr .ErrAccessDenied, rfl, by simp [Event.isEncodeError], ?_⟩
                rintro ⟨a, c, u, r, h1, h2, _, h4, h5, h6, h7⟩
                cases h1
                rw [hc] at h2
                cases h2
                rw [hu] at h4
                cases h4
                rw [ha] at h5
                cases h5
                rcases hden with hd | hd
                · exact hd h6
                · simp [h7] at hd
              · left
                rw [if_neg hden]
                have hden2 := not_or.mp hden
                refine ⟨_, _, rfl, by simp [Event.isEncodeError], authContext, creds, userId,
                  authResp, rfl, hc, hv, hu, ha, ?_, ?_, rfl⟩
                · exact not_not.mp hden2.1
                · simpa using hden2.2

/-- C24, at the failing input: for a request without a signature, whose `Parse` returns
an error and no context, `authenticateOperation` panics on reading the access key of the
missing context for the log line; it encodes no error response and does not return.
When `Parse` returns a context beside the same error, the function encodes
`ErrAccessDenied` and returns nil. -/
theorem C24_parse_failure_panics :
    authenticateOperation sampleServer unsignedRequest { Permission := "read", Arn := "*" }
      = .panic
    ∧ OperationHandler sampleServer sampleHandler unsignedRequest = .panic
    ∧ authenticateOperation sampleServer malformedRequest { Permission := "read", Arn := "*" }
      = .ret (none, [.Parse, .EncodeError { Code := .ErrAccessDenied }]) := by
  refine ⟨rfl, rfl, rfl⟩

/-- C25: authorization precedes the lookup of the repository.  In `OperationHandler`,
`RepoOperationHandler` and `PathOperationHandler`, when `authenticateOperation` returns
nil, the handler does what `authenticateOperation` did and nothing more: neither
`GetRepo` nor a callback is among it.  So on a server that differs in the index only,
whatever its `GetRepo` answers, the handler does the same and ends with the same
response. -/
theorem C25_authorization_precedes_lookup (ctx : ServerContext)
    (getRepo : String → Except Err Repo) (repoId refId path : String) (handler : Handler)
    (request : Request) :
    (∀ done, authenticateOperation ctx request (handler.Action "" "" "") = .ret (none, done) →
      OperationHandler ctx handler request = .ret done
      ∧ OperationHandler { ctx with GetRepo := getRepo } handler request = .ret done
      ∧ done.any Event.isGetRepo = false ∧ done.any Event.isHandle = false) ∧
    (∀ done, authenticateOperation ctx request (handler.Action repoId "" "")
        = .ret (none, done) →
      RepoOperationHandler ctx repoId handler request = .ret done
      ∧ RepoOperationHandler { ctx with GetRepo := getRepo } repoId handler request = .ret done
      ∧ done.any Event.isGetRepo = false ∧ done.any Event.isHandle = false) ∧
    (∀ done, authenticateOperation ctx request (handler.Action repoId refId path)
        = .ret (none, done) →
      PathOperationHandler ctx repoId refId path handler request = .ret done
      ∧ PathOperationHandler { ctx with GetRepo := getRepo } repoId refId path handler request
          = .ret done
      ∧ done.any Event.isGetRepo = false ∧ done.any Event.isHandle = false) := by
  refine ⟨?_, ?_, ?_⟩
  · intro done h
    have h2 := authenticateOperation_index ctx getRepo request (handler.Action "" "" "")
    rw [h] at h2
    exact ⟨by simp only [OperationHandler, h], by simp only [OperationHandler, h2],
      authenticateOperation_no_getRepo _ _ _ _ _ h,
      authenticateOperation_no_handle _ _ _ _ _ h⟩
  · intro done h
    have h2 := authenticateOperation_index ctx getRepo request (handler.Action repoId "" "")
    rw [h] at h2
    exact ⟨by simp only [RepoOperationHandler, h], by simp only [RepoOperationHandler, h2],
      authenticateOperation_no_getRepo _ _ _ _ _ h,
      authenticateOperation_no_handle _ _ _ _ _ h⟩
  · intro done h
    have h2 := authenticateOperation_index ctx getRepo request
      (handler.Action repoId refId path)
    rw [h] at h2
    exact ⟨by simp only [PathOperationHandler, h], by simp only [PathOperationHandler, h2],
      authenticateOperation_no_getRepo _ _ _ _ _ h,
      authenticateOperation_no_handle _ _ _ _ _ h⟩

/-- C25 on the server whose auth service knows no key: the request for the repository
`data`, which exists, gets the response that it gets on a server whose index holds no
repository. -/
theorem C25_authorization_precedes_lookup_witness :
    RepoOperationHandler strangerServer "data" sampleHandler signedRequest
      = .ret [.Parse, .GetAPICredentials "AKIA1", .EncodeError { Code := .ErrAccessDenied }]
    ∧ RepoOperationHandler
        { strangerServer with GetRepo := fun _ => .error .ErrNotFound } "data" sampleHandler
        signedRequest
      = .ret [.Parse, .GetAPICredentials "AKIA1", .EncodeError { Code := .ErrAccessDenied }] :=
  ⟨((C25_authorization_precedes_lookup strangerServer (fun _ => .error .ErrNotFound)
      "data" "main" "a/b" sampleHandler signedRequest).2.1 _ rfl).1,
   ((C25_authorization_precedes_lookup strangerServer (fun _ => .error .ErrNotFound)
      "data" "main" "a/b" sampleHandler signedRequest).2.1 _ rfl).2.1⟩

/-- C26: the error code chosen by `authenticateOperation`.  After a `Parse` without
error: a credentials lookup failing with an error that is or wraps `db.ErrNotFound`
encodes `ErrAccessDenied`, and one failing with any other error encodes
`ErrInternalError`.  After credentials that verify and name a user: an error returned by
`Authorize` encodes `ErrInternalError`, and an authorization response with `Error` set
or `Allowed` false encodes `ErrAccessDenied`.  In each case this is the only response
encoded and the function returns nil. -/
theorem C26_error_code_choice (s : ServerContext) (request : Request) (action : Action)
    (authContext : SigContext)
    (hparse : request.authenticator.Parse = (some authContext, none)) :
    (∀ err, s.GetAPICredentials authContext.AccessKeyId = .error err →
      (err.IsNotFound = true →
        authenticateOperation s request action
          = .ret (none, [.Parse, .GetAPICredentials authContext.AccessKeyId,
              .EncodeError { Code := .ErrAccessDenied }])) ∧
      (err.IsNotFound = false →
        authenticateOperation s request action
          = .ret (none, [.Parse, .GetAPICredentials authContext.AccessKeyId,
              .EncodeError { Code := .ErrInternalError }]))) ∧
    (∀ creds userId, s.GetAPICredentials authContext.AccessKeyId = .ok creds →
      request.authenticator.Verify creds s.bareDomain = none →
      creds.UserId = some userId →
      (∀ err, s.Authorize { UserID := userId, Permission := action.Permission,
                            SubjectARN := action.Arn } = .error err →
        authenticateOperation s request action
          = .ret (none, [.Parse, .GetAPICredentials authContext.AccessKeyId,
              .Verify creds s.bareDomain,
              .Authorize { UserID := userId, Permission := action.Permission,
                           SubjectARN := action.Arn },
              .EncodeError { Code := .ErrInternalError }])) ∧
      (∀ authResp, s.Authorize { UserID := userId, Permission := action.Permission,
                                 SubjectARN := action.Arn } = .ok authResp →
        (authResp.Error ≠ none ∨ authResp.Allowed = false) →
        authenticateOperation s request action
          = .ret (none, [.Parse, .GetAPICredentials authContext.AccessKeyId,
              .Verify creds s.bareDomain,
              .Authorize { UserID := userId, Permission := action.Permission,
                           SubjectARN := action.Arn },
              .EncodeError { Code := .ErrAccessDenied }]))) := by
  refine ⟨?_, ?_⟩
  · intro err hc
    constructor
    · intro hnf
      simp [authenticateOperation, hparse, hc, hnf, Codes.ToAPIErr]
    · intro hnf
      simp [authenticateOperation, hparse, hc, hnf, Codes.ToAPIErr]
  · intro creds userId hc hv hu
    constructor
    · intro err ha
      simp [authenticateOperation, hparse, hc, hv, hu, ha, Codes.ToAPIErr]
    · intro authResp ha hden
      have hd : authResp.Error ≠ none ∨ (!authResp.Allowed) = true := by
        rcases hden with h | h
        · exact Or.inl h
        · exact Or.inr (by simp [h])
      simp only [authenticateOperation, hparse, hc, hv, hu, ha, if_pos hd, Codes.ToAPIErr]
      rfl

/-- C26 on the server whose auth service knows no key: the lookup fails with an error
wrapping `db.ErrNotFound`, and the response is `ErrAccessDenied`. -/
theorem C26_error_code_choice_witness :
    authenticateOperation strangerServer signedRequest { Permission := "read", Arn := "*" }
      = .ret (none, [.Parse, .GetAPICredentials "AKIA1",
          .EncodeError { Code := .ErrAccessDenied }]) :=
  ((C26_error_code_choice strangerServer signedRequest { Permission := "read", Arn := "*" }
    { AccessKeyId := "AKIA1" } rfl).1 (.wrap "get credentials" .ErrNotFound) rfl).1 rfl

end LakeFS.Gateway

namespace LakeFS.Templater
open LakeFS LakeFS.Templater

/-! ## Authorization in `newCredentials` -/

/-- Go `errors.Is(e, e)` holds. -/
theorem GoError.Is_self (e : GoError) : e.Is e = true := by
  cases e <;> simp [GoError.Is]

/-- C27: `newCredentials` checks authorization on every call before consulting the
cache.  Over any auth service whose `CreateCredentials` calls are counted, and for any
parameters, with or without credentials cached under the name: if `Authorize` returns an
error, or the response carries an `Error`, or `Allowed` is false, `newCredentials`
returns nil credentials and a non-nil error (wrapping the error returned, the error
carried, and `ErrNotAuthorized`, in this order), leaves the parameters, `params.Store`
included, as they are, and `CreateCredentials` is not called.  If the user is authorized,
nothing is cached under the name and `CreateCredentials` fails, `newCredentials` returns
nil credentials and an error wrapping the failure, after one call of
`CreateCredentials`, and nothing is cached under any name that was not before. -/
theorem C27_newCredentials_authorizes_first {σ : Type} (params : ControlledParams σ)
    (name : String) (db db1 : σ) (n : Nat) :
    (∀ err,
      params.Auth.Authorize
          { Username := params.User.Username, Action := .CreateCredentialsAction,
            ResourceUser := params.User.Username } db = (.error err, db1) →
      ∃ e, newCredentials params.counted name (db, n)
          = .ret ((none, some e), params.counted, (db1, n))
        ∧ e.Is err = true) ∧
    (∀ resp err,
      params.Auth.Authorize
          { Username := params.User.Username, Action := .CreateCredentialsAction,
            ResourceUser := params.User.Username } db = (.ok resp, db1) →
      resp.Error = some err →
      ∃ e, newCredentials params.counted name (db, n)
          = .ret ((none, some e), params.counted, (db1, n))
        ∧ e.Is err = true) ∧
    (∀ resp,
      params.Auth.Authorize
          { Username := params.User.Username, Action := .CreateCredentialsAction,
            ResourceUser := params.User.Username } db = (.ok resp, db1) →
      resp.Error = none → resp.Allowed = false →
      ∃ e, newCredentials params.counted name (db, n)
          = .ret ((none, some e), params.counted, (db1, n))
        ∧ e.Is .ErrNotAuthorized = true) ∧
    (∀ resp store err db2,
      params.Auth.Authorize
          { Username := params.User.Username, Action := .CreateCredentialsAction,
            ResourceUser := params.User.Username } db = (.ok resp, db1) →
      resp.Error = none → resp.Allowed = true →
      params.Store = some store → GoMap.get store "new_credentials" ≠ some .other →
      cached params name = none →
      params.Auth.CreateCredentials params.User.Username db1 = (.error err, db2) →
      ∃ e params1, newCredentials params.counted name (db, n)
          = .ret ((none, some e), params1, (db2, n + 1))
        ∧ e.Is err = true
        ∧ ∀ name2, cached params1 name2 = cached params name2) := by
  obtain ⟨phase, auth, header, user, pstore⟩ := params
  refine ⟨?_, ?_, ?_, ?_⟩
  · intro err hauth
    simp only at hauth
    refine ⟨.wrapf ("create credentials for " ++ user.Rendered ++ ": " ++ err.Error) err,
      ?_, by simp [GoError.Is, GoError.Is_self]⟩
    simp [newCredentials, ControlledParams.counted, AuthService.counted, hauth]
  · intro resp err hauth herr
    simp only at hauth
    refine ⟨.wrapf ("create credentials for " ++ user.Rendered ++ ": " ++ err.Error) err,
      ?_, by simp [GoError.Is, GoError.Is_self]⟩
    simp [newCredentials, ControlledParams.counted, AuthService.counted, hauth, herr]
  · intro resp hauth herr hallow
    simp only at hauth
    refine ⟨.wrapf ("create credentials for " ++ user.Rendered ++ ": "
        ++ GoError.ErrNotAuthorized.Error) .ErrNotAuthorized,
      ?_, by simp [GoError.Is]⟩
    simp [newCredentials, ControlledParams.counted, AuthService.counted, hauth, herr, hallow]
  · intro resp store err db2 hauth herr hallow hstore hown hmiss hcreate
    simp only at hauth hstore hcreate
    subst hstore
    simp only [cached] at hmiss
    refine ⟨.wrapf ("create credentials for " ++ user.Rendered ++ ": " ++ err.Error) err, ?_⟩
    cases hs : GoMap.get store "new_credentials" with
    | none =>
      refine ⟨{ Phase := phase, Auth := auth.counted, Header := header, User := user
                Store := some (GoMap.set store "new_credentials" (.generatedCreds [])) },
        ?_, by simp [GoError.Is, GoError.Is_self], ?_⟩
      · simp only [newCredentials, ControlledParams.counted, AuthService.counted, hauth, herr,
          hallow, hs, hcreate, Bool.not_true, Bool.false_eq_true, if_false]
        rfl
      · intro name2
        simp only [cached, GoMap.get_set_same, hs]
        rfl
    | some sv =>
      cases sv with
      | other => exact absurd hs hown
      | generatedCreds m =>
        rw [hs] at hmiss
        simp only at hmiss
        refine ⟨{ Phase := phase, Auth := auth.counted, Header := header, User := user
                  Store := some store },
          ?_, by simp [GoError.Is, GoError.Is_self], ?_⟩
        · simp only [newCredentials, ControlledParams.counted, AuthService.counted, hauth,
            herr, hallow, hs, hcreate, hmiss, Bool.not_true, Bool.false_eq_true, if_false]
        · intro name2
          rfl

/-- C27 on the parameters of a user who is allowed nothing and has credentials cached
under the name `ci`: the call for `ci` returns nil credentials and an error wrapping
`ErrNotAuthorized`, the parameters stay as they are, and no credentials are created. -/
theorem C27_newCredentials_authorizes_first_witness :
    cached deniedParams "ci" = some { Key := "AKIA1", Secret := "s1" }
    ∧ ∃ e, newCredentials deniedParams.counted "ci"
          ([{ AccessKeyID := "AKIA2", SecretAccessKey := "s2" }], 0)
        = .ret ((none, some e), deniedParams.counted,
            ([{ AccessKeyID := "AKIA2", SecretAccessKey := "s2" }], 0))
      ∧ e.Is .ErrNotAuthorized = true :=
  ⟨by decide,
   (C27_newCredentials_authorizes_first deniedParams "ci"
      [{ AccessKeyID := "AKIA2", SecretAccessKey := "s2" }]
      [{ AccessKeyID := "AKIA2", SecretAccessKey := "s2" }] 0).2.2.1
      { Allowed := false, Error := none } rfl rfl rfl⟩

end LakeFS.Templater

namespace LakeFS.Dynamodb
open LakeFS LakeFS.KV LakeFS.Dynamodb

/-! ## Index safety of the iterator -/

/-- The in-memory table counts the items of its pages. -/
theorem Mem.sdk_countsItems : Mem.sdk.CountsItems := by
  intro input db out db1 h
  simp only [Mem.sdk, Mem.query] at h
  split at h
  · cases h
  · split at h
    · split at h
      · cases h
      · simp only [Prod.mk.injEq, Except.ok.injEq] at h
        rw [← h.1]
        simp [Mem.pageOutput]
    · cases h

/-- One call of `Next`, on an iterator whose index is within its page and whose backend
counts the items of its pages: the call does not panic, and when it returns, the index
is within the page again, the store is the same, and if it returns true the item it read
is at an index below the length of `Items`. -/
theorem nextLoop_indexInRange {σ : Type} (pages : Nat) (e : EntriesIterator σ) (db : σ)
    (hs : e.store.svc.CountsItems) (hi : e.IndexInRange) :
    e.nextLoop pages db ≠ .panic ∧
    ∀ b e1 db1, e.nextLoop pages db = .ret (b, e1, db1) →
      e1.IndexInRange ∧ e1.store = e.store ∧
      (b = true → 0 ≤ e1.currEntryIdx - 1
        ∧ e1.currEntryIdx - 1 < e1.queryResult.Items.length
        ∧ ∃ raw, e1.queryResult.Items.get? (e1.currEntryIdx - 1).toNat = some raw) := by
  induction pages generalizing e db with
  | zero =>
    unfold EntriesIterator.nextLoop
    by_cases hc : e.currEntryIdx = e.queryResult.Count
    · simp only [hc, if_true]
      cases hk : e.queryResult.LastEvaluatedKey with
      | none =>
        simp only
        refine ⟨by simp, ?_⟩
        intro b e1 db1 h
        simp only [Outcome.ret.injEq, Prod.mk.injEq] at h
        obtain ⟨hb, he, _⟩ := h
        subst he
        exact ⟨hi, rfl, fun hbt => by rw [← hb] at hbt; cases hbt⟩
      | some key =>
        simp only
        refine ⟨by simp, ?_⟩
        intro b e1 db1 h
        cases h
    · obtain ⟨h0, hle, hlen⟩ := hi
      have hlt : e.currEntryIdx < e.queryResult.Count := lt_of_le_of_ne hle hc
      have hnn : ¬ e.currEntryIdx < 0 := not_lt.mpr h0
      have hidx : e.currEntryIdx.toNat < e.queryResult.Items.length := by
        have : (e.currEntryIdx.toNat : Int) < (e.queryResult.Items.length : Int) := by
          rw [Int.toNat_of_nonneg h0, ← hlen]
          exact hlt
        exact_mod_cast this
      simp only [hc, if_false, hnn]
      rw [List.get?_eq_get hidx]
      simp only
      refine ⟨by simp, ?_⟩
      intro b e1 db1 h
      simp only [Outcome.ret.injEq, Prod.mk.injEq] at h
      obtain ⟨hb, he, _⟩ := h
      subst he
      refine ⟨⟨by show (0 : Int) ≤ e.currEntryIdx + 1; omega,
        by show e.currEntryIdx + 1 ≤ e.queryResult.Count; omega, hlen⟩, rfl, ?_⟩
      intro _
      refine ⟨by show (0 : Int) ≤ e.currEntryIdx + 1 - 1; omega,
        by show e.currEntryIdx + 1 - 1 < (e.queryResult.Items.length : Int); omega, ?_⟩
      refine ⟨e.queryResult.Items.get ⟨e.currEntryIdx.toNat, hidx⟩, ?_⟩
      show e.queryResult.Items.get? (e.currEntryIdx + 1 - 1).toNat = _
      rw [add_sub_cancel_right, List.get?_eq_get hidx]
  | succ pages ih =>
    unfold EntriesIterator.nextLoop
    by_cases hc : e.currEntryIdx = e.queryResult.Count
    · simp only [hc, if_true]
      cases hk : e.queryResult.LastEvaluatedKey with
      | none =>
        simp only
        refine ⟨by simp, ?_⟩
        intro b e1 db1 h
        simp only [Outcome.ret.injEq, Prod.mk.injEq] at h
        obtain ⟨hb, he, _⟩ := h
        subst he
        exact ⟨hi, rfl, fun hbt => by rw [← hb] at hbt; cases hbt⟩
      | some key =>
        simp only
        by_cases hp : e.partKey.len = 0
        · have hscan : e.store.scanInternal e.partKey e.startKey (some key) db
              = ((none, some (.sentinel .ErrMissingPartitionKey)), db) := by
            simp [Store.scanInternal, hp]
          rw [hscan]
          simp only
          refine ⟨by simp, ?_⟩
          intro b e1 db1 h
          simp only [Outcome.ret.injEq, Prod.mk.injEq] at h
          obtain ⟨hb, he, _⟩ := h
          subst he
          exact ⟨⟨hc ▸ hi.1, le_refl _, hi.2.2⟩, rfl,
            fun hbt => by rw [← hb] at hbt; cases hbt⟩
        · rw [scanInternal_sends e.store e.partKey e.startKey (some key) db hp]
          rcases hq : e.store.svc.QueryWithContext
              (e.store.queryInput e.partKey e.startKey (some key)) db with ⟨r, dbq⟩
          cases r with
          | error err =>
            simp only
            refine ⟨by simp, ?_⟩
            intro b e1 db1 h
            simp only [Outcome.ret.injEq, Prod.mk.injEq] at h
            obtain ⟨hb, he, _⟩ := h
            subst he
            exact ⟨⟨hc ▸ hi.1, le_refl _, hi.2.2⟩, rfl,
              fun hbt => by rw [← hb] at hbt; cases hbt⟩
          | ok out =>
            simp only
            have hout := hs _ _ _ _ hq
            have hi2 : ({ e with queryResult := out, currEntryIdx := 0 }
                : EntriesIterator σ).IndexInRange := by
              refine ⟨le_refl _, ?_, hout⟩
              show (0 : Int) ≤ out.Count
              rw [hout]
              exact Int.natCast_nonneg _
            exact ih { e with queryResult := out, currEntryIdx := 0 } dbq hs hi2
    · obtain ⟨h0, hle, hlen⟩ := hi
      have hlt : e.currEntryIdx < e.queryResult.Count := lt_of_le_of_ne hle hc
      have hnn : ¬ e.currEntryIdx < 0 := not_lt.mpr h0
      have hidx : e.currEntryIdx.toNat < e.queryResult.Items.length := by
        have : (e.currEntryIdx.toNat : Int) < (e.queryResult.Items.length : Int) := by
          rw [Int.toNat_of_nonneg h0, ← hlen]
          exact hlt
        exact_mod_cast this
      simp only [hc, if_false, hnn]
      rw [List.get?_eq_get hidx]
      simp only
      refine ⟨by simp, ?_⟩
      intro b e1 db1 h
      simp only [Outcome.ret.injEq, Prod.mk.injEq] at h
      obtain ⟨hb, he, _⟩ := h
      subst he
      refine ⟨⟨by show (0 : Int) ≤ e.currEntryIdx + 1; omega,
        by show e.currEntryIdx + 1 ≤ e.queryResult.Count; omega, hlen⟩, rfl, ?_⟩
      intro _
      refine ⟨by show (0 : Int) ≤ e.currEntryIdx + 1 - 1; omega,
        by show e.currEntryIdx + 1 - 1 < (e.queryResult.Items.length : Int); omega, ?_⟩
      refine ⟨e.queryResult.Items.get ⟨e.currEntryIdx.toNat, hidx⟩, ?_⟩
      show e.queryResult.Items.get? (e.currEntryIdx + 1 - 1).toNat = _
      rw [add_sub_cancel_right, List.get?_eq_get hidx]

end LakeFS.Dynamodb

namespace LakeFS.Dynamodb
open LakeFS LakeFS.KV LakeFS.Dynamodb

/-- Any number of calls of `Next`, with a `Close` anywhere among them, on an iterator
whose index is within its page and whose backend counts the items of its pages: no call
panics, and afterwards the index is within the page and the store is the same. -/
theorem nexts_indexInRange {σ : Type} (pages : Nat) (closeAt : Option Nat) (n : Nat)
    (e : EntriesIterator σ) (db : σ) (hs : e.store.svc.CountsItems) (hi : e.IndexInRange) :
    e.nexts pages closeAt n db ≠ .panic ∧
    ∀ e1 db1, e.nexts pages closeAt n db = .ret (e1, db1) →
      e1.IndexInRange ∧ e1.store = e.store := by
  induction n generalizing e db with
  | zero =>
    refine ⟨by simp [EntriesIterator.nexts], ?_⟩
    intro e1 db1 h
    simp only [EntriesIterator.nexts, Outcome.ret.injEq, Prod.mk.injEq] at h
    rw [← h.1]
    exact ⟨hi, rfl⟩
  | succ n ih =>
    have hstep : ∀ e0 : EntriesIterator σ, e0.store = e.store → e0.IndexInRange →
        e0.Next pages db ≠ .panic ∧
        ∀ b e1 db1, e0.Next pages db = .ret (b, e1, db1) →
          e1.IndexInRange ∧ e1.store = e.store := by
      intro e0 hst hi0
      unfold EntriesIterator.Next
      by_cases herr : e0.err ≠ none
      · rw [if_pos herr]
        refine ⟨by simp, ?_⟩
        intro b e1 db1 h
        simp only [Outcome.ret.injEq, Prod.mk.injEq] at h
        rw [← h.2.1]
        exact ⟨hi0, hst⟩
      · rw [if_neg herr]
        obtain ⟨hnp, hret⟩ := nextLoop_indexInRange pages e0 db (hst ▸ hs) hi0
        refine ⟨hnp, ?_⟩
        intro b e1 db1 h
        obtain ⟨h1, h2, _⟩ := hret b e1 db1 h
        exact ⟨h1, h2.trans hst⟩
    have hclose : (if closeAt = some n then e.Close else e).store = e.store
        ∧ (if closeAt = some n then e.Close else e).IndexInRange := by
      by_cases hc : closeAt = some n
      · rw [if_pos hc]
        exact ⟨rfl, hi⟩
      · rw [if_neg hc]
        exact ⟨rfl, hi⟩
    obtain ⟨hnp, hret⟩ := hstep _ hclose.1 hclose.2
    unfold EntriesIterator.nexts
    cases hn : (if closeAt = some n then e.Close else e).Next pages db with
    | panic => exact absurd hn hnp
    | fuel =>
      simp only
      refine ⟨by simp, ?_⟩
      intro e1 db1 h
      cases h
    | ret r =>
      obtain ⟨b, e2, db2⟩ := r
      simp only
      obtain ⟨hi2, hst2⟩ := hret b e2 db2 hn
      obtain ⟨hnp2, hret2⟩ := ih e2 db2 (hst2 ▸ hs) hi2
      refine ⟨hnp2, ?_⟩
      intro e1 db1 h
      obtain ⟨h1, h2⟩ := hret2 e1 db1 h
      exact ⟨h1, h2.trans hst2⟩

/-- C28: index safety of the iterator.  Over any backend whose pages have `Count` equal
to the length of `Items`: the iterator that `Scan` returns has `0 <= currEntryIdx <=
Count`; after any number of `Next` calls, with a `Close` anywhere among them, none of
which panics, it still has; and a further `Next` does not panic (so it does not read
`Items` out of range), and when it returns true, the item it read was at an index that
is at least 0 and strictly below `len(Items)`. -/
theorem C28_iterator_index_safety {σ : Type} (s : Store σ) (p start : Bytes) (db db0 : σ)
    (it : EntriesIterator σ) (hcount : s.svc.CountsItems)
    (hscan : s.Scan p start db = ((some it, none), db0)) :
    it.IndexInRange ∧
    ∀ pages closeAt n,
      it.nexts pages closeAt n db0 ≠ .panic ∧
      ∀ e db1, it.nexts pages closeAt n db0 = .ret (e, db1) →
        (0 ≤ e.currEntryIdx ∧ e.currEntryIdx ≤ e.queryResult.Count) ∧
        e.Next pages db1 ≠ .panic ∧
        ∀ e1 db2, e.Next pages db1 = .ret (true, e1, db2) →
          0 ≤ e1.currEntryIdx - 1
          ∧ e1.currEntryIdx - 1 < e1.queryResult.Items.length
          ∧ (∃ raw, e1.queryResult.Items.get? (e1.currEntryIdx - 1).toNat = some raw)
          ∧ 0 ≤ e1.currEntryIdx ∧ e1.currEntryIdx ≤ e1.queryResult.Count := by
  have hit : it.store = s ∧ it.IndexInRange := by
    unfold Store.Scan at hscan
    by_cases hp : p.len = 0
    · simp [Store.scanInternal, hp] at hscan
    · rw [scanInternal_sends s p start none db hp] at hscan
      rcases hq : s.svc.QueryWithContext (s.queryInput p start none) db with ⟨r, dbq⟩
      rw [hq] at hscan
      cases r with
      | error err => simp at hscan
      | ok out =>
        simp only [Prod.mk.injEq, Option.some.injEq, and_true] at hscan
        have hout := hcount _ _ _ _ hq
        rw [← hscan.1]
        refine ⟨rfl, le_refl _, ?_, hout⟩
        show (0 : Int) ≤ out.Count
        rw [hout]
        exact Int.natCast_nonneg _
  obtain ⟨hst, hi⟩ := hit
  have hs : it.store.svc.CountsItems := hst ▸ hcount
  refine ⟨hi, ?_⟩
  intro pages closeAt n
  obtain ⟨hnp, hret⟩ := nexts_indexInRange pages closeAt n it db0 hs hi
  refine ⟨hnp, ?_⟩
  intro e db1 h
  obtain ⟨hie, hste⟩ := hret e db1 h
  refine ⟨⟨hie.1, hie.2.1⟩, ?_, ?_⟩
  · unfold EntriesIterator.Next
    by_cases herr : e.err ≠ none
    · rw [if_pos herr]; simp
    · rw [if_neg herr]
      exact (nextLoop_indexInRange pages e db1 (hste ▸ hs) hie).1
  · intro e1 db2 hnext
    unfold EntriesIterator.Next at hnext
    by_cases herr : e.err ≠ none
    · rw [if_pos herr] at hnext
      simp at hnext
    · rw [if_neg herr] at hnext
      obtain ⟨hi1, _, hread⟩ :=
        (nextLoop_indexInRange pages e db1 (hste ▸ hs) hie).2 true e1 db2 hnext
      obtain ⟨h1, h2, h3⟩ := hread rfl
      exact ⟨h1, h2, h3, hi1.1, hi1.2.1⟩

/-- C28 on the in-memory table: the iterator that `Scan` returns for partition `[1]` has
its index within its page, and ten `Next` calls, the iterator closed before the last
three, do not panic. -/
theorem C28_iterator_index_safety_witness :
    (Mem.iterAt Mem.sampleParams [1] none
      (Mem.pageOutput Mem.sampleTable.rows { pk := [1], lo := none } none (some 2)) 0
      none).IndexInRange
    ∧ (Mem.iterAt Mem.sampleParams [1] none
        (Mem.pageOutput Mem.sampleTable.rows { pk := [1], lo := none } none (some 2)) 0
        none).nexts 5 (some 2) 10
          (Mem.sampleTable.record
            (.query ((Mem.store Mem.sampleParams).queryInput (some [1]) none none)))
        ≠ .panic :=
  ⟨(C28_iterator_index_safety (Mem.store Mem.sampleParams) (some [1]) none Mem.sampleTable
      (Mem.sampleTable.record
        (.query ((Mem.store Mem.sampleParams).queryInput (some [1]) none none)))
      (Mem.iterAt Mem.sampleParams [1] none
        (Mem.pageOutput Mem.sampleTable.rows { pk := [1], lo := none } none (some 2)) 0 none)
      Mem.sdk_countsItems rfl).1,
   ((C28_iterator_index_safety (Mem.store Mem.sampleParams) (some [1]) none Mem.sampleTable
      (Mem.sampleTable.record
        (.query ((Mem.store Mem.sampleParams).queryInput (some [1]) none none)))
      (Mem.iterAt Mem.sampleParams [1] none
        (Mem.pageOutput Mem.sampleTable.rows { pk := [1], lo := none } none (some 2)) 0 none)
      Mem.sdk_countsItems rfl).2 5 (some 2) 10).1⟩

end LakeFS.Dynamodb

namespace LakeFS.Dynamodb
open LakeFS LakeFS.KV LakeFS.Dynamodb

/-! ## Empty pages -/

/-- At the end of a page with a continuation key, a successful fetch puts the iterator
at the start of the page fetched, and the loop goes on from there. -/
theorem nextLoop_refill {σ : Type} (e : EntriesIterator σ) (db db1 : σ) (key : AttrMap)
    (page : QueryOutput) (pages : Nat) (hp : e.partKey.len ≠ 0)
    (hend : e.currEntryIdx = e.queryResult.Count)
    (hkey : e.queryResult.LastEvaluatedKey = some key)
    (hq : e.store.svc.QueryWithContext (e.store.queryInput e.partKey e.startKey (some key)) db
      = (.ok page, db1)) :
    e.nextLoop (pages + 1) db
      = ({ e with queryResult := page, currEntryIdx := 0 } : EntriesIterator σ).nextLoop
          pages db1 := by
  conv_lhs => unfold EntriesIterator.nextLoop
  simp only [hend, if_true, hkey, scanInternal_sends e.store e.partKey e.startKey (some key)
    db hp, hq]

/-- Through a run of empty pages the loop of `Next` fetches one page after the other,
and then the page `last`; it goes on at the start of `last`. -/
theorem nextLoop_skips {σ : Type} (skipped : List (QueryOutput × σ))
    (e : EntriesIterator σ) (db db1 db2 : σ) (key key1 : AttrMap) (last : QueryOutput)
    (extra : Nat) (hp : e.partKey.len ≠ 0)
    (hend : e.currEntryIdx = e.queryResult.Count)
    (hkey : e.queryResult.LastEvaluatedKey = some key)
    (hrun : e.store.EmptyPages e.partKey e.startKey skipped key db key1 db1)
    (hq : e.store.svc.QueryWithContext (e.store.queryInput e.partKey e.startKey (some key1))
      db1 = (.ok last, db2)) :
    e.nextLoop (skipped.length + 1 + extra) db
      = ({ e with queryResult := last, currEntryIdx := 0 } : EntriesIterator σ).nextLoop
          extra db2 := by
  induction skipped generalizing e db key with
  | nil =>
    obtain ⟨hk, hd⟩ := hrun
    subst hk
    subst hd
    have hn : ([] : List (QueryOutput × σ)).length + 1 + extra = extra + 1 := by
      simp [Nat.add_comm]
    rw [hn]
    exact nextLoop_refill e db1 db2 key1 last extra hp hend hkey hq
  | cons first rest ih =>
    obtain ⟨page, dbp⟩ := first
    obtain ⟨hfetch, hcount, keyp, hkeyp, hrest⟩ := hrun
    have hn : ((page, dbp) :: rest).length + 1 + extra = (rest.length + 1 + extra) + 1 := by
      simp only [List.length_cons]
      omega
    rw [hn, nextLoop_refill e db dbp key page (rest.length + 1 + extra) hp hend hkey hfetch]
    exact ih { e with queryResult := page, currEntryIdx := 0 } dbp keyp hp
      (by show (0 : Int) = page.Count; rw [hcount]) hkeyp hrest hq

/-- C29: empty pages do not end iteration.  Over any backend, for an iterator without
error that stands at the end of its page, with a continuation key: when the queries for
the following pages, each with the continuation key of the page before and the original
partition and start key, return a run of empty pages with continuation keys and then a
page `last`, `Next` returns within as many fetches as there are pages, with the service
in the state the last fetch left.  If `last` is non-empty it returns true with the first
item of `last` as the entry; if `last` is empty and has no continuation key it returns
false.  More fetches allowed change nothing. -/
theorem C29_empty_pages_do_not_end_iteration {σ : Type} (e : EntriesIterator σ)
    (skipped : List (QueryOutput × σ)) (db db1 db2 : σ) (key key1 : AttrMap)
    (last : QueryOutput) (extra : Nat)
    (herr : e.err = none) (hp : e.partKey.len ≠ 0)
    (hend : e.currEntryIdx = e.queryResult.Count)
    (hkey : e.queryResult.LastEvaluatedKey = some key)
    (hrun : e.store.EmptyPages e.partKey e.startKey skipped key db key1 db1)
    (hq : e.store.svc.QueryWithContext (e.store.queryInput e.partKey e.startKey (some key1))
      db1 = (.ok last, db2)) :
    (∀ raw, last.Count ≠ 0 → last.Items.get? 0 = some raw →
      ∃ e1, e.Next (skipped.length + 1 + extra) db = .ret (true, e1, db2)
        ∧ e1.queryResult = last ∧ e1.currEntryIdx = 1
        ∧ e1.Entry = some { Key := (e.store.svc.UnmarshalMap raw).1.ItemKey,
                            Value := (e.store.svc.UnmarshalMap raw).1.ItemValue }) ∧
    (last.Count = 0 → last.LastEvaluatedKey = none →
      e.Next (skipped.length + 1 + extra) db
        = .ret (false, { e with queryResult := last, currEntryIdx := 0 }, db2)) := by
  have hnext : e.Next (skipped.length + 1 + extra) db
      = ({ e with queryResult := last, currEntryIdx := 0 } : EntriesIterator σ).nextLoop
          extra db2 := by
    unfold EntriesIterator.Next
    rw [if_neg (by simp [herr])]
    exact nextLoop_skips skipped e db db1 db2 key key1 last extra hp hend hkey hrun hq
  constructor
  · intro raw hcount hraw
    rw [hnext]
    unfold EntriesIterator.nextLoop
    have hne : ¬ ((0 : Int) = last.Count) := fun h => hcount h.symm
    simp only [hne, if_false, lt_self_iff_false, Int.toNat_zero, hraw]
    exact ⟨_, rfl, rfl, rfl, rfl⟩
  · intro hcount hnokey
    rw [hnext]
    unfold EntriesIterator.nextLoop
    simp only [hcount, if_true, hnokey]

/-- C29 on a scripted backend: the iterator stands at the end of an empty page; the next
two pages are empty and have continuation keys, the third holds one item.  `Next`
fetches the three pages and returns true with that item. -/
theorem C29_empty_pages_do_not_end_iteration_witness :
    ∃ e1, Script.iter.Next (2 + 1 + 0)
          [Script.emptyPage [3], Script.emptyPage [4], Script.lastPage]
        = .ret (true, e1, [])
      ∧ e1.queryResult = Script.lastPage ∧ e1.currEntryIdx = 1
      ∧ e1.Entry = some { Key := some [9], Value := some [4] } :=
  (C29_empty_pages_do_not_end_iteration Script.iter
    [(Script.emptyPage [3], [Script.emptyPage [4], Script.lastPage]),
     (Script.emptyPage [4], [Script.lastPage])]
    [Script.emptyPage [3], Script.emptyPage [4], Script.lastPage] [Script.lastPage] []
    [("PartitionKey", { B := some [1] }), ("ItemKey", { B := some [2] })]
    [("PartitionKey", { B := some [1] }), ("ItemKey", { B := some [4] })]
    Script.lastPage 0 rfl (by decide) rfl rfl
    ⟨rfl, rfl, _, rfl, rfl, rfl, _, rfl, rfl, rfl⟩ rfl).1
    (Mem.encoded [1] [9] (some [4])) (by decide) rfl

end LakeFS.Dynamodb
